import Mathlib

/-!
# Tacent View: directory fingerprint, image memory budget and thumbnail cache pruning

A shallow embedding of the parts of `Src/TacentView.cpp` (and of the sibling
`Src/TacitTexView.cpp`, whose `ComputeImagesHash`, `LoadCurrImage`, navigation and
`FocusCallback` are the same code) that decide which decoded images stay in memory,
how the directory fingerprint is computed, how the catalog is built, sorted, navigated
and resynched when the window regains focus, and how the thumbnail cache directory is
pruned.

Conventions of the embedding:
* a `tString` is the list of characters of a C string (the bytes before the NUL);
* an `Image*` is an `ImagePtr`, the objects live in a `Heap`;
* `int`/`int64` values are `Int`; the one subtraction that can leave the `int`
  range (`Config.MaxCacheFiles - 100`) is wrapped explicitly;
* `double` time stamps and durations are rationals, they are only ever compared;
* `tAssert` failures and null dereferences make an operation return `none`.
-/

namespace Viewer

/-! ## Strings and lists (Tacent foundation) -/

/-- The characters of a C string. -/
abbrev tString := List Char

/-- The C locale `tolower` on the code of a character: only `A`..`Z` change. -/
def tolower (c : Char) : Nat :=
  if 65 ≤ c.toNat ∧ c.toNat ≤ 90 then c.toNat + 32 else c.toNat

/-- Modelled from the spec: tStricmp of the Tacent foundation library (it forwards to
the C library's case-insensitive string comparison, which is not under src/): the
strings are compared character by character after lower-casing, a proper initial
segment comparing smaller. Only the sign of the result is specified, so the model
returns -1, 0 or 1. -/
def tStricmp : tString → tString → Int
  | [], [] => 0
  | [], _ :: _ => -1
  | _ :: _, [] => 1
  | a :: as, b :: bs =>
      if tolower a < tolower b then -1
      else if tolower b < tolower a then 1
      else tStricmp as bs

/-- Modelled from the spec: tList::Sort and tItList::Sort of the Tacent foundation
library (not under src/), called with a compare function that returns `a < b`: the result
holds the items of the list in ascending order. The sources do not fix the order the
library leaves between items that compare equal; the model places every item before the
first item that is not smaller than it, and what is proved about items that compare equal
is proved for every `ComparisonSort`. -/
def tListSort {α : Type} (compare : α → α → Bool) (l : List α) : List α :=
  l.insertionSort (fun a b => compare b a = false)

/-- Modelled from the spec: what holds of the library sort whichever algorithm it runs and
whatever it does with items that compare equal. The result holds the items of the list, and
the items are looked at through `compare` only: relabelling the items in a way that leaves
every comparison as it was relabels the result. -/
def ComparisonSort (sort : (α : Type) → (α → α → Bool) → List α → List α) : Prop :=
  (∀ (α : Type) (compare : α → α → Bool) (l : List α), (sort α compare l).Perm l)
  ∧ ∀ (α β : Type) (f : α → β) (ca : α → α → Bool) (cb : β → β → Bool) (l : List α),
      (∀ a b, cb (f a) (f b) = ca a b) → sort β cb (l.map f) = (sort α ca l).map f

/-- The function tClampMin of the Tacent math library: the value, but at least `min`. -/
def tClampMin (val min : Int) : Int := if val < min then min else val

/-- A C `int` result: the mathematical value wrapped into the 32 bit two's complement range. -/
def wrapInt32 (x : Int) : Int := (x + 2 ^ 31) % 2 ^ 32 - 2 ^ 31

/-! ## Directory fingerprint -/

/-- When compare functions are used to sort, they result in ascending order if they return a < b. -/
def Compare_AlphabeticalAscending (a b : tString) : Bool := decide (tStricmp a b < 0)

/-- The loop of `ComputeImagesHash`: `hash = tHashString256(item, hash)` for each item in turn. -/
def ComputeImagesHash.loop (tHashString256 : tString → Nat → Nat) : List tString → Nat → Nat
  | [], hash => hash
  | item :: rest, hash => ComputeImagesHash.loop tHashString256 rest (tHashString256 item hash)

/-- The function `Viewer::ComputeImagesHash` (and `TexView::ComputeImagesHash`). The 256 bit
hash function of the Tacent library is a parameter. -/
def ComputeImagesHash (tHashString256 : tString → Nat → Nat) (files : List tString) : Nat :=
  ComputeImagesHash.loop tHashString256 files 0

/-- The value `Viewer::PopulateImages` (and `Viewer::FocusCallback`) computes for the found
files: the list is sorted with `Compare_AlphabeticalAscending` and then hashed. -/
def PopulateImages_ImagesHash (tHashString256 : tString → Nat → Nat) (foundFiles : List tString) : Nat :=
  ComputeImagesHash tHashString256 (tListSort Compare_AlphabeticalAscending foundFiles)

/-! ## Image records and the viewer state -/

/-- The fields of an `Image` object the catalog code reads. `Loaded` is what `IsLoaded()`
returns, `MemSizeBytes` is `Info.MemSizeBytes`, `LoadedTime` is what `GetLoadedTime()` returns. -/
structure Image where
  Filename : tString := []
  Filetype : Int := 0
  FileModTime : Int := 0
  FileSizeB : Nat := 0
  Loaded : Bool := false
  MemSizeBytes : Int := 0
  LoadedTime : ℚ := 0

/-- An `Image*`. -/
abbrev ImagePtr := Nat

/-- The `Image` objects, by address. -/
abbrev Heap := ImagePtr → Image

/-- The sort keys of `Settings::SortKeyEnum` that `SortImages` switches on. -/
inductive SortKeyEnum where
  | Alphabetical
  | FileModTime
  | FileSize
  | FileType

/-- The fields of `Config` (Settings.h is not under src/) that the modelled code reads. -/
structure Settings where
  MaxImageMemMB : Int := 1024
  SlidehowFrameDuration : ℚ := 8
  MaxCacheFiles : Int := 7000
  SlideshowLooping : Bool := true
  SortKey : SortKeyEnum := SortKeyEnum.Alphabetical
  SortAscending : Bool := true

/-- The globals of namespace `Viewer` that the modelled code reads or writes. -/
structure State where
  heap : Heap
  ImagesLoadTimeSorted : List ImagePtr
  CurrImage : Option ImagePtr
  SlideshowPlaying : Bool := false
  Images : List ImagePtr := []
  ImagesHash : Nat := 0
  ImageFileParam : Option tString := none
  SlideshowCountdown : ℚ := 0

/-- Modelled from the spec: Image::Load (Image.cpp is not under src/). The Decoder either
fails (`none`: the record stays Unloaded and Load returns false) or succeeds with the decoded
footprint and the time of the load (the record becomes Loaded and both are recorded). -/
def Image.Load (img : Image) (decoded : Option (Int × ℚ)) : Image × Bool :=
  match decoded with
  | none => (img, false)
  | some (memSizeBytes, now) =>
      ({ img with Loaded := true, MemSizeBytes := memSizeBytes, LoadedTime := now }, true)

/-- Modelled from the spec: Image::Unload (Image.cpp is not under src/). Unloading is always
safe: the record becomes Unloaded and its footprint becomes zero. -/
def Image.Unload (img : Image) : Image :=
  { img with Loaded := false, MemSizeBytes := 0 }

/-- The comparison `Compare_ImageLoadTimeAscending`, on the objects two pointers designate. -/
def Compare_ImageLoadTimeAscending (heap : Heap) (a b : ImagePtr) : Bool :=
  decide ((heap a).LoadedTime < (heap b).LoadedTime)

/-- One unload performed by the eviction loop: the record, and the objects as they were
just before `Unload` was called on it. -/
structure UnloadEvent where
  image : ImagePtr
  heapBefore : Heap

/-- What the eviction loop of `LoadCurrImage` leaves: the objects, the running total
`usedMem` and, in order, the unloads it performed. -/
structure EvictResult where
  heap : Heap
  usedMem : Int
  unloads : List UnloadEvent

/-- The second loop of `LoadCurrImage`, over the load-time sorted list: every record that is
loaded and is not `CurrImage` is unloaded and its size subtracted from `usedMem`, and the loop
is left as soon as `usedMem < allowedMem`. -/
def LoadCurrImage.evict (CurrImage : ImagePtr) (allowedMem : Int) :
    List ImagePtr → Heap → Int → EvictResult
  | [], heap, usedMem => { heap := heap, usedMem := usedMem, unloads := [] }
  | i :: rest, heap, usedMem =>
      -- Never unload the current image.
      if (heap i).Loaded && i != CurrImage then
        let usedMem1 := usedMem - (heap i).MemSizeBytes
        let heap1 := Function.update heap i (heap i).Unload
        if usedMem1 < allowedMem then
          { heap := heap1, usedMem := usedMem1, unloads := [{ image := i, heapBefore := heap }] }
        else
          let r := LoadCurrImage.evict CurrImage allowedMem rest heap1 usedMem1
          { r with unloads := { image := i, heapBefore := heap } :: r.unloads }
      else
        LoadCurrImage.evict CurrImage allowedMem rest heap usedMem

/-- The first loop of the eviction pass: `usedMem += MemSizeBytes` over the whole list. -/
def LoadCurrImage.usedMem (heap : Heap) (images : List ImagePtr) : Int :=
  images.foldl (fun usedMem i => usedMem + (heap i).MemSizeBytes) 0

/-- The function `Viewer::LoadCurrImage` (and `TexView::LoadCurrImage`), together with the
unloads it performed. `decoded` is what the Decoder answers if `Load` is called. The window
title, pan, property editor and animation playback it also sets are not part of the state.
The result is `none` when `tAssert(CurrImage)` fails. -/
def LoadCurrImage.run (Config : Settings) (decoded : Option (Int × ℚ)) (s : State) :
    Option (State × List UnloadEvent) :=
  match s.CurrImage with
  | none => none
  | some curr =>
      let loadResult : Image × Bool :=
        if !(s.heap curr).Loaded then (s.heap curr).Load decoded else (s.heap curr, false)
      let heap := Function.update s.heap curr loadResult.1
      let imgJustLoaded := loadResult.2
      -- We currently do not allow unloading when in slideshow and the frame duration is small.
      let slideshowSmallDuration :=
        s.SlideshowPlaying && decide (Config.SlidehowFrameDuration < 1 / 2)
      if imgJustLoaded && !slideshowSmallDuration then
        let sorted := tListSort (Compare_ImageLoadTimeAscending heap) s.ImagesLoadTimeSorted
        let usedMem := LoadCurrImage.usedMem heap sorted
        let allowedMem := Config.MaxImageMemMB * 1024 * 1024
        if usedMem > allowedMem then
          let r := LoadCurrImage.evict curr allowedMem sorted heap usedMem
          some ({ s with heap := r.heap, ImagesLoadTimeSorted := sorted }, r.unloads)
        else
          some ({ s with heap := heap, ImagesLoadTimeSorted := sorted }, [])
      else
        some ({ s with heap := heap }, [])

/-- The state `Viewer::LoadCurrImage` leaves. -/
def LoadCurrImage (Config : Settings) (decoded : Option (Int × ℚ)) (s : State) : Option State :=
  (LoadCurrImage.run Config decoded s).map Prod.fst

/-- The sum of the footprints of the Loaded records of a list. -/
def LoadedFootprint (heap : Heap) (images : List ImagePtr) : Int :=
  (images.map (fun i => if (heap i).Loaded then (heap i).MemSizeBytes else 0)).sum

/-- The records of a list that are Loaded and are not `curr`: the ones the eviction loop may unload. -/
def evictionCandidates (heap : Heap) (curr : ImagePtr) (images : List ImagePtr) : List ImagePtr :=
  images.filter (fun i => (heap i).Loaded && i != curr)

/-- The current image after the load step of `LoadCurrImage`: `Load` is called only if it is not loaded. -/
def heapAfterLoad (decoded : Option (Int × ℚ)) (heap : Heap) (curr : ImagePtr) : Heap :=
  Function.update heap curr
    (if !(heap curr).Loaded then ((heap curr).Load decoded).1 else heap curr)

/-- The objects of the scenario of the specification: X (at 1) and Z (at 3) are loaded with
40MB each, at times 1 and 3; Y (at 2) is not loaded yet. -/
def scenarioHeap : Heap := fun p =>
  if p = 1 then
    { Filename := "X.png".toList, Loaded := true, MemSizeBytes := 40 * 1024 * 1024, LoadedTime := 1 }
  else if p = 2 then
    { Filename := "Y.png".toList }
  else if p = 3 then
    { Filename := "Z.png".toList, Loaded := true, MemSizeBytes := 40 * 1024 * 1024, LoadedTime := 3 }
  else {}

/-- The state of the scenario: Y is selected and is about to be loaded. -/
def scenarioState : State :=
  { heap := scenarioHeap, ImagesLoadTimeSorted := [3, 2, 1], CurrImage := some 2 }

/-- The scenario while a slideshow is playing. -/
def scenarioSlideshow : State :=
  { scenarioState with SlideshowPlaying := true }

/-- The Decoder's answer in the scenario: Y decodes to 40MB, at time 2. -/
def scenarioDecoded : Option (Int × ℚ) := some (40 * 1024 * 1024, 2)

/-! ## Thumbnail cache pruning -/

/-- The comparison `Compare_FileCreationTimeAscending`; `CreationTime` is what `tGetFileInfo`
reports for a file. -/
def Compare_FileCreationTimeAscending (CreationTime : tString → Nat) (a b : tString) : Bool :=
  decide (CreationTime a < CreationTime b)

/-- What `RemoveOldCacheFiles` leaves: the value it returns, the files it called `tDeleteFile`
on (in order), the files still in its local list, and the cache files left in the directory. -/
structure RemoveResult where
  deletedCount : Int
  attempted : List tString
  cacheFiles : List tString
  cacheDir : List tString

/-- The removal loop of `RemoveOldCacheFiles`: `numToRemove` times the head of the list is
removed and `tDeleteFile` is called on it. Removing from an empty list gives a null pointer,
whose dereference is `none`. -/
def RemoveOldCacheFiles.loop (tDeleteFile : tString → Bool) :
    Nat → RemoveResult → Option RemoveResult
  | 0, r => some r
  | numToRemove + 1, r =>
      match r.cacheFiles with
      | [] => none
      | head :: rest =>
          RemoveOldCacheFiles.loop tDeleteFile numToRemove
            { deletedCount := if tDeleteFile head then r.deletedCount + 1 else r.deletedCount
              attempted := r.attempted ++ [head]
              cacheFiles := rest
              cacheDir := if tDeleteFile head then r.cacheDir.erase head else r.cacheDir }

/-- The function `Viewer::RemoveOldCacheFiles`. `cacheDir` is the list of the `bin` files of
the cache directory as `tFindFiles` returns it, `CreationTime` their creation times and
`tDeleteFile` says for which files the deletion succeeds. The result is `none` when
`tAssert(numToRemove >= 0)` fails. -/
def RemoveOldCacheFiles (Config : Settings) (CreationTime : tString → Nat)
    (tDeleteFile : tString → Bool) (cacheDir : List tString) : Option RemoveResult :=
  let cacheFiles := cacheDir
  let numFiles : Int := cacheFiles.length
  if numFiles ≤ Config.MaxCacheFiles then
    some { deletedCount := 0, attempted := [], cacheFiles := cacheFiles, cacheDir := cacheDir }
  else
    let cacheFiles := tListSort (Compare_FileCreationTimeAscending CreationTime) cacheFiles
    let targetCount := tClampMin (wrapInt32 (Config.MaxCacheFiles - 100)) 0
    let numToRemove := numFiles - targetCount
    if numToRemove < 0 then none
    else
      RemoveOldCacheFiles.loop tDeleteFile numToRemove.toNat
        { deletedCount := 0, attempted := [], cacheFiles := cacheFiles, cacheDir := cacheDir }

/-! ## The catalog: sorting, finding, navigation and refocus -/

/-- Modelled from the spec: tString::IsEqualCI of the Tacent foundation library (not under
src/): equality of two strings ignoring case. -/
def IsEqualCI (a b : tString) : Bool := decide (tStricmp a b = 0)

/-- Modelled from the spec: tSystem::tGetFileName of the Tacent library (not under src/): the
final path segment, the characters after the last `/`. -/
def tGetFileName (filename : tString) : tString :=
  (filename.reverse.takeWhile (fun c => c != '/')).reverse

/-- Modelled from the spec: tList::First, the head item of the list or null. -/
def tListFirst (l : List ImagePtr) : Option ImagePtr := l.head?

/-- Modelled from the spec: tList::Last, the tail item of the list or null. -/
def tListLast (l : List ImagePtr) : Option ImagePtr := l.getLast?

/-- Modelled from the spec: tLink::Next of an item of an intrusive list, its successor in the
list order, null for the last item (and for an item that is not in the list). -/
def tListNext : List ImagePtr → ImagePtr → Option ImagePtr
  | [], _ => none
  | a :: rest, item => if a = item then rest.head? else tListNext rest item

/-- Modelled from the spec: tLink::Prev of an item of an intrusive list, its predecessor in
the list order, null for the first item (and for an item that is not in the list). -/
def tListPrev : List ImagePtr → ImagePtr → Option ImagePtr
  | [], _ => none
  | [_], _ => none
  | a :: b :: rest, item =>
      if a = item then none
      else if b = item then some a
      else tListPrev (b :: rest) item

/-- Modelled from the spec: tList::NextCirc, the successor, wrapping around to the first item. -/
def tListNextCirc (l : List ImagePtr) (item : ImagePtr) : Option ImagePtr :=
  match tListNext l item with
  | some next => some next
  | none => tListFirst l

/-- Modelled from the spec: tList::PrevCirc, the predecessor, wrapping around to the last item. -/
def tListPrevCirc (l : List ImagePtr) (item : ImagePtr) : Option ImagePtr :=
  match tListPrev l item with
  | some prev => some prev
  | none => tListLast l

/-- The comparison `Compare_ImageFileNameAscending`, on the objects two pointers designate. -/
def Compare_ImageFileNameAscending (heap : Heap) (a b : ImagePtr) : Bool :=
  decide (tStricmp (heap a).Filename (heap b).Filename < 0)

/-- The comparison `Compare_ImageFileNameDescending`. -/
def Compare_ImageFileNameDescending (heap : Heap) (a b : ImagePtr) : Bool :=
  decide (tStricmp (heap a).Filename (heap b).Filename > 0)

/-- The comparison `Compare_ImageFileTypeAscending`. -/
def Compare_ImageFileTypeAscending (heap : Heap) (a b : ImagePtr) : Bool :=
  decide ((heap a).Filetype < (heap b).Filetype)

/-- The comparison `Compare_ImageFileTypeDescending`. -/
def Compare_ImageFileTypeDescending (heap : Heap) (a b : ImagePtr) : Bool :=
  decide ((heap a).Filetype > (heap b).Filetype)

/-- The comparison `Compare_ImageModTimeAscending`. -/
def Compare_ImageModTimeAscending (heap : Heap) (a b : ImagePtr) : Bool :=
  decide ((heap a).FileModTime < (heap b).FileModTime)

/-- The comparison `Compare_ImageModTimeDescending`. -/
def Compare_ImageModTimeDescending (heap : Heap) (a b : ImagePtr) : Bool :=
  decide ((heap a).FileModTime > (heap b).FileModTime)

/-- The comparison `Compare_ImageFileSizeAscending`. -/
def Compare_ImageFileSizeAscending (heap : Heap) (a b : ImagePtr) : Bool :=
  decide ((heap a).FileSizeB < (heap b).FileSizeB)

/-- The comparison `Compare_ImageFileSizeDescending`. -/
def Compare_ImageFileSizeDescending (heap : Heap) (a b : ImagePtr) : Bool :=
  decide ((heap a).FileSizeB > (heap b).FileSizeB)

/-- The compare function the switch of `SortImages` selects. -/
def SortImages.sortFn (heap : Heap) (key : SortKeyEnum) (ascending : Bool) :
    ImagePtr → ImagePtr → Bool :=
  match key with
  | SortKeyEnum.Alphabetical =>
      if ascending then Compare_ImageFileNameAscending heap else Compare_ImageFileNameDescending heap
  | SortKeyEnum.FileModTime =>
      if ascending then Compare_ImageModTimeAscending heap else Compare_ImageModTimeDescending heap
  | SortKeyEnum.FileSize =>
      if ascending then Compare_ImageFileSizeAscending heap else Compare_ImageFileSizeDescending heap
  | SortKeyEnum.FileType =>
      if ascending then Compare_ImageFileTypeAscending heap else Compare_ImageFileTypeDescending heap

/-- The function `Viewer::SortImages`: `Images.Sort(sortFn)`. -/
def SortImages (key : SortKeyEnum) (ascending : Bool) (s : State) : State :=
  { s with Images := tListSort (SortImages.sortFn s.heap key ascending) s.Images }

/-- The loop of `Viewer::FindImage` over `Images`. -/
def FindImage.loop (heap : Heap) (filename : tString) : List ImagePtr → Option ImagePtr
  | [] => none
  | si :: rest =>
      if IsEqualCI (heap si).Filename filename then some si
      else FindImage.loop heap filename rest

/-- The function `Viewer::FindImage`: the first image whose `Filename` equals `filename`
ignoring case, or null. -/
def FindImage (filename : tString) (s : State) : Option ImagePtr :=
  FindImage.loop s.heap filename s.Images

/-- The loop of `Viewer::SetCurrentImage` over `Images`: the first image whose file name
equals the file name of `currFilename` ignoring case. -/
def SetCurrentImage.loop (heap : Heap) (currFilename : tString) : List ImagePtr → Option ImagePtr
  | [] => none
  | si :: rest =>
      if tStricmp (tGetFileName (heap si).Filename) (tGetFileName currFilename) = 0 then some si
      else SetCurrentImage.loop heap currFilename rest

/-- The function `Viewer::SetCurrentImage` (and `TexView::SetCurrentImage`). Called without an
argument, `currFilename` is the empty string. The zoom mode it resets and the messages it
prints are not part of the state. -/
def SetCurrentImage (Config : Settings) (decoded : Option (Int × ℚ)) (currFilename : tString)
    (s : State) : Option State :=
  let s1 : State :=
    match SetCurrentImage.loop s.heap currFilename s.Images with
    | some si => { s with CurrImage := some si }
    | none => s
  let s2 : State :=
    if s1.CurrImage.isNone then { s1 with CurrImage := tListFirst s1.Images } else s1
  if s2.CurrImage.isSome then LoadCurrImage Config decoded s2 else some s2

/-- The function `Viewer::OnPrevious` (and `TexView::OnPrevious`): the state it leaves and the
value it returns. -/
def OnPrevious (Config : Settings) (decoded : Option (Int × ℚ)) (s : State) :
    Option (State × Bool) :=
  let circ := s.SlideshowPlaying && Config.SlideshowLooping
  match s.CurrImage with
  | none => some (s, false)
  | some curr =>
      if !circ && (tListPrev s.Images curr).isNone then some (s, false)
      else
        let s1 : State :=
          if s.SlideshowPlaying then { s with SlideshowCountdown := Config.SlidehowFrameDuration }
          else s
        let s2 : State :=
          { s1 with CurrImage := if circ then tListPrevCirc s.Images curr
                                  else tListPrev s.Images curr }
        (LoadCurrImage Config decoded s2).map (fun s3 => (s3, true))

/-- The function `Viewer::OnNext` (and `TexView::OnNext`): the state it leaves and the value
it returns. -/
def OnNext (Config : Settings) (decoded : Option (Int × ℚ)) (s : State) :
    Option (State × Bool) :=
  let circ := s.SlideshowPlaying && Config.SlideshowLooping
  match s.CurrImage with
  | none => some (s, false)
  | some curr =>
      if !circ && (tListNext s.Images curr).isNone then some (s, false)
      else
        let s1 : State :=
          if s.SlideshowPlaying then { s with SlideshowCountdown := Config.SlidehowFrameDuration }
          else s
        let s2 : State :=
          { s1 with CurrImage := if circ then tListNextCirc s.Images curr
                                  else tListNext s.Images curr }
        (LoadCurrImage Config decoded s2).map (fun s3 => (s3, true))

/-- The function `Viewer::OnSkipBegin`. -/
def OnSkipBegin (Config : Settings) (decoded : Option (Int × ℚ)) (s : State) :
    Option (State × Bool) :=
  if s.CurrImage.isNone || (tListFirst s.Images).isNone then some (s, false)
  else (LoadCurrImage Config decoded { s with CurrImage := tListFirst s.Images }).map
    (fun s1 => (s1, true))

/-- The function `Viewer::OnSkipEnd`. -/
def OnSkipEnd (Config : Settings) (decoded : Option (Int × ℚ)) (s : State) :
    Option (State × Bool) :=
  if s.CurrImage.isNone || (tListLast s.Images).isNone then some (s, false)
  else (LoadCurrImage Config decoded { s with CurrImage := tListLast s.Images }).map
    (fun s1 => (s1, true))

/-- What the file system reports for a file when an `Image` is constructed from it. -/
structure FileAttributes where
  Filetype : Int := 0
  FileModTime : Int := 0
  FileSizeB : Nat := 0

/-- Modelled from the spec: the constructor Image::Image(filename) (Image.cpp is not under
src/): a record for the file, Unloaded, with the type, modification time and size of the
file. -/
def Image.create (attributes : tString → FileAttributes) (filename : tString) : Image :=
  { Filename := filename
    Filetype := (attributes filename).Filetype
    FileModTime := (attributes filename).FileModTime
    FileSizeB := (attributes filename).FileSizeB }

/-- The loop of `PopulateImages` over the found files: a new `Image` is constructed for each
file and appended to `Images` and to `ImagesLoadTimeSorted`. The new object is given the
first address after those of the objects constructed so far. -/
def PopulateImages.loop (attributes : tString → FileAttributes) : List tString → State → State
  | [], s => s
  | filename :: rest, s =>
      let newImg : ImagePtr := s.Images.length + 1
      PopulateImages.loop attributes rest
        { s with
          heap := Function.update s.heap newImg (Image.create attributes filename)
          Images := s.Images ++ [newImg]
          ImagesLoadTimeSorted := s.ImagesLoadTimeSorted ++ [newImg] }

/-- The function `Viewer::PopulateImages`. `foundFiles` is what
`FindImageFilesInCurrentFolder` finds, in the order it finds it. Clearing `Images` deletes
its objects: no object is left at any address. `ImagesDir` and `ImagesSubDirs` are not part
of the state. -/
def PopulateImages (Config : Settings) (tHashString256 : tString → Nat → Nat)
    (attributes : tString → FileAttributes) (foundFiles : List tString) (s : State) : State :=
  let s1 : State := { s with heap := fun _ => {}, Images := [], ImagesLoadTimeSorted := [] }
  -- We sort here so ComputeImagesHash always returns consistent values.
  let foundFiles := tListSort Compare_AlphabeticalAscending foundFiles
  let s2 : State := { s1 with ImagesHash := ComputeImagesHash tHashString256 foundFiles }
  let s3 := PopulateImages.loop attributes foundFiles s2
  let s4 := SortImages Config.SortKey Config.SortAscending s3
  { s4 with CurrImage := none }

/-- The function `Viewer::FocusCallback` (and `TexView::FocusCallback`): the state it leaves,
and whether it found a hash mismatch and resynched. `foundFiles` is what
`FindImageFilesInCurrentFolder` finds at the time of the call. `ImagesDir` and
`ImagesSubDirs`, which it refreshes first, are not part of the state. -/
def FocusCallback.run (Config : Settings) (tHashString256 : tString → Nat → Nat)
    (attributes : tString → FileAttributes) (decoded : Option (Int × ℚ))
    (foundFiles : List tString) (gotFocus : Int) (s : State) : Option (State × Bool) :=
  if gotFocus = 0 then some (s, false)
  else
    -- We sort here so ComputeImagesHash always returns consistent values.
    let files := tListSort Compare_AlphabeticalAscending foundFiles
    let hash := ComputeImagesHash tHashString256 files
    if hash ≠ s.ImagesHash then
      let s1 := PopulateImages Config tHashString256 attributes foundFiles s
      let r :=
        match s1.ImageFileParam with
        | some param => SetCurrentImage Config decoded param s1
        | none => SetCurrentImage Config decoded [] s1
      r.map (fun s2 => (s2, true))
    else some (s, false)

/-- The state `Viewer::FocusCallback` leaves. -/
def FocusCallback (Config : Settings) (tHashString256 : tString → Nat → Nat)
    (attributes : tString → FileAttributes) (decoded : Option (Int × ℚ))
    (foundFiles : List tString) (gotFocus : Int) (s : State) : Option State :=
  (FocusCallback.run Config tHashString256 attributes decoded foundFiles gotFocus s).map Prod.fst

/-- The order `SortImages` is to establish between an earlier and a later record, for a key
and a direction. -/
def keyOrdered (heap : Heap) (key : SortKeyEnum) (ascending : Bool) (a b : ImagePtr) : Prop :=
  match key, ascending with
  | SortKeyEnum.Alphabetical, true => tStricmp (heap a).Filename (heap b).Filename ≤ 0
  | SortKeyEnum.Alphabetical, false => 0 ≤ tStricmp (heap a).Filename (heap b).Filename
  | SortKeyEnum.FileModTime, true => (heap a).FileModTime ≤ (heap b).FileModTime
  | SortKeyEnum.FileModTime, false => (heap b).FileModTime ≤ (heap a).FileModTime
  | SortKeyEnum.FileSize, true => (heap a).FileSizeB ≤ (heap b).FileSizeB
  | SortKeyEnum.FileSize, false => (heap b).FileSizeB ≤ (heap a).FileSizeB
  | SortKeyEnum.FileType, true => (heap a).Filetype ≤ (heap b).Filetype
  | SortKeyEnum.FileType, false => (heap b).Filetype ≤ (heap a).Filetype

/-- Two records have keys that compare equal, for a sort key. -/
def keyEqual (heap : Heap) (key : SortKeyEnum) (a b : ImagePtr) : Prop :=
  match key with
  | SortKeyEnum.Alphabetical => tStricmp (heap a).Filename (heap b).Filename = 0
  | SortKeyEnum.FileModTime => (heap a).FileModTime = (heap b).FileModTime
  | SortKeyEnum.FileSize => (heap a).FileSizeB = (heap b).FileSizeB
  | SortKeyEnum.FileType => (heap a).Filetype = (heap b).Filetype

/-- The file names of the records of a list, in order. -/
def fileNames (heap : Heap) (images : List ImagePtr) : List tString :=
  images.map (fun i => (heap i).Filename)

/-- The catalog of the scenario of the specification, as built from b.png (at 1), a.png
(at 2) and c.jpg (at 3), in that order. -/
def catalogHeap : Heap := fun p =>
  if p = 1 then { Filename := "/pics/b.png".toList, FileSizeB := 10 }
  else if p = 2 then { Filename := "/pics/a.png".toList, FileSizeB := 10 }
  else if p = 3 then { Filename := "/pics/c.jpg".toList, FileSizeB := 30 }
  else {}

/-- The scenario catalog before it is sorted. -/
def catalogState : State :=
  { heap := catalogHeap, Images := [1, 2, 3], ImagesLoadTimeSorted := [1, 2, 3], CurrImage := none }

/-- The scenario catalog sorted ascending by name, with a.png selected. -/
def catalogSorted : State :=
  { heap := catalogHeap, Images := [2, 1, 3], ImagesLoadTimeSorted := [1, 2, 3],
    CurrImage := some 2 }

/-- The objects of a heap with other file names: the object at `i` is named `rename i`. -/
def renameFiles (heap : Heap) (rename : ImagePtr → tString) : Heap :=
  fun i => { heap i with Filename := rename i }

/-- The relabelling of the scenario catalog that exchanges b.png (at 1) and a.png (at 2). -/
def exchangeTied (p : ImagePtr) : ImagePtr :=
  if p = 1 then 2 else if p = 2 then 1 else p

/-- The scenario catalog with the names of b.png and a.png exchanged: a.png at 1, b.png
at 2, the sizes as they were. -/
def catalogRenamed : State :=
  { catalogState with
    heap := renameFiles catalogHeap (fun i => (catalogHeap (exchangeTied i)).Filename) }

/-- A hash function for the examples that tells A.png from every other file. -/
def markHash (item : tString) (hash : Nat) : Nat :=
  2 * hash + (if item = "A.png".toList then 1 else 0)

/-- The invariant of the catalog: the primary order and the eviction order hold the same
records. -/
def CatalogConsistent (s : State) : Prop := s.Images.Perm s.ImagesLoadTimeSorted

/-- The state `s1` holds, in each of its two lists, the records the state `s` holds there. -/
def SameRecords (s s1 : State) : Prop :=
  s1.Images.Perm s.Images ∧ s1.ImagesLoadTimeSorted.Perm s.ImagesLoadTimeSorted

/-- A hash function for the examples: it mixes the characters of the file name into the
256 bit hash so far. -/
def exampleHash (item : tString) (hash : Nat) : Nat :=
  (31 * hash + (item.map Char.toNat).sum) % 2 ^ 256

/-- The listing of the example folder: a.png, b.png and c.jpg. -/
def refocusListing : List tString :=
  ["/pics/b.png".toList, "/pics/a.png".toList, "/pics/c.jpg".toList]

/-- The objects of the refocus example: a.png (at 1), b.png (at 2) and c.jpg (at 3), the last
one loaded. -/
def refocusHeap : Heap := fun p =>
  if p = 1 then { Filename := "/pics/a.png".toList }
  else if p = 2 then { Filename := "/pics/b.png".toList }
  else if p = 3 then
    { Filename := "/pics/c.jpg".toList, Loaded := true, MemSizeBytes := 1024, LoadedTime := 5 }
  else {}

/-- The state of the refocus example: the viewer was opened on b.png (`ImageFileParam`), the
user has since moved on to c.jpg, and the stored hash is that of the listing. -/
def refocusState : State :=
  { heap := refocusHeap, Images := [1, 2, 3], ImagesLoadTimeSorted := [1, 2, 3]
    CurrImage := some 3
    ImagesHash := PopulateImages_ImagesHash exampleHash refocusListing
    ImageFileParam := some "/pics/b.png".toList }

/-- The file name of the selected record, if there is one. -/
def currentFilename (s : State) : Option tString :=
  s.CurrImage.map (fun p => (s.heap p).Filename)

/-! ## Refresh and deletion of the current file -/

/-- The refresh of the current file in `Viewer::KeyCallback` (keys F5 and R) and in
`Viewer::Update` (Refresh button): if there is a current image it is unloaded and loaded
again. `LoadCurrImage` is not called. Binding and the window title are not part of the
state. -/
def KeyCallback.Refresh (decoded : Option (Int × ℚ)) (s : State) : State :=
  match s.CurrImage with
  | none => s
  | some curr =>
      { s with heap := Function.update s.heap curr ((s.heap curr).Unload.Load decoded).1 }

/-- The function `Viewer::DeleteImageFile`: the state it leaves and the value it returns.
`tDeleteFile imgFile useRecycleBin` says whether that deletion succeeds and `foundFiles` is
what the folder lists after a successful deletion. The result is `none` when `CurrImage` is
null, which the function dereferences. -/
def DeleteImageFile (Config : Settings) (tHashString256 : tString → Nat → Nat)
    (attributes : tString → FileAttributes) (decoded : Option (Int × ℚ))
    (tDeleteFile : tString → Bool → Bool) (foundFiles : List tString)
    (imgFile : tString) (tryUseRecycleBin : Bool) (s : State) : Option (State × Bool) :=
  match s.CurrImage with
  | none => none
  | some curr =>
      let nextImgFile : tString :=
        match tListNext s.Images curr with
        | some next => (s.heap next).Filename
        | none => []
      let deleted := tDeleteFile imgFile tryUseRecycleBin
      let deleted := if !deleted && tryUseRecycleBin then tDeleteFile imgFile false else deleted
      if deleted then
        -- We set this so if we lose and gain focus, we go back to the current image.
        let s1 : State := { s with ImageFileParam := some nextImgFile }
        let s2 := PopulateImages Config tHashString256 attributes foundFiles s1
        (SetCurrentImage Config decoded nextImgFile s2).map (fun s3 => (s3, true))
      else some (s, false)

/-- What the eviction pass establishes for the current image `curr`: the footprints of the
Loaded records sum to at most the budget, or `curr` is the only Loaded record. -/
def BudgetMet (Config : Settings) (s : State) (curr : ImagePtr) : Prop :=
  LoadedFootprint s.heap s.ImagesLoadTimeSorted ≤ Config.MaxImageMemMB * 1024 * 1024
    ∨ ∀ i ∈ s.ImagesLoadTimeSorted, (s.heap i).Loaded = true → i = curr

/-- The record `curr` is selected and was taken from Unloaded to Loaded between `s` and `s1`. -/
def NewlyLoaded (s s1 : State) (curr : ImagePtr) : Prop :=
  s1.CurrImage = some curr ∧ (s.heap curr).Loaded = false ∧ (s1.heap curr).Loaded = true

/-- The scenario as a catalog to navigate: X (at 1, loaded), Y (at 2, not loaded) and Z (at 3,
loaded) in that order, X selected. -/
def navState : State :=
  { heap := scenarioHeap, Images := [1, 2, 3], ImagesLoadTimeSorted := [3, 2, 1]
    CurrImage := some 1 }

/-- The catalog to navigate while a slideshow plays without looping. -/
def navSlideshow : State :=
  { navState with SlideshowPlaying := true }

/-- Settings of a slideshow that shows each image for a quarter of a second, without looping,
with a budget of 100MB. -/
def fastSlideshowConfig : Settings :=
  { MaxImageMemMB := 100, SlidehowFrameDuration := 1 / 4, SlideshowLooping := false }

/-- Settings of a slideshow that loops, with a budget of 100MB. -/
def loopingConfig : Settings :=
  { MaxImageMemMB := 100, SlideshowLooping := true }

/-- A catalog of one record, selected, while a slideshow plays. -/
def loneSlideshow : State :=
  { heap := scenarioHeap, Images := [2], ImagesLoadTimeSorted := [2], CurrImage := some 2
    SlideshowPlaying := true }

/-! ## The comparison and the sort -/

theorem tStricmp_swap : ∀ (a b : tString), tStricmp b a = - tStricmp a b
  | [], [] => by simp [tStricmp]
  | [], _ :: _ => by simp [tStricmp]
  | _ :: _, [] => by simp [tStricmp]
  | a :: as, b :: bs => by
      have ih := tStricmp_swap as bs
      simp only [tStricmp]
      split_ifs <;> omega

theorem tStricmp_trans : ∀ (a b c : tString),
    tStricmp a b ≤ 0 → tStricmp b c ≤ 0 → tStricmp a c ≤ 0
  | [], [], _ => by simp [tStricmp]
  | [], _ :: _, [] => by simp [tStricmp]
  | [], _ :: _, _ :: _ => by simp [tStricmp]
  | _ :: _, [], _ => by simp [tStricmp]
  | _ :: _, _ :: _, [] => by simp [tStricmp]
  | a :: as, b :: bs, c :: cs => by
      have ih := tStricmp_trans as bs cs
      simp only [tStricmp]
      split_ifs <;> omega

theorem tListSort_perm {α : Type} (compare : α → α → Bool) (l : List α) :
    (tListSort compare l).Perm l :=
  List.perm_insertionSort _ l

theorem tListSort_sorted {α : Type} (compare : α → α → Bool)
    (htotal : ∀ a b, compare b a = false ∨ compare a b = false)
    (htrans : ∀ a b c, compare b a = false → compare c b = false → compare c a = false)
    (l : List α) :
    (tListSort compare l).Pairwise (fun a b => compare b a = false) := by
  haveI : IsTotal α (fun a b => compare b a = false) := ⟨htotal⟩
  haveI : IsTrans α (fun a b => compare b a = false) := ⟨htrans⟩
  exact List.sorted_insertionSort (fun a b => compare b a = false) l

theorem alphabetical_sorted (l : List tString) :
    (tListSort Compare_AlphabeticalAscending l).Pairwise (fun a b => tStricmp a b ≤ 0) := by
  have h := tListSort_sorted Compare_AlphabeticalAscending
    (by
      intro a b
      have := tStricmp_swap a b
      simp only [Compare_AlphabeticalAscending, decide_eq_false_iff_not]
      omega)
    (by
      intro a b c hab hbc
      have h1 := tStricmp_swap a b
      have h2 := tStricmp_swap b c
      have h3 := tStricmp_swap a c
      have := tStricmp_trans a b c
      simp only [Compare_AlphabeticalAscending, decide_eq_false_iff_not] at *
      omega) l
  refine h.imp ?_
  intro a b hab
  have := tStricmp_swap a b
  simp only [Compare_AlphabeticalAscending, decide_eq_false_iff_not] at hab
  omega

theorem ComputeImagesHash_loop_foldl (tHashString256 : tString → Nat → Nat) :
    ∀ (files : List tString) (hash : Nat),
      ComputeImagesHash.loop tHashString256 files hash
        = files.foldl (fun acc item => tHashString256 item acc) hash
  | [], _ => rfl
  | item :: rest, hash => by
      simp only [ComputeImagesHash.loop, List.foldl_cons]
      exact ComputeImagesHash_loop_foldl tHashString256 rest _

theorem tListSort_map {α β : Type} (f : α → β) (ca : α → α → Bool) (cb : β → β → Bool)
    (l : List α) (h : ∀ a b, cb (f a) (f b) = ca a b) :
    tListSort cb (l.map f) = (tListSort ca l).map f := by
  unfold tListSort
  symm
  apply List.map_insertionSort
  intro a _ b _
  rw [h b a]

/-- The model of the library sort is a comparison sort. -/
theorem tListSort_comparisonSort : ComparisonSort (@tListSort) :=
  ⟨fun _ compare l => tListSort_perm compare l, fun _ _ f ca cb l h => tListSort_map f ca cb l h⟩

theorem perm_pair_cases {α : Type} {x y : α} :
    ∀ {l : List α}, l.Perm [x, y] → l = [x, y] ∨ l = [y, x]
  | [], h => by simpa using h.length_eq
  | [_], h => by simpa using h.length_eq
  | _ :: _ :: _ :: _, h => by simpa using h.length_eq
  | [u, v], h => by
      have hu : u = x ∨ u = y := by simpa using h.subset (List.mem_cons_self u [v])
      have hx : x = u ∨ x = v := by simpa using h.symm.subset (List.mem_cons_self x [y])
      have hy : y = u ∨ y = v := by
        simpa using h.symm.subset (List.mem_cons_of_mem x (List.mem_cons_self y []))
      have hv : v = x ∨ v = y := by
        simpa using h.subset (List.mem_cons_of_mem u (List.mem_cons_self v []))
      rcases hu with rfl | rfl
      · rcases hv with rfl | rfl
        · rcases hy with rfl | rfl <;> simp
        · simp
      · rcases hv with rfl | rfl
        · simp
        · rcases hx with rfl | rfl <;> simp

/-- C1: the fingerprint depends on the enumeration order. A folder holds A.png and a.png.
Whatever comparison sort the library runs, sorting the listing A.png, a.png and the listing
a.png, A.png with Compare_AlphabeticalAscending gives two different lists, because the two
names compare equal, and ComputeImagesHash then gives different fingerprints for a hash
function that tells the names apart. -/
theorem C1_fingerprint_depends_on_enumeration_order
    (sort : (α : Type) → (α → α → Bool) → List α → List α) (hsort : ComparisonSort sort) :
    ["A.png".toList, "a.png".toList].Perm ["a.png".toList, "A.png".toList]
    ∧ sort tString Compare_AlphabeticalAscending ["A.png".toList, "a.png".toList]
        ≠ sort tString Compare_AlphabeticalAscending ["a.png".toList, "A.png".toList]
    ∧ ComputeImagesHash markHash
          (sort tString Compare_AlphabeticalAscending ["A.png".toList, "a.png".toList])
        ≠ ComputeImagesHash markHash
          (sort tString Compare_AlphabeticalAscending ["a.png".toList, "A.png".toList]) := by
  obtain ⟨hperm, hmap⟩ := hsort
  have h1 := hmap Bool tString (fun b : Bool => if b then "a.png".toList else "A.png".toList)
    (fun _ _ => false) Compare_AlphabeticalAscending [false, true]
    (by intro a b; cases a <;> cases b <;> decide)
  have h2 := hmap Bool tString (fun b : Bool => if b then "A.png".toList else "a.png".toList)
    (fun _ _ => false) Compare_AlphabeticalAscending [false, true]
    (by intro a b; cases a <;> cases b <;> decide)
  have e1 : [false, true].map (fun b : Bool => if b then "a.png".toList else "A.png".toList)
      = ["A.png".toList, "a.png".toList] := rfl
  have e2 : [false, true].map (fun b : Bool => if b then "A.png".toList else "a.png".toList)
      = ["a.png".toList, "A.png".toList] := rfl
  rw [e1] at h1
  rw [e2] at h2
  rw [h1, h2]
  refine ⟨List.Perm.swap _ _ _, ?_, ?_⟩
  · rcases perm_pair_cases (hperm Bool (fun _ _ => false) [false, true]) with h | h
    · rw [h]; decide
    · rw [h]; decide
  · rcases perm_pair_cases (hperm Bool (fun _ _ => false) [false, true]) with h | h
    · rw [h]; decide
    · rw [h]; decide

/-- C1, for the model of the library sort: the two listings of A.png and a.png get different
fingerprints from PopulateImages. -/
theorem C1_fingerprint_depends_on_enumeration_order_witness :
    ComparisonSort (@tListSort)
    ∧ ["A.png".toList, "a.png".toList].Perm ["a.png".toList, "A.png".toList]
    ∧ PopulateImages_ImagesHash markHash ["A.png".toList, "a.png".toList]
        ≠ PopulateImages_ImagesHash markHash ["a.png".toList, "A.png".toList] :=
  ⟨tListSort_comparisonSort,
    (C1_fingerprint_depends_on_enumeration_order (@tListSort) tListSort_comparisonSort).1,
    (C1_fingerprint_depends_on_enumeration_order (@tListSort) tListSort_comparisonSort).2.2⟩

/-- The extent of the order independence: for two file lists that are permutations of one
another and in which no two different paths are equal ignoring case, sorting each with
Compare_AlphabeticalAscending and hashing the result gives the same fingerprint, whatever
the hash function is. -/
theorem PopulateImages_ImagesHash_case_distinct (tHashString256 : tString → Nat → Nat)
    (A B : List tString) (hperm : A.Perm B)
    (hcase : ∀ a ∈ A, ∀ b ∈ A, tStricmp a b = 0 → a = b) :
    PopulateImages_ImagesHash tHashString256 A = PopulateImages_ImagesHash tHashString256 B := by
  have hA := alphabetical_sorted A
  have hB := alphabetical_sorted B
  have hpA := tListSort_perm Compare_AlphabeticalAscending A
  have hpB := tListSort_perm Compare_AlphabeticalAscending B
  have heq : tListSort Compare_AlphabeticalAscending A = tListSort Compare_AlphabeticalAscending B := by
    refine List.Perm.eq_of_sorted ?_ hA hB (hpA.trans (hperm.trans hpB.symm))
    intro a b ha hb hab hba
    have hswap := tStricmp_swap a b
    exact hcase a (hpA.subset ha) b (hperm.symm.subset (hpB.subset hb)) (by omega)
  unfold PopulateImages_ImagesHash
  rw [heq]

/-- C2: ComputeImagesHash is the left-to-right fold of tHashString256 over the list from
seed 0: the hash of the empty list is 0, and the hash of a list extended by one file is
tHashString256 of that file and the hash of the list. -/
theorem C2_ComputeImagesHash_is_fold (tHashString256 : tString → Nat → Nat)
    (files : List tString) :
    ComputeImagesHash tHashString256 files
        = files.foldl (fun hash item => tHashString256 item hash) 0
    ∧ ComputeImagesHash tHashString256 [] = 0
    ∧ ∀ item, ComputeImagesHash tHashString256 (files ++ [item])
        = tHashString256 item (ComputeImagesHash tHashString256 files) := by
  refine ⟨ComputeImagesHash_loop_foldl _ _ _, rfl, ?_⟩
  intro item
  simp only [ComputeImagesHash, ComputeImagesHash_loop_foldl, List.foldl_append,
    List.foldl_cons, List.foldl_nil]

/-! ## The eviction loop -/

theorem Unload_Unload (img : Image) : img.Unload.Unload = img.Unload := rfl

theorem evict_heap_cases (c : ImagePtr) (allowed : Int) :
    ∀ (L : List ImagePtr) (h : Heap) (u : Int) (p : ImagePtr),
      (LoadCurrImage.evict c allowed L h u).heap p = h p
        ∨ (LoadCurrImage.evict c allowed L h u).heap p = (h p).Unload
  | [], h, u, p => Or.inl rfl
  | i :: rest, h, u, p => by
      simp only [LoadCurrImage.evict]
      split_ifs with hP hbreak
      · by_cases hp : p = i
        · subst hp; right; simp
        · left; simp [Function.update_noteq hp]
      · have ih := evict_heap_cases c allowed rest (Function.update h i (h i).Unload)
          (u - (h i).MemSizeBytes) p
        by_cases hp : p = i
        · subst hp
          right
          rcases ih with ih | ih
          · simpa using ih
          · simpa [Unload_Unload] using ih
        · simpa [Function.update_noteq hp] using ih
      · exact evict_heap_cases c allowed rest h u p

theorem evict_curr (c : ImagePtr) (allowed : Int) :
    ∀ (L : List ImagePtr) (h : Heap) (u : Int),
      (LoadCurrImage.evict c allowed L h u).heap c = h c
  | [], h, u => rfl
  | i :: rest, h, u => by
      simp only [LoadCurrImage.evict]
      split_ifs with hP hbreak
      · have hne : c ≠ i := by
          intro hci; subst hci; simp at hP
        simp [Function.update_noteq hne]
      · have hne : c ≠ i := by
          intro hci; subst hci; simp at hP
        have ih := evict_curr c allowed rest (Function.update h i (h i).Unload)
          (u - (h i).MemSizeBytes)
        simpa [Function.update_noteq hne] using ih
      · exact evict_curr c allowed rest h u

theorem evict_loaded_mono (c : ImagePtr) (allowed : Int) (L : List ImagePtr) (h : Heap)
    (u : Int) (p : ImagePtr)
    (hl : ((LoadCurrImage.evict c allowed L h u).heap p).Loaded = true) :
    (h p).Loaded = true := by
  rcases evict_heap_cases c allowed L h u p with e | e
  · rw [e] at hl; exact hl
  · rw [e] at hl; simp [Image.Unload] at hl

theorem evict_exhaust (c : ImagePtr) (allowed : Int) :
    ∀ (L : List ImagePtr) (h : Heap) (u : Int),
      (LoadCurrImage.evict c allowed L h u).usedMem < allowed
        ∨ ∀ p ∈ L, ((LoadCurrImage.evict c allowed L h u).heap p).Loaded = true → p = c
  | [], h, u => Or.inr (by simp)
  | i :: rest, h, u => by
      simp only [LoadCurrImage.evict]
      split_ifs with hP hbreak
      · exact Or.inl hbreak
      · rcases evict_exhaust c allowed rest (Function.update h i (h i).Unload)
          (u - (h i).MemSizeBytes) with ih | ih
        · exact Or.inl ih
        · right
          intro p hp hl
          rcases List.mem_cons.mp hp with hpi | hpr
          · subst hpi
            have := evict_loaded_mono c allowed rest _ _ p hl
            simp [Image.Unload] at this
          · exact ih p hpr hl
      · rcases evict_exhaust c allowed rest h u with ih | ih
        · exact Or.inl ih
        · right
          intro p hp hl
          rcases List.mem_cons.mp hp with hpi | hpr
          · subst hpi
            have hl2 := evict_loaded_mono c allowed rest _ _ p hl
            simp [hl2] at hP
            exact hP
          · exact ih p hpr hl

theorem usedMem_foldl_eq (h : Heap) :
    ∀ (L : List ImagePtr) (acc : Int),
      L.foldl (fun usedMem i => usedMem + (h i).MemSizeBytes) acc
        = acc + (L.map (fun i => (h i).MemSizeBytes)).sum
  | [], acc => by simp
  | i :: rest, acc => by
      simp only [List.foldl_cons, List.map_cons, List.sum_cons]
      rw [usedMem_foldl_eq h rest]
      ring

theorem usedMem_eq_sum (h : Heap) (L : List ImagePtr) :
    LoadCurrImage.usedMem h L = (L.map (fun i => (h i).MemSizeBytes)).sum := by
  simp [LoadCurrImage.usedMem, usedMem_foldl_eq]

theorem sum_update_not_mem (h : Heap) (i : ImagePtr) (v : Image) :
    ∀ (M : List ImagePtr), i ∉ M →
      (M.map (fun p => (Function.update h i v p).MemSizeBytes)).sum
        = (M.map (fun p => (h p).MemSizeBytes)).sum
  | [], _ => rfl
  | a :: M, hni => by
      have hai : a ≠ i := fun e => hni (e ▸ List.mem_cons_self _ _)
      have hM : i ∉ M := fun e => hni (List.mem_cons_of_mem _ e)
      simp only [List.map_cons, List.sum_cons, Function.update_noteq hai]
      rw [sum_update_not_mem h i v M hM]

theorem sum_update_mem (h : Heap) (i : ImagePtr) (v : Image) :
    ∀ (M : List ImagePtr), M.Nodup → i ∈ M →
      (M.map (fun p => (Function.update h i v p).MemSizeBytes)).sum
        = (M.map (fun p => (h p).MemSizeBytes)).sum - (h i).MemSizeBytes + v.MemSizeBytes
  | [], _, hi => by simp at hi
  | a :: M, hnd, hi => by
      have hnd2 := List.nodup_cons.mp hnd
      simp only [List.map_cons, List.sum_cons]
      by_cases hai : a = i
      · subst hai
        rw [sum_update_not_mem h a v M hnd2.1]
        simp only [Function.update_same]
        ring
      · have hiM : i ∈ M := by
          rcases List.mem_cons.mp hi with e | e
          · exact absurd e.symm hai
          · exact e
        rw [sum_update_mem h i v M hnd2.2 hiM, Function.update_noteq hai]
        ring

/-- The eviction loop keeps `usedMem` in step with the sizes of the records of the list. -/
theorem evict_usedMem (c : ImagePtr) (allowed : Int) (M : List ImagePtr) (hM : M.Nodup) :
    ∀ (L : List ImagePtr) (h : Heap) (u : Int), (∀ x ∈ L, x ∈ M) →
      (M.map (fun p => ((LoadCurrImage.evict c allowed L h u).heap p).MemSizeBytes)).sum
          - (LoadCurrImage.evict c allowed L h u).usedMem
        = (M.map (fun p => (h p).MemSizeBytes)).sum - u
  | [], h, u, _ => rfl
  | i :: rest, h, u, hsub => by
      have hi : i ∈ M := hsub i (List.mem_cons_self _ _)
      have hrest : ∀ x ∈ rest, x ∈ M := fun x hx => hsub x (List.mem_cons_of_mem _ hx)
      have hupd := sum_update_mem h i (h i).Unload M hM hi
      have hU : (h i).Unload.MemSizeBytes = 0 := rfl
      simp only [LoadCurrImage.evict]
      split_ifs with hP hbreak
      · rw [hupd, hU]
        ring
      · have ih := evict_usedMem c allowed M hM rest (Function.update h i (h i).Unload)
          (u - (h i).MemSizeBytes) hrest
        rw [ih, hupd, hU]
        ring
      · exact evict_usedMem c allowed M hM rest h u hrest

theorem LoadedFootprint_eq_sum (h : Heap) :
    ∀ (L : List ImagePtr), (∀ i ∈ L, (h i).Loaded = false → (h i).MemSizeBytes = 0) →
      LoadedFootprint h L = (L.map (fun i => (h i).MemSizeBytes)).sum
  | [], _ => rfl
  | a :: L, hz => by
      have ih := LoadedFootprint_eq_sum h L (fun i hi => hz i (List.mem_cons_of_mem _ hi))
      have ha := hz a (List.mem_cons_self _ _)
      simp only [LoadedFootprint, List.map_cons, List.sum_cons] at ih ⊢
      rw [ih]
      by_cases hl : (h a).Loaded = true
      · simp [hl]
      · simp only [Bool.not_eq_true] at hl
        simp [hl, ha hl]

theorem LoadedFootprint_perm (h : Heap) {L M : List ImagePtr} (hp : L.Perm M) :
    LoadedFootprint h L = LoadedFootprint h M := by
  unfold LoadedFootprint
  exact (hp.map _).sum_eq

theorem evict_unloaded_zero (c : ImagePtr) (allowed : Int) (L : List ImagePtr) (h : Heap)
    (u : Int) (p : ImagePtr) (hz : (h p).Loaded = false → (h p).MemSizeBytes = 0)
    (hl : ((LoadCurrImage.evict c allowed L h u).heap p).Loaded = false) :
    ((LoadCurrImage.evict c allowed L h u).heap p).MemSizeBytes = 0 := by
  rcases evict_heap_cases c allowed L h u p with e | e
  · rw [e] at hl ⊢; exact hz hl
  · rw [e]; rfl

/-- The unloads of the eviction loop are, in order, an initial segment of the candidates. -/
theorem evict_unloads_initial (c : ImagePtr) (allowed : Int) :
    ∀ (L : List ImagePtr) (h : Heap) (u : Int), L.Nodup →
      ∃ t, (LoadCurrImage.evict c allowed L h u).unloads.map UnloadEvent.image ++ t
        = evictionCandidates h c L
  | [], h, u, _ => ⟨[], rfl⟩
  | i :: rest, h, u, hnd => by
      have hnd2 := List.nodup_cons.mp hnd
      simp only [LoadCurrImage.evict, evictionCandidates]
      split_ifs with hP hbreak
      · exact ⟨rest.filter (fun i => (h i).Loaded && i != c), by simp [List.filter_cons, hP]⟩
      · obtain ⟨t, ht⟩ := evict_unloads_initial c allowed rest
          (Function.update h i (h i).Unload) (u - (h i).MemSizeBytes) hnd2.2
        refine ⟨t, ?_⟩
        have hfil : evictionCandidates (Function.update h i (h i).Unload) c rest
            = rest.filter (fun i => (h i).Loaded && i != c) := by
          unfold evictionCandidates
          apply List.filter_congr
          intro x hx
          have hxi : x ≠ i := fun e => hnd2.1 (e ▸ hx)
          simp [Function.update_noteq hxi]
        rw [hfil] at ht
        simp [List.filter_cons, hP, ht]
      · obtain ⟨t, ht⟩ := evict_unloads_initial c allowed rest h u hnd2.2
        refine ⟨t, ?_⟩
        simp only [evictionCandidates] at ht
        simp [List.filter_cons, hP, ht]

theorem evict_cons_break (c : ImagePtr) (allowed : Int) (i : ImagePtr) (rest : List ImagePtr)
    (h : Heap) (u : Int) (hP : ((h i).Loaded && i != c) = true)
    (hb : u - (h i).MemSizeBytes < allowed) :
    LoadCurrImage.evict c allowed (i :: rest) h u
      = { heap := Function.update h i (h i).Unload, usedMem := u - (h i).MemSizeBytes,
          unloads := [{ image := i, heapBefore := h }] } := by
  rw [LoadCurrImage.evict, if_pos hP]
  simp only [hb, if_true]

theorem evict_cons_continue (c : ImagePtr) (allowed : Int) (i : ImagePtr) (rest : List ImagePtr)
    (h : Heap) (u : Int) (hP : ((h i).Loaded && i != c) = true)
    (hb : ¬ u - (h i).MemSizeBytes < allowed) :
    LoadCurrImage.evict c allowed (i :: rest) h u
      = { LoadCurrImage.evict c allowed rest (Function.update h i (h i).Unload)
            (u - (h i).MemSizeBytes) with
          unloads := { image := i, heapBefore := h } ::
            (LoadCurrImage.evict c allowed rest (Function.update h i (h i).Unload)
              (u - (h i).MemSizeBytes)).unloads } := by
  rw [LoadCurrImage.evict, if_pos hP]
  simp only [hb, if_false]

theorem evict_cons_skip (c : ImagePtr) (allowed : Int) (i : ImagePtr) (rest : List ImagePtr)
    (h : Heap) (u : Int) (hP : ¬ ((h i).Loaded && i != c) = true) :
    LoadCurrImage.evict c allowed (i :: rest) h u = LoadCurrImage.evict c allowed rest h u := by
  rw [LoadCurrImage.evict, if_neg hP]

/-- The objects after the eviction loop: the unloaded ones are unloaded, the others untouched. -/
theorem evict_heap_eq (c : ImagePtr) (allowed : Int) :
    ∀ (L : List ImagePtr) (h : Heap) (u : Int) (p : ImagePtr),
      (LoadCurrImage.evict c allowed L h u).heap p
        = if p ∈ (LoadCurrImage.evict c allowed L h u).unloads.map UnloadEvent.image
          then (h p).Unload else h p
  | [], h, u, p => by simp [LoadCurrImage.evict]
  | i :: rest, h, u, p => by
      by_cases hP : ((h i).Loaded && i != c) = true
      · by_cases hb : u - (h i).MemSizeBytes < allowed
        · rw [evict_cons_break c allowed i rest h u hP hb]
          by_cases hp : p = i
          · subst hp; simp
          · simp [Function.update_noteq hp, hp]
        · rw [evict_cons_continue c allowed i rest h u hP hb]
          have ih := evict_heap_eq c allowed rest (Function.update h i (h i).Unload)
            (u - (h i).MemSizeBytes) p
          by_cases hp : p = i
          · subst hp
            simp only [ih, List.map_cons, List.mem_cons, true_or, if_true, Function.update_same,
              Unload_Unload]
            split_ifs <;> rfl
          · simp only [ih, List.map_cons, List.mem_cons, hp, false_or, Function.update_noteq hp,
              ne_eq, not_false_eq_true]
      · rw [evict_cons_skip c allowed i rest h u hP]
        exact evict_heap_eq c allowed rest h u p

/-- Every unload of the eviction loop happens while the loaded total is not below the budget. -/
theorem evict_unloads_total (c : ImagePtr) (allowed : Int) (M : List ImagePtr) (hM : M.Nodup) :
    ∀ (L : List ImagePtr) (h : Heap) (u : Int), (∀ x ∈ L, x ∈ M) →
      (∀ i ∈ M, (h i).Loaded = false → (h i).MemSizeBytes = 0) →
      u = (M.map (fun p => (h p).MemSizeBytes)).sum → allowed ≤ u →
      ∀ e ∈ (LoadCurrImage.evict c allowed L h u).unloads, allowed ≤ LoadedFootprint e.heapBefore M
  | [], h, u, _, _, _, _ => by simp [LoadCurrImage.evict]
  | i :: rest, h, u, hsub, hz, hu, hle => by
      have hi : i ∈ M := hsub i (List.mem_cons_self _ _)
      have hrest : ∀ x ∈ rest, x ∈ M := fun x hx => hsub x (List.mem_cons_of_mem _ hx)
      have hnow : allowed ≤ LoadedFootprint h M := by
        rw [LoadedFootprint_eq_sum h M hz, ← hu]; exact hle
      simp only [LoadCurrImage.evict]
      split_ifs with hP hbreak
      · intro e he
        simp only [List.mem_singleton] at he
        subst he
        exact hnow
      · intro e he
        simp only [List.mem_cons] at he
        rcases he with he | he
        · subst he; exact hnow
        · have hupd := sum_update_mem h i (h i).Unload M hM hi
          have hU : (h i).Unload.MemSizeBytes = 0 := rfl
          refine evict_unloads_total c allowed M hM rest (Function.update h i (h i).Unload)
            (u - (h i).MemSizeBytes) hrest ?_ ?_ ?_ e he
          · intro x hx hl
            by_cases hxi : x = i
            · subst hxi; simp [Image.Unload]
            · rw [Function.update_noteq hxi] at hl ⊢
              exact hz x hx hl
          · rw [hupd, hU, hu]; ring
          · omega
      · exact evict_unloads_total c allowed M hM rest h u hrest hz hu hle

/-! ## LoadCurrImage -/

/-- The three ways `LoadCurrImage` ends for a non-null `CurrImage`: the eviction pass is not
entered; it is entered and the total is within the budget; it is entered and the loop runs. -/
theorem LoadCurrImage_run_cases (Config : Settings) (decoded : Option (Int × ℚ)) (s : State)
    (c : ImagePtr) (hc : s.CurrImage = some c)
    (h1 : Heap) (hh1 : h1 = heapAfterLoad decoded s.heap c)
    (sorted : List ImagePtr)
    (hsorted : sorted = tListSort (Compare_ImageLoadTimeAscending h1) s.ImagesLoadTimeSorted)
    (allowed : Int) (hallowed : allowed = Config.MaxImageMemMB * 1024 * 1024) :
    (¬ ((s.heap c).Loaded = false ∧ decoded.isSome = true
          ∧ ¬ (s.SlideshowPlaying = true ∧ Config.SlidehowFrameDuration < 1 / 2))
        ∧ LoadCurrImage.run Config decoded s = some ({ s with heap := h1 }, []))
    ∨ (((s.heap c).Loaded = false ∧ decoded.isSome = true
          ∧ ¬ (s.SlideshowPlaying = true ∧ Config.SlidehowFrameDuration < 1 / 2))
        ∧ LoadCurrImage.usedMem h1 sorted ≤ allowed
        ∧ LoadCurrImage.run Config decoded s
            = some ({ s with heap := h1, ImagesLoadTimeSorted := sorted }, []))
    ∨ (((s.heap c).Loaded = false ∧ decoded.isSome = true
          ∧ ¬ (s.SlideshowPlaying = true ∧ Config.SlidehowFrameDuration < 1 / 2))
        ∧ allowed < LoadCurrImage.usedMem h1 sorted
        ∧ LoadCurrImage.run Config decoded s
            = some ({ s with
                heap := (LoadCurrImage.evict c allowed sorted h1
                  (LoadCurrImage.usedMem h1 sorted)).heap,
                ImagesLoadTimeSorted := sorted },
              (LoadCurrImage.evict c allowed sorted h1
                  (LoadCurrImage.usedMem h1 sorted)).unloads)) := by
  subst hh1 hsorted hallowed
  have hb : (s.SlideshowPlaying && decide (Config.SlidehowFrameDuration < 1 / 2)) = true
      ↔ (s.SlideshowPlaying = true ∧ Config.SlidehowFrameDuration < 1 / 2) := by
    rw [Bool.and_eq_true, decide_eq_true_iff]
  unfold LoadCurrImage.run heapAfterLoad
  simp only [hc]
  generalize (s.SlideshowPlaying && decide (Config.SlidehowFrameDuration < 1 / 2)) = b at hb ⊢
  rw [← hb]
  by_cases hl : (s.heap c).Loaded = true
  · left
    simp [hl]
  · simp only [Bool.not_eq_true] at hl
    cases decoded with
    | none =>
        left
        simp [hl, Image.Load]
    | some d =>
        cases b with
        | true =>
            left
            simp [hl, Image.Load]
        | false =>
            right
            simp only [hl, Bool.not_false, if_true, Image.Load, Bool.and_self, Option.isSome_some,
              true_and, Bool.false_eq_true, not_false_eq_true, gt_iff_lt]
            by_cases hu : Config.MaxImageMemMB * 1024 * 1024 < LoadCurrImage.usedMem
                (Function.update s.heap c
                  { s.heap c with Loaded := true, MemSizeBytes := d.1, LoadedTime := d.2 })
                (tListSort (Compare_ImageLoadTimeAscending
                  (Function.update s.heap c
                    { s.heap c with Loaded := true, MemSizeBytes := d.1, LoadedTime := d.2 }))
                  s.ImagesLoadTimeSorted)
            · right
              exact ⟨hu, by rw [if_pos hu]⟩
            · left
              exact ⟨not_lt.mp hu, by rw [if_neg hu]⟩

theorem heapAfterLoad_other (decoded : Option (Int × ℚ)) (h : Heap) (c i : ImagePtr)
    (hi : i ≠ c) : heapAfterLoad decoded h c i = h i := by
  unfold heapAfterLoad
  exact Function.update_noteq hi _ _

theorem heapAfterLoad_curr_cases (decoded : Option (Int × ℚ)) (h : Heap) (c : ImagePtr) :
    heapAfterLoad decoded h c c = h c ∨ (heapAfterLoad decoded h c c).Loaded = true := by
  unfold heapAfterLoad
  rw [Function.update_same]
  by_cases hl : (h c).Loaded = true
  · left; simp [hl]
  · cases decoded with
    | none => left; simp [Image.Load]
    | some d => right; simp [hl, Image.Load]

theorem heapAfterLoad_loaded_mono (decoded : Option (Int × ℚ)) (h : Heap) (c i : ImagePtr)
    (hl : (h i).Loaded = true) : (heapAfterLoad decoded h c i).Loaded = true := by
  by_cases hi : i = c
  · subst hi
    rcases heapAfterLoad_curr_cases decoded h i with e | e
    · rw [e]; exact hl
    · exact e
  · rw [heapAfterLoad_other decoded h c i hi]; exact hl

theorem heapAfterLoad_unloaded_zero (decoded : Option (Int × ℚ)) (h : Heap) (c i : ImagePtr)
    (hz : (h i).Loaded = false → (h i).MemSizeBytes = 0)
    (hl : (heapAfterLoad decoded h c i).Loaded = false) :
    (heapAfterLoad decoded h c i).MemSizeBytes = 0 := by
  by_cases hi : i = c
  · subst hi
    rcases heapAfterLoad_curr_cases decoded h i with e | e
    · rw [e] at hl ⊢; exact hz hl
    · rw [e] at hl; exact absurd hl (by simp)
  · rw [heapAfterLoad_other decoded h c i hi] at hl ⊢; exact hz hl

theorem loadTime_sorted (h : Heap) (L : List ImagePtr) :
    (tListSort (Compare_ImageLoadTimeAscending h) L).Pairwise
      (fun a b => (h a).LoadedTime ≤ (h b).LoadedTime) := by
  have hs := tListSort_sorted (Compare_ImageLoadTimeAscending h)
    (by
      intro a b
      simp only [Compare_ImageLoadTimeAscending, decide_eq_false_iff_not, not_lt]
      exact le_total _ _)
    (by
      intro a b c hab hbc
      simp only [Compare_ImageLoadTimeAscending, decide_eq_false_iff_not, not_lt] at *
      exact le_trans hab hbc) L
  refine hs.imp ?_
  intro a b hab
  simpa [Compare_ImageLoadTimeAscending] using hab

/-- C3: when the eviction pass of LoadCurrImage runs (CurrImage was not loaded, its Load
succeeds, and the slideshow does not suppress eviction), and every Unloaded record of the
catalog has footprint 0, LoadCurrImage returns a state in which the load-time list is a
reordering of the old one, CurrImage is unchanged, and either the footprints of the Loaded
records sum to at most MaxImageMemMB*1024*1024 or CurrImage is the only Loaded record. -/
theorem C3_eviction_meets_budget_or_only_current (Config : Settings)
    (decoded : Option (Int × ℚ)) (s : State) (c : ImagePtr)
    (hcurr : s.CurrImage = some c)
    (hunloaded : (s.heap c).Loaded = false)
    (hdecoded : decoded.isSome = true)
    (hslide : ¬ (s.SlideshowPlaying = true ∧ Config.SlidehowFrameDuration < 1 / 2))
    (hnodup : s.ImagesLoadTimeSorted.Nodup)
    (hzero : ∀ i ∈ s.ImagesLoadTimeSorted,
      (s.heap i).Loaded = false → (s.heap i).MemSizeBytes = 0) :
    ∃ s1, LoadCurrImage Config decoded s = some s1
      ∧ s1.CurrImage = some c
      ∧ (s1.heap c).Loaded = true
      ∧ s1.ImagesLoadTimeSorted.Perm s.ImagesLoadTimeSorted
      ∧ (LoadedFootprint s1.heap s1.ImagesLoadTimeSorted ≤ Config.MaxImageMemMB * 1024 * 1024
          ∨ ∀ i ∈ s1.ImagesLoadTimeSorted, (s1.heap i).Loaded = true → i = c) := by
  obtain ⟨h1, hh1⟩ : ∃ h1, h1 = heapAfterLoad decoded s.heap c := ⟨_, rfl⟩
  obtain ⟨sorted, hs⟩ : ∃ sorted, sorted
      = tListSort (Compare_ImageLoadTimeAscending h1) s.ImagesLoadTimeSorted := ⟨_, rfl⟩
  obtain ⟨allowed, ha⟩ : ∃ allowed, allowed = Config.MaxImageMemMB * 1024 * 1024 := ⟨_, rfl⟩
  have hperm : sorted.Perm s.ImagesLoadTimeSorted := hs ▸ tListSort_perm _ _
  have hz1 : ∀ i ∈ sorted, (h1 i).Loaded = false → (h1 i).MemSizeBytes = 0 := by
    intro i hi
    rw [hh1]
    exact heapAfterLoad_unloaded_zero decoded s.heap c i (hzero i (hperm.subset hi))
  have hcl : (h1 c).Loaded = true := by
    rw [hh1]
    rcases heapAfterLoad_curr_cases decoded s.heap c with e | e
    · exfalso
      cases decoded with
      | none => simp at hdecoded
      | some d =>
          have : (heapAfterLoad (some d) s.heap c c).Loaded = true := by
            simp [heapAfterLoad, hunloaded, Image.Load]
          rw [e, hunloaded] at this
          exact absurd this (by simp)
    · exact e
  rw [← ha]
  rcases LoadCurrImage_run_cases Config decoded s c hcurr h1 hh1 sorted hs allowed ha with
    ⟨hno, _⟩ | ⟨_, hle, hrun⟩ | ⟨_, _, hrun⟩
  · exact absurd ⟨hunloaded, hdecoded, hslide⟩ hno
  · have hres := congrArg (Option.map Prod.fst) hrun
    refine ⟨_, hres, hcurr, hcl, hperm, Or.inl ?_⟩
    show LoadedFootprint h1 sorted ≤ allowed
    rw [LoadedFootprint_eq_sum _ _ hz1, ← usedMem_eq_sum]
    exact hle
  · have hres := congrArg (Option.map Prod.fst) hrun
    refine ⟨_, hres, hcurr, ((congrArg Image.Loaded (evict_curr c allowed sorted h1 _)).trans hcl), hperm, ?_⟩
    rcases evict_exhaust c allowed sorted h1 (LoadCurrImage.usedMem h1 sorted) with hlt | hall
    · left
      have htrack := evict_usedMem c allowed sorted (hperm.nodup_iff.mpr hnodup) sorted h1
        (LoadCurrImage.usedMem h1 sorted) (fun x hx => hx)
      have hu0 := usedMem_eq_sum h1 sorted
      show LoadedFootprint (LoadCurrImage.evict c allowed sorted h1
        (LoadCurrImage.usedMem h1 sorted)).heap sorted ≤ allowed
      rw [LoadedFootprint_eq_sum _ _
        (fun i hi => evict_unloaded_zero c _ _ _ _ i (hz1 i hi))]
      omega
    · right
      exact hall

/-- C3, on the scenario of the specification with a budget of 100MB. -/
theorem C3_eviction_meets_budget_or_only_current_witness :
    ∃ s1, LoadCurrImage { MaxImageMemMB := 100 } scenarioDecoded scenarioState = some s1
      ∧ s1.CurrImage = some 2
      ∧ (s1.heap 2).Loaded = true
      ∧ s1.ImagesLoadTimeSorted.Perm scenarioState.ImagesLoadTimeSorted
      ∧ (LoadedFootprint s1.heap s1.ImagesLoadTimeSorted ≤ (100 : Int) * 1024 * 1024
          ∨ ∀ i ∈ s1.ImagesLoadTimeSorted, (s1.heap i).Loaded = true → i = 2) :=
  C3_eviction_meets_budget_or_only_current { MaxImageMemMB := 100 } scenarioDecoded
    scenarioState 2 rfl (by decide) rfl (fun h => absurd h.1 (by decide)) (by decide) (by decide)

/-- C4: for every state with a current image, every budget and every load-time order,
LoadCurrImage returns, leaves CurrImage pointing to the same record, and leaves that record
exactly as its load step left it: if it is Loaded after the load step it is Loaded on return. -/
theorem C4_current_image_never_unloaded (Config : Settings) (decoded : Option (Int × ℚ))
    (s : State) (c : ImagePtr) (hcurr : s.CurrImage = some c) :
    ∃ s1, LoadCurrImage Config decoded s = some s1
      ∧ s1.CurrImage = some c
      ∧ s1.heap c = heapAfterLoad decoded s.heap c c
      ∧ ((heapAfterLoad decoded s.heap c c).Loaded = true → (s1.heap c).Loaded = true) := by
  rcases LoadCurrImage_run_cases Config decoded s c hcurr _ rfl _ rfl _ rfl with
    ⟨_, hrun⟩ | ⟨_, _, hrun⟩ | ⟨_, _, hrun⟩
  · exact ⟨_, congrArg (Option.map Prod.fst) hrun, hcurr, rfl, fun h => h⟩
  · exact ⟨_, congrArg (Option.map Prod.fst) hrun, hcurr, rfl, fun h => h⟩
  · exact ⟨_, congrArg (Option.map Prod.fst) hrun, hcurr, evict_curr c _ _ _ _,
      fun h => (congrArg Image.Loaded (evict_curr c _ _ _ _)).trans h⟩

/-- C4, on the scenario with a budget of 0MB: Y, the current image, is loaded at time 2, before
Z, and stays loaded although everything else is unloaded. -/
theorem C4_current_image_never_unloaded_witness :
    ∃ s1, LoadCurrImage { MaxImageMemMB := 0 } scenarioDecoded scenarioState = some s1
      ∧ s1.CurrImage = some 2
      ∧ s1.heap 2 = heapAfterLoad scenarioDecoded scenarioState.heap 2 2
      ∧ ((heapAfterLoad scenarioDecoded scenarioState.heap 2 2).Loaded = true
          → (s1.heap 2).Loaded = true) :=
  C4_current_image_never_unloaded { MaxImageMemMB := 0 } scenarioDecoded scenarioState 2 rfl

/-- C5: the eviction pass unloads oldest-first. For every state with a current image whose
load-time list holds every record once, LoadCurrImage returns, the load-time list it sorted
is in ascending load-time order, the records it unloads are, in order, an initial segment of
the Loaded records other than CurrImage of that sorted list, they are exactly the records
that were Loaded after the load step and are not on return, and whenever a record is
unloaded every Loaded record other than CurrImage with an earlier load time is unloaded
too. -/
theorem C5_eviction_oldest_first (Config : Settings) (decoded : Option (Int × ℚ))
    (s : State) (c : ImagePtr) (hcurr : s.CurrImage = some c)
    (hnodup : s.ImagesLoadTimeSorted.Nodup) :
    ∃ s1 unloads, LoadCurrImage.run Config decoded s = some (s1, unloads)
      ∧ (tListSort (Compare_ImageLoadTimeAscending (heapAfterLoad decoded s.heap c))
            s.ImagesLoadTimeSorted).Pairwise
          (fun a b => (heapAfterLoad decoded s.heap c a).LoadedTime
            ≤ (heapAfterLoad decoded s.heap c b).LoadedTime)
      ∧ unloads.map UnloadEvent.image
          <+: evictionCandidates (heapAfterLoad decoded s.heap c) c
            (tListSort (Compare_ImageLoadTimeAscending (heapAfterLoad decoded s.heap c))
              s.ImagesLoadTimeSorted)
      ∧ (∀ i, i ∈ unloads.map UnloadEvent.image
          ↔ ((heapAfterLoad decoded s.heap c i).Loaded = true ∧ (s1.heap i).Loaded = false))
      ∧ (∀ p q, p ∈ unloads.map UnloadEvent.image → q ∈ s.ImagesLoadTimeSorted →
          (heapAfterLoad decoded s.heap c q).Loaded = true → q ≠ c →
          (heapAfterLoad decoded s.heap c q).LoadedTime
            < (heapAfterLoad decoded s.heap c p).LoadedTime →
          (s1.heap q).Loaded = false) := by
  obtain ⟨h1, hh1⟩ : ∃ h1, h1 = heapAfterLoad decoded s.heap c := ⟨_, rfl⟩
  obtain ⟨sorted, hs⟩ : ∃ sorted, sorted
      = tListSort (Compare_ImageLoadTimeAscending h1) s.ImagesLoadTimeSorted := ⟨_, rfl⟩
  have hperm : sorted.Perm s.ImagesLoadTimeSorted := hs ▸ tListSort_perm _ _
  have hsorted : sorted.Pairwise (fun a b => (h1 a).LoadedTime ≤ (h1 b).LoadedTime) :=
    hs ▸ loadTime_sorted h1 _
  rw [← hh1, ← hs]
  rcases LoadCurrImage_run_cases Config decoded s c hcurr h1 hh1 sorted hs _ rfl with
    ⟨_, hrun⟩ | ⟨_, _, hrun⟩ | ⟨_, _, hrun⟩
  · refine ⟨_, _, hrun, hsorted, ⟨_, List.nil_append _⟩, ?_, ?_⟩
    · intro i
      constructor
      · intro hi; simp at hi
      · rintro ⟨ha, hb⟩
        rw [show ({ s with heap := h1 } : State).heap i = h1 i from rfl, ha] at hb
        exact absurd hb (by simp)
    · intro p q hp; simp at hp
  · refine ⟨_, _, hrun, hsorted, ⟨_, List.nil_append _⟩, ?_, ?_⟩
    · intro i
      constructor
      · intro hi; simp at hi
      · rintro ⟨ha, hb⟩
        rw [show ({ s with heap := h1, ImagesLoadTimeSorted := sorted } : State).heap i = h1 i
          from rfl, ha] at hb
        exact absurd hb (by simp)
    · intro p q hp; simp at hp
  · obtain ⟨r, hr⟩ : ∃ r, r = LoadCurrImage.evict c (Config.MaxImageMemMB * 1024 * 1024)
        sorted h1 (LoadCurrImage.usedMem h1 sorted) := ⟨_, rfl⟩
    rw [← hr] at hrun
    obtain ⟨t, ht⟩ := evict_unloads_initial c (Config.MaxImageMemMB * 1024 * 1024) sorted h1
      (LoadCurrImage.usedMem h1 sorted) (hperm.nodup_iff.mpr hnodup)
    rw [← hr] at ht
    have hheap : ∀ p, r.heap p
        = if p ∈ r.unloads.map UnloadEvent.image then (h1 p).Unload else h1 p := by
      intro p; rw [hr]; exact evict_heap_eq c _ sorted h1 _ p
    have hcand : ∀ i, i ∈ r.unloads.map UnloadEvent.image →
        i ∈ evictionCandidates h1 c sorted := by
      intro i hi
      rw [← ht]
      exact List.mem_append_left _ hi
    have hiff : ∀ i, i ∈ r.unloads.map UnloadEvent.image
        ↔ ((h1 i).Loaded = true ∧ (r.heap i).Loaded = false) := by
      intro i
      constructor
      · intro hi
        have hc := hcand i hi
        simp only [evictionCandidates, List.mem_filter, Bool.and_eq_true] at hc
        refine ⟨hc.2.1, ?_⟩
        rw [hheap i, if_pos hi]
        rfl
      · rintro ⟨ha, hb⟩
        by_contra hni
        rw [hheap i, if_neg hni, ha] at hb
        exact absurd hb (by simp)
    refine ⟨_, _, hrun, hsorted, ⟨t, ht⟩, hiff, ?_⟩
    intro p q hp hq hql hqc hlt
    have hqcand : q ∈ evictionCandidates h1 c sorted := by
      simp only [evictionCandidates, List.mem_filter, Bool.and_eq_true]
      exact ⟨hperm.symm.subset hq, hql, by simpa using hqc⟩
    rw [← ht] at hqcand
    rcases List.mem_append.mp hqcand with hqu | hqt
    · exact ((hiff q).mp hqu).2
    · exfalso
      have hpw : (evictionCandidates h1 c sorted).Pairwise
          (fun a b => (h1 a).LoadedTime ≤ (h1 b).LoadedTime) :=
        hsorted.sublist (List.filter_sublist _)
      rw [← ht] at hpw
      have := (List.pairwise_append.mp hpw).2.2 p hp q hqt
      exact absurd hlt (not_lt.mpr this)

/-- C5, on the scenario of the specification: budget 100MB, X, Y and Z of 40MB loaded in that
order, Y selected. Only X is unloaded and the loaded total becomes 80MB. -/
theorem C5_eviction_oldest_first_witness :
    (∃ s1 unloads,
      LoadCurrImage.run { MaxImageMemMB := 100 } scenarioDecoded scenarioState = some (s1, unloads)
      ∧ (tListSort (Compare_ImageLoadTimeAscending
            (heapAfterLoad scenarioDecoded scenarioState.heap 2))
            scenarioState.ImagesLoadTimeSorted).Pairwise
          (fun a b => (heapAfterLoad scenarioDecoded scenarioState.heap 2 a).LoadedTime
            ≤ (heapAfterLoad scenarioDecoded scenarioState.heap 2 b).LoadedTime)
      ∧ unloads.map UnloadEvent.image
          <+: evictionCandidates (heapAfterLoad scenarioDecoded scenarioState.heap 2) 2
            (tListSort (Compare_ImageLoadTimeAscending
              (heapAfterLoad scenarioDecoded scenarioState.heap 2))
              scenarioState.ImagesLoadTimeSorted)
      ∧ (∀ i, i ∈ unloads.map UnloadEvent.image
          ↔ ((heapAfterLoad scenarioDecoded scenarioState.heap 2 i).Loaded = true
              ∧ (s1.heap i).Loaded = false))
      ∧ (∀ p q, p ∈ unloads.map UnloadEvent.image → q ∈ scenarioState.ImagesLoadTimeSorted →
          (heapAfterLoad scenarioDecoded scenarioState.heap 2 q).Loaded = true → q ≠ 2 →
          (heapAfterLoad scenarioDecoded scenarioState.heap 2 q).LoadedTime
            < (heapAfterLoad scenarioDecoded scenarioState.heap 2 p).LoadedTime →
          (s1.heap q).Loaded = false))
    ∧ (LoadCurrImage.run { MaxImageMemMB := 100 } scenarioDecoded scenarioState).map
        (fun r => (r.2.map UnloadEvent.image, r.1.ImagesLoadTimeSorted,
          LoadedFootprint r.1.heap r.1.ImagesLoadTimeSorted))
      = some ([1], [1, 2, 3], 80 * 1024 * 1024) :=
  ⟨C5_eviction_oldest_first { MaxImageMemMB := 100 } scenarioDecoded scenarioState 2 rfl
    (by decide), by decide⟩

/-- C6 (as stated, refuted): on the scenario with a budget of 80MB the pass unloads X when the
loaded total is 120MB and then Z when the loaded total is 80MB, which is not greater than
the budget: the loop is left only when the total is below the budget, not when it reaches it. -/
theorem C6_counterexample :
    (LoadCurrImage.run { MaxImageMemMB := 80 } scenarioDecoded scenarioState).map
        (fun r => r.2.map
          (fun e => (e.image, LoadedFootprint e.heapBefore scenarioState.ImagesLoadTimeSorted)))
      = some [(1, 120 * 1024 * 1024), (3, 80 * 1024 * 1024)]
    ∧ ¬ ((80 : Int) * 1024 * 1024 > ({ MaxImageMemMB := 80 } : Settings).MaxImageMemMB * 1024 * 1024)
    ∧ ¬ (∀ s1 unloads,
          LoadCurrImage.run { MaxImageMemMB := 80 } scenarioDecoded scenarioState
            = some (s1, unloads) →
          ∀ e ∈ unloads, LoadedFootprint e.heapBefore scenarioState.ImagesLoadTimeSorted
            > ({ MaxImageMemMB := 80 } : Settings).MaxImageMemMB * 1024 * 1024) := by
  have hev : (LoadCurrImage.run { MaxImageMemMB := 80 } scenarioDecoded scenarioState).map
        (fun r => r.2.map
          (fun e => (e.image, LoadedFootprint e.heapBefore scenarioState.ImagesLoadTimeSorted)))
      = some [(1, 120 * 1024 * 1024), (3, 80 * 1024 * 1024)] := by decide
  refine ⟨hev, by decide, ?_⟩
  intro hall
  cases hrun : LoadCurrImage.run { MaxImageMemMB := 80 } scenarioDecoded scenarioState with
  | none => rw [hrun] at hev; simp at hev
  | some r =>
      obtain ⟨s1, unloads⟩ := r
      have hgt := hall s1 unloads hrun
      rw [hrun] at hev
      simp only [Option.map_some', Option.some.injEq] at hev
      match unloads, hev, hgt with
      | [e1, e2], hev, hgt =>
          have h2 := hgt e2 (by simp)
          simp only [List.map_cons, List.map_nil, List.cons.injEq, Prod.mk.injEq, and_true] at hev
          rw [hev.2.2] at h2
          exact absurd h2 (by decide)

/-- C6 (amended): for every state with a current image whose load-time list holds every record
once and whose Unloaded records have footprint 0, LoadCurrImage returns, a record is unloaded
only if the loaded total just before that unload was not below MaxImageMemMB*1024*1024, and
anything is unloaded only if the loaded total after the load step was greater than it. -/
theorem C6_unload_only_while_not_below_budget (Config : Settings) (decoded : Option (Int × ℚ))
    (s : State) (c : ImagePtr) (hcurr : s.CurrImage = some c)
    (hnodup : s.ImagesLoadTimeSorted.Nodup)
    (hzero : ∀ i ∈ s.ImagesLoadTimeSorted,
      (s.heap i).Loaded = false → (s.heap i).MemSizeBytes = 0) :
    ∃ s1 unloads, LoadCurrImage.run Config decoded s = some (s1, unloads)
      ∧ (∀ e ∈ unloads, Config.MaxImageMemMB * 1024 * 1024
          ≤ LoadedFootprint e.heapBefore s.ImagesLoadTimeSorted)
      ∧ (unloads ≠ [] → Config.MaxImageMemMB * 1024 * 1024
          < LoadedFootprint (heapAfterLoad decoded s.heap c) s.ImagesLoadTimeSorted) := by
  obtain ⟨h1, hh1⟩ : ∃ h1, h1 = heapAfterLoad decoded s.heap c := ⟨_, rfl⟩
  obtain ⟨sorted, hs⟩ : ∃ sorted, sorted
      = tListSort (Compare_ImageLoadTimeAscending h1) s.ImagesLoadTimeSorted := ⟨_, rfl⟩
  obtain ⟨allowed, ha⟩ : ∃ allowed, allowed = Config.MaxImageMemMB * 1024 * 1024 := ⟨_, rfl⟩
  have hperm : sorted.Perm s.ImagesLoadTimeSorted := hs ▸ tListSort_perm _ _
  have hz1 : ∀ i ∈ sorted, (h1 i).Loaded = false → (h1 i).MemSizeBytes = 0 := by
    intro i hi
    rw [hh1]
    exact heapAfterLoad_unloaded_zero decoded s.heap c i (hzero i (hperm.subset hi))
  rw [← hh1, ← ha]
  rcases LoadCurrImage_run_cases Config decoded s c hcurr h1 hh1 sorted hs allowed ha with
    ⟨_, hrun⟩ | ⟨_, _, hrun⟩ | ⟨_, hgt, hrun⟩
  · exact ⟨_, _, hrun, by simp, by simp⟩
  · exact ⟨_, _, hrun, by simp, by simp⟩
  · have hu0 := usedMem_eq_sum h1 sorted
    have hfoot : LoadedFootprint h1 s.ImagesLoadTimeSorted = LoadCurrImage.usedMem h1 sorted := by
      rw [← LoadedFootprint_perm h1 hperm, LoadedFootprint_eq_sum h1 sorted hz1, hu0]
    refine ⟨_, _, hrun, ?_, ?_⟩
    · intro e he
      rw [← LoadedFootprint_perm e.heapBefore hperm]
      exact evict_unloads_total c allowed sorted (hperm.nodup_iff.mpr hnodup) sorted h1
        (LoadCurrImage.usedMem h1 sorted) (fun x hx => hx) hz1 hu0 (le_of_lt hgt) e he
    · intro _
      rw [hfoot]
      exact hgt

/-- C6 (amended), on the scenario with a budget of 80MB. -/
theorem C6_unload_only_while_not_below_budget_witness :
    ∃ s1 unloads,
      LoadCurrImage.run { MaxImageMemMB := 80 } scenarioDecoded scenarioState = some (s1, unloads)
      ∧ (∀ e ∈ unloads, ({ MaxImageMemMB := 80 } : Settings).MaxImageMemMB * 1024 * 1024
          ≤ LoadedFootprint e.heapBefore scenarioState.ImagesLoadTimeSorted)
      ∧ (unloads ≠ [] → ({ MaxImageMemMB := 80 } : Settings).MaxImageMemMB * 1024 * 1024
          < LoadedFootprint (heapAfterLoad scenarioDecoded scenarioState.heap 2)
              scenarioState.ImagesLoadTimeSorted) :=
  C6_unload_only_while_not_below_budget { MaxImageMemMB := 80 } scenarioDecoded scenarioState 2
    rfl (by decide) (by decide)

/-- C7 (as stated, refuted): a slideshow is playing with a frame duration of 3/4 of a second,
which is below one second, and LoadCurrImage still unloads X: eviction is only suppressed
when the frame duration is below half a second. -/
theorem C7_counterexample :
    scenarioSlideshow.SlideshowPlaying = true
    ∧ ({ MaxImageMemMB := 100, SlidehowFrameDuration := 3 / 4 } : Settings).SlidehowFrameDuration < 1
    ∧ (scenarioSlideshow.heap 1).Loaded = true
    ∧ ∃ s1, LoadCurrImage { MaxImageMemMB := 100, SlidehowFrameDuration := 3 / 4 }
          scenarioDecoded scenarioSlideshow = some s1
        ∧ (s1.heap 1).Loaded = false := by
  refine ⟨rfl, by norm_num, by decide, ?_⟩
  have hpass : ¬ (scenarioSlideshow.SlideshowPlaying = true
      ∧ ({ MaxImageMemMB := 100, SlidehowFrameDuration := 3 / 4 } : Settings).SlidehowFrameDuration
          < 1 / 2) := by
    norm_num
  rcases LoadCurrImage_run_cases { MaxImageMemMB := 100, SlidehowFrameDuration := 3 / 4 }
      scenarioDecoded scenarioSlideshow 2 rfl _ rfl _ rfl _ rfl with
    ⟨hno, _⟩ | ⟨_, hle, _⟩ | ⟨_, _, hrun⟩
  · exact absurd ⟨by decide, rfl, hpass⟩ hno
  · exact absurd hle (by decide)
  · exact ⟨_, congrArg (Option.map Prod.fst) hrun, by decide⟩

/-- C7 (amended): while a slideshow is playing with a frame duration below half a second,
LoadCurrImage performs no eviction: it returns, it unloads nothing, the load-time list is
untouched, every record other than CurrImage is unchanged and every record that was Loaded
still is. -/
theorem C7_no_eviction_in_fast_slideshow (Config : Settings) (decoded : Option (Int × ℚ))
    (s : State) (c : ImagePtr) (hcurr : s.CurrImage = some c)
    (hplaying : s.SlideshowPlaying = true)
    (hsmall : Config.SlidehowFrameDuration < 1 / 2) :
    ∃ s1, LoadCurrImage.run Config decoded s = some (s1, [])
      ∧ s1.ImagesLoadTimeSorted = s.ImagesLoadTimeSorted
      ∧ (∀ i, i ≠ c → s1.heap i = s.heap i)
      ∧ (∀ i, (s.heap i).Loaded = true → (s1.heap i).Loaded = true) := by
  rcases LoadCurrImage_run_cases Config decoded s c hcurr _ rfl _ rfl _ rfl with
    ⟨_, hrun⟩ | ⟨hpass, _, _⟩ | ⟨hpass, _, _⟩
  · exact ⟨_, hrun, rfl, fun i hi => heapAfterLoad_other decoded s.heap c i hi,
      fun i hi => heapAfterLoad_loaded_mono decoded s.heap c i hi⟩
  · exact absurd ⟨hplaying, hsmall⟩ hpass.2.2
  · exact absurd ⟨hplaying, hsmall⟩ hpass.2.2

/-- C7 (amended), on the scenario with a slideshow of a quarter of a second per frame and a
budget of 0MB. -/
theorem C7_no_eviction_in_fast_slideshow_witness :
    ∃ s1, LoadCurrImage.run { MaxImageMemMB := 0, SlidehowFrameDuration := 1 / 4 }
          scenarioDecoded scenarioSlideshow = some (s1, [])
      ∧ s1.ImagesLoadTimeSorted = scenarioSlideshow.ImagesLoadTimeSorted
      ∧ (∀ i, i ≠ 2 → s1.heap i = scenarioSlideshow.heap i)
      ∧ (∀ i, (scenarioSlideshow.heap i).Loaded = true → (s1.heap i).Loaded = true) :=
  C7_no_eviction_in_fast_slideshow { MaxImageMemMB := 0, SlidehowFrameDuration := 1 / 4 }
    scenarioDecoded scenarioSlideshow 2 rfl rfl (by norm_num)

/-! ## RemoveOldCacheFiles -/

theorem wrapInt32_of_range (x : Int) (hlo : -2 ^ 31 ≤ x) (hhi : x < 2 ^ 31) :
    wrapInt32 x = x := by
  unfold wrapInt32
  have h : (x + 2 ^ 31) % 2 ^ 32 = x + 2 ^ 31 := Int.emod_eq_of_lt (by omega) (by omega)
  omega

theorem tClampMin_eq_max (val min : Int) : tClampMin val min = max val min := by
  unfold tClampMin
  split_ifs with h
  · exact (max_eq_right (le_of_lt h)).symm
  · exact (max_eq_left (not_lt.mp h)).symm

theorem creationTime_sorted (CreationTime : tString → Nat) (L : List tString) :
    (tListSort (Compare_FileCreationTimeAscending CreationTime) L).Pairwise
      (fun a b => CreationTime a ≤ CreationTime b) := by
  have hs := tListSort_sorted (Compare_FileCreationTimeAscending CreationTime)
    (by
      intro a b
      simp only [Compare_FileCreationTimeAscending, decide_eq_false_iff_not, not_lt]
      exact le_total _ _)
    (by
      intro a b c hab hbc
      simp only [Compare_FileCreationTimeAscending, decide_eq_false_iff_not, not_lt] at *
      exact le_trans hab hbc) L
  refine hs.imp ?_
  intro a b hab
  simpa [Compare_FileCreationTimeAscending] using hab

theorem erase_perm_of_perm_cons (head : tString) (l rest : List tString)
    (hp : l.Perm (head :: rest)) : (l.erase head).Perm rest := by
  have hinst : (List.instBEq : BEq (List Char)) = instBEqOfDecidableEq := by
    have hfun : ∀ a b : List Char,
        @BEq.beq _ List.instBEq a b = @BEq.beq _ instBEqOfDecidableEq a b := by
      intro a b
      rw [Bool.eq_iff_iff]
      simp
    cases hA : (List.instBEq : BEq (List Char)) with
    | mk f =>
      cases hB : (instBEqOfDecidableEq : BEq (List Char)) with
      | mk g =>
        congr
        funext a b
        have := hfun a b
        rw [hA, hB] at this
        exact this
  rw [hinst]
  have := hp.erase head
  simpa using this

/-- The removal loop, when the list is long enough: it attempts the first `n` files in order,
keeps the others, and if all those deletions succeed they are all counted and gone. -/
theorem RemoveOldCacheFiles_loop_spec (tDeleteFile : tString → Bool) :
    ∀ (n : Nat) (r : RemoveResult), n ≤ r.cacheFiles.length →
      ∃ r1, RemoveOldCacheFiles.loop tDeleteFile n r = some r1
        ∧ r1.attempted = r.attempted ++ r.cacheFiles.take n
        ∧ r1.cacheFiles = r.cacheFiles.drop n
        ∧ ((∀ f ∈ r.cacheFiles.take n, tDeleteFile f = true) →
            r.cacheDir.Perm r.cacheFiles →
            r1.deletedCount = r.deletedCount + n ∧ r1.cacheDir.Perm r1.cacheFiles)
  | 0, r, _ => ⟨r, rfl, by simp, by simp, fun _ hp => ⟨by simp, hp⟩⟩
  | n + 1, r, hn => by
      cases hcf : r.cacheFiles with
      | nil => rw [hcf] at hn; simp at hn
      | cons head rest =>
          rw [hcf] at hn
          have hn1 : n ≤ rest.length := by simpa using hn
          obtain ⟨r1, hloop, hatt, hkeep, hall⟩ := RemoveOldCacheFiles_loop_spec tDeleteFile n
            { deletedCount := if tDeleteFile head then r.deletedCount + 1 else r.deletedCount
              attempted := r.attempted ++ [head]
              cacheFiles := rest
              cacheDir := if tDeleteFile head then r.cacheDir.erase head else r.cacheDir } hn1
          refine ⟨r1, ?_, ?_, ?_, ?_⟩
          · rw [RemoveOldCacheFiles.loop]
            simp only [hcf]
            exact hloop
          · simp only [hatt, List.take_succ_cons, List.append_assoc, List.singleton_append]
          · simp only [hkeep, List.drop_succ_cons]
          · intro hdel hperm
            have hhead : tDeleteFile head = true := hdel head (by simp)
            have hrest : ∀ f ∈ rest.take n, tDeleteFile f = true :=
              fun f hf => hdel f (by simp [hf])
            have hp2 : (r.cacheDir.erase head).Perm rest :=
              erase_perm_of_perm_cons head r.cacheDir rest hperm
            have := hall hrest (by simpa [hhead] using hp2)
            simp only [hhead, if_true] at this
            refine ⟨?_, this.2⟩
            rw [this.1]
            push_cast
            ring

theorem RemoveOldCacheFiles_within_limit (Config : Settings) (CreationTime : tString → Nat)
    (tDeleteFile : tString → Bool) (cacheDir : List tString)
    (hfew : (cacheDir.length : Int) ≤ Config.MaxCacheFiles) :
    RemoveOldCacheFiles Config CreationTime tDeleteFile cacheDir
      = some { deletedCount := 0, attempted := [], cacheFiles := cacheDir, cacheDir := cacheDir } := by
  unfold RemoveOldCacheFiles
  simp only [hfew, if_true]

/-- C10: when the number of cache files does not exceed MaxCacheFiles, RemoveOldCacheFiles
returns 0, calls tDeleteFile on no file and leaves the cache directory as it is. -/
theorem C10_no_pruning_within_limit (Config : Settings) (CreationTime : tString → Nat)
    (tDeleteFile : tString → Bool) (cacheDir : List tString)
    (hfew : (cacheDir.length : Int) ≤ Config.MaxCacheFiles) :
    ∃ r, RemoveOldCacheFiles Config CreationTime tDeleteFile cacheDir = some r
      ∧ r.deletedCount = 0 ∧ r.attempted = [] ∧ r.cacheDir = cacheDir := by
  exact ⟨_, RemoveOldCacheFiles_within_limit Config CreationTime tDeleteFile cacheDir hfew,
    rfl, rfl, rfl⟩

/-- C10, for a cache of two files and MaxCacheFiles = 2. -/
theorem C10_no_pruning_within_limit_witness :
    ∃ r, RemoveOldCacheFiles { MaxCacheFiles := 2 } (fun f => f.length) (fun _ => true)
          ["a.bin".toList, "bb.bin".toList] = some r
      ∧ r.deletedCount = 0 ∧ r.attempted = []
      ∧ r.cacheDir = ["a.bin".toList, "bb.bin".toList] :=
  C10_no_pruning_within_limit { MaxCacheFiles := 2 } (fun f => f.length) (fun _ => true)
    ["a.bin".toList, "bb.bin".toList] (by decide)

/-- What RemoveOldCacheFiles does when the cache holds more than MaxCacheFiles files and
`MaxCacheFiles - 100` is an `int`: it attempts the first files of the sorted listing. -/
theorem RemoveOldCacheFiles_prunes (Config : Settings) (CreationTime : tString → Nat)
    (tDeleteFile : tString → Bool) (cacheDir : List tString)
    (hlo : -2 ^ 31 + 100 ≤ Config.MaxCacheFiles) (hhi : Config.MaxCacheFiles < 2 ^ 31)
    (hmore : Config.MaxCacheFiles < (cacheDir.length : Int)) :
    ∃ r, RemoveOldCacheFiles Config CreationTime tDeleteFile cacheDir = some r
      ∧ r.attempted = (tListSort (Compare_FileCreationTimeAscending CreationTime) cacheDir).take
          ((cacheDir.length : Int) - max (Config.MaxCacheFiles - 100) 0).toNat
      ∧ r.cacheFiles = (tListSort (Compare_FileCreationTimeAscending CreationTime) cacheDir).drop
          ((cacheDir.length : Int) - max (Config.MaxCacheFiles - 100) 0).toNat
      ∧ ((∀ f ∈ cacheDir, tDeleteFile f = true) →
          r.deletedCount = (cacheDir.length : Int) - max (Config.MaxCacheFiles - 100) 0
            ∧ r.cacheDir.Perm r.cacheFiles) := by
  have hperm := tListSort_perm (Compare_FileCreationTimeAscending CreationTime) cacheDir
  have hwrap : wrapInt32 (Config.MaxCacheFiles - 100) = Config.MaxCacheFiles - 100 :=
    wrapInt32_of_range _ (by omega) (by omega)
  have hnonneg : 0 ≤ (cacheDir.length : Int) - max (Config.MaxCacheFiles - 100) 0 := by
    rcases max_cases (Config.MaxCacheFiles - 100) 0 with ⟨h, _⟩ | ⟨h, _⟩ <;> omega
  have hle : ((cacheDir.length : Int) - max (Config.MaxCacheFiles - 100) 0).toNat
      ≤ (tListSort (Compare_FileCreationTimeAscending CreationTime) cacheDir).length := by
    rw [hperm.length_eq]
    rcases max_cases (Config.MaxCacheFiles - 100) 0 with ⟨h, _⟩ | ⟨h, _⟩ <;> omega
  obtain ⟨r1, hloop, hatt, hkeep, hall⟩ := RemoveOldCacheFiles_loop_spec tDeleteFile
    ((cacheDir.length : Int) - max (Config.MaxCacheFiles - 100) 0).toNat
    { deletedCount := 0, attempted := []
      cacheFiles := tListSort (Compare_FileCreationTimeAscending CreationTime) cacheDir
      cacheDir := cacheDir } hle
  refine ⟨r1, ?_, by simpa using hatt, hkeep, ?_⟩
  · unfold RemoveOldCacheFiles
    simp only [not_le.mpr hmore, if_false, hwrap, tClampMin_eq_max, not_lt.mpr hnonneg]
    exact hloop
  · intro hdel
    have := hall (fun f hf => hdel f (hperm.subset (List.mem_of_mem_take hf))) hperm.symm
    refine ⟨?_, this.2⟩
    rw [this.1, Int.toNat_of_nonneg hnonneg]
    ring

/-- C8: for every cache listing with more than MaxCacheFiles files in which every deletion
succeeds (MaxCacheFiles being an int from which 100 can be subtracted), RemoveOldCacheFiles
leaves exactly max(MaxCacheFiles - 100, 0) files in the cache directory and returns
numFiles - max(MaxCacheFiles - 100, 0). -/
theorem C8_prune_leaves_target_count (Config : Settings) (CreationTime : tString → Nat)
    (tDeleteFile : tString → Bool) (cacheDir : List tString)
    (hlo : -2 ^ 31 + 100 ≤ Config.MaxCacheFiles) (hhi : Config.MaxCacheFiles < 2 ^ 31)
    (hmore : Config.MaxCacheFiles < (cacheDir.length : Int))
    (hdel : ∀ f ∈ cacheDir, tDeleteFile f = true) :
    ∃ r, RemoveOldCacheFiles Config CreationTime tDeleteFile cacheDir = some r
      ∧ (r.cacheDir.length : Int) = max (Config.MaxCacheFiles - 100) 0
      ∧ r.deletedCount = (cacheDir.length : Int) - max (Config.MaxCacheFiles - 100) 0 := by
  obtain ⟨r, hr, _, hkeep, hall⟩ := RemoveOldCacheFiles_prunes Config CreationTime tDeleteFile
    cacheDir hlo hhi hmore
  have hperm := tListSort_perm (Compare_FileCreationTimeAscending CreationTime) cacheDir
  obtain ⟨hcount, hdir⟩ := hall hdel
  refine ⟨r, hr, ?_, hcount⟩
  rw [hdir.length_eq, hkeep, List.length_drop, hperm.length_eq]
  rcases max_cases (Config.MaxCacheFiles - 100) 0 with ⟨h, _⟩ | ⟨h, _⟩ <;> omega

/-- C8, on a cache of 650 files with MaxCacheFiles = 500: 400 files are left and 250 is
returned. -/
theorem C8_prune_leaves_target_count_witness :
    ∃ r, RemoveOldCacheFiles { MaxCacheFiles := 500 } (fun f => f.length) (fun _ => true)
          ((List.range 650).map (fun n => List.replicate (n + 1) 'c')) = some r
      ∧ (r.cacheDir.length : Int) = 400
      ∧ r.deletedCount = 250 := by
  simpa using C8_prune_leaves_target_count { MaxCacheFiles := 500 } (fun f => f.length)
    (fun _ => true) ((List.range 650).map (fun n => List.replicate (n + 1) 'c'))
    (by norm_num) (by norm_num) (by simp) (fun _ _ => rfl)

/-- C9: RemoveOldCacheFiles deletes oldest-first. For every cache listing and every assignment
of creation times (MaxCacheFiles being an int from which 100 can be subtracted) it returns,
the files it called tDeleteFile on and the files it kept are together the files of the
listing, and every file it attempted to delete has a creation time less than or equal to that
of every file it kept. -/
theorem C9_prune_oldest_first (Config : Settings) (CreationTime : tString → Nat)
    (tDeleteFile : tString → Bool) (cacheDir : List tString)
    (hlo : -2 ^ 31 + 100 ≤ Config.MaxCacheFiles) (hhi : Config.MaxCacheFiles < 2 ^ 31) :
    ∃ r, RemoveOldCacheFiles Config CreationTime tDeleteFile cacheDir = some r
      ∧ (r.attempted ++ r.cacheFiles).Perm cacheDir
      ∧ ∀ a ∈ r.attempted, ∀ k ∈ r.cacheFiles, CreationTime a ≤ CreationTime k := by
  by_cases hfew : (cacheDir.length : Int) ≤ Config.MaxCacheFiles
  · refine ⟨_, RemoveOldCacheFiles_within_limit Config CreationTime tDeleteFile cacheDir hfew,
      List.Perm.refl _, ?_⟩
    intro a ha
    simp at ha
  · obtain ⟨r, hr, hatt, hkeep, _⟩ := RemoveOldCacheFiles_prunes Config CreationTime
      tDeleteFile cacheDir hlo hhi (not_le.mp hfew)
    have hperm := tListSort_perm (Compare_FileCreationTimeAscending CreationTime) cacheDir
    have hsorted := creationTime_sorted CreationTime cacheDir
    refine ⟨r, hr, ?_, ?_⟩
    · rw [hatt, hkeep, List.take_append_drop]
      exact hperm
    · rw [← List.take_append_drop
        ((cacheDir.length : Int) - max (Config.MaxCacheFiles - 100) 0).toNat
        (tListSort (Compare_FileCreationTimeAscending CreationTime) cacheDir)] at hsorted
      rw [hatt, hkeep]
      exact (List.pairwise_append.mp hsorted).2.2

/-- C9, on a cache of 104 files listed newest first with MaxCacheFiles = 102. -/
theorem C9_prune_oldest_first_witness :
    ∃ r, RemoveOldCacheFiles { MaxCacheFiles := 102 } (fun f => 1000 - f.length)
          (fun f => decide (f.length % 2 = 0))
          ((List.range 104).map (fun n => List.replicate (n + 1) 'c')) = some r
      ∧ (r.attempted ++ r.cacheFiles).Perm
          ((List.range 104).map (fun n => List.replicate (n + 1) 'c'))
      ∧ ∀ a ∈ r.attempted, ∀ k ∈ r.cacheFiles, 1000 - a.length ≤ 1000 - k.length :=
  C9_prune_oldest_first { MaxCacheFiles := 102 } (fun f => 1000 - f.length)
    (fun f => decide (f.length % 2 = 0))
    ((List.range 104).map (fun n => List.replicate (n + 1) 'c')) (by norm_num) (by norm_num)

/-! ## SortImages -/

theorem tListSort_sorted_of_le {α : Type} (compare : α → α → Bool) (le : α → α → Prop)
    (hcmp : ∀ a b, compare b a = false ↔ le a b)
    (htotal : ∀ a b, le a b ∨ le b a)
    (htrans : ∀ a b c, le a b → le b c → le a c) (l : List α) :
    (tListSort compare l).Pairwise le := by
  have hs := tListSort_sorted compare
    (fun a b => by rw [hcmp, hcmp]; exact htotal a b)
    (fun a b c hab hbc => by rw [hcmp] at *; exact htrans a b c hab hbc) l
  exact hs.imp (fun {a b} hab => (hcmp a b).mp hab)

/-- What the compare function of `SortImages` says about two records, in terms of the key. -/
theorem sortFn_false_iff (heap : Heap) (key : SortKeyEnum) (ascending : Bool) (a b : ImagePtr) :
    SortImages.sortFn heap key ascending b a = false ↔ keyOrdered heap key ascending a b := by
  have hswap := tStricmp_swap (heap a).Filename (heap b).Filename
  cases key <;> cases ascending <;>
    simp only [SortImages.sortFn, keyOrdered, if_true, if_false, Bool.false_eq_true,
      Compare_ImageFileNameAscending, Compare_ImageFileNameDescending,
      Compare_ImageModTimeAscending, Compare_ImageModTimeDescending,
      Compare_ImageFileSizeAscending, Compare_ImageFileSizeDescending,
      Compare_ImageFileTypeAscending, Compare_ImageFileTypeDescending,
      decide_eq_false_iff_not, not_lt, gt_iff_lt] <;>
    omega

theorem keyOrdered_total (heap : Heap) (key : SortKeyEnum) (ascending : Bool) (a b : ImagePtr) :
    keyOrdered heap key ascending a b ∨ keyOrdered heap key ascending b a := by
  have hswap := tStricmp_swap (heap a).Filename (heap b).Filename
  cases key <;> cases ascending <;> simp only [keyOrdered] <;> omega

theorem keyOrdered_trans (heap : Heap) (key : SortKeyEnum) (ascending : Bool) (a b c : ImagePtr)
    (hab : keyOrdered heap key ascending a b) (hbc : keyOrdered heap key ascending b c) :
    keyOrdered heap key ascending a c := by
  have h1 := tStricmp_trans (heap a).Filename (heap b).Filename (heap c).Filename
  have h2 := tStricmp_trans (heap c).Filename (heap b).Filename (heap a).Filename
  have s1 := tStricmp_swap (heap a).Filename (heap b).Filename
  have s2 := tStricmp_swap (heap b).Filename (heap c).Filename
  have s3 := tStricmp_swap (heap a).Filename (heap c).Filename
  cases key <;> cases ascending <;> simp only [keyOrdered] at * <;> omega

/-- Two records whose keys compare equal are ordered by the key either way round. -/
theorem keyOrdered_of_keyEqual (heap : Heap) (key : SortKeyEnum) (ascending : Bool)
    (a b : ImagePtr) (h : keyEqual heap key a b) : keyOrdered heap key ascending a b := by
  cases key <;> cases ascending <;> simp only [keyOrdered, keyEqual] at * <;> omega

theorem keyEqual_of_keyOrdered (heap : Heap) (key : SortKeyEnum) (ascending : Bool)
    (a b : ImagePtr) (hab : keyOrdered heap key ascending a b)
    (hba : keyOrdered heap key ascending b a) : keyEqual heap key a b := by
  have hswap := tStricmp_swap (heap a).Filename (heap b).Filename
  cases key <;> cases ascending <;> simp only [keyOrdered, keyEqual] at * <;> omega

theorem SortImages_sorted (key : SortKeyEnum) (ascending : Bool) (s : State) :
    (SortImages key ascending s).Images.Pairwise (keyOrdered s.heap key ascending) :=
  tListSort_sorted_of_le _ _ (sortFn_false_iff s.heap key ascending)
    (keyOrdered_total s.heap key ascending) (keyOrdered_trans s.heap key ascending) s.Images

theorem SortImages_perm (key : SortKeyEnum) (ascending : Bool) (s : State) :
    (SortImages key ascending s).Images.Perm s.Images :=
  tListSort_perm _ _

/-- C11: for every catalog, each of the four sort keys and both directions, SortImages leaves
Images a permutation of its previous contents in which every earlier record is ordered by the
key before every later one, in particular consecutive records are (non-decreasing when
ascending, non-increasing when descending, names compared ignoring case), and it changes
nothing else. -/
theorem C11_SortImages_sorted_permutation (key : SortKeyEnum) (ascending : Bool) (s : State) :
    (SortImages key ascending s).Images.Perm s.Images
    ∧ (SortImages key ascending s).Images.Pairwise (keyOrdered s.heap key ascending)
    ∧ (SortImages key ascending s).Images.Chain' (keyOrdered s.heap key ascending)
    ∧ (SortImages key ascending s).heap = s.heap
    ∧ (SortImages key ascending s).ImagesLoadTimeSorted = s.ImagesLoadTimeSorted :=
  ⟨SortImages_perm key ascending s, SortImages_sorted key ascending s,
    (SortImages_sorted key ascending s).chain', rfl, rfl⟩

/-- C11, on the scenario of the specification: the catalog built from b.png, a.png and c.jpg,
sorted ascending by name, is in the order a.png, b.png, c.jpg. -/
theorem C11_SortImages_sorted_permutation_witness :
    ((SortImages SortKeyEnum.Alphabetical true catalogState).Images.Perm catalogState.Images
      ∧ (SortImages SortKeyEnum.Alphabetical true catalogState).Images.Pairwise
          (keyOrdered catalogState.heap SortKeyEnum.Alphabetical true)
      ∧ (SortImages SortKeyEnum.Alphabetical true catalogState).Images.Chain'
          (keyOrdered catalogState.heap SortKeyEnum.Alphabetical true)
      ∧ (SortImages SortKeyEnum.Alphabetical true catalogState).heap = catalogState.heap
      ∧ (SortImages SortKeyEnum.Alphabetical true catalogState).ImagesLoadTimeSorted
          = catalogState.ImagesLoadTimeSorted)
    ∧ fileNames catalogState.heap catalogState.Images
        = ["/pics/b.png".toList, "/pics/a.png".toList, "/pics/c.jpg".toList]
    ∧ fileNames (SortImages SortKeyEnum.Alphabetical true catalogState).heap
          (SortImages SortKeyEnum.Alphabetical true catalogState).Images
        = ["/pics/a.png".toList, "/pics/b.png".toList, "/pics/c.jpg".toList] :=
  ⟨C11_SortImages_sorted_permutation SortKeyEnum.Alphabetical true catalogState,
    by decide, by decide⟩

theorem not_both_orders {a b : ImagePtr} :
    ∀ (l : List ImagePtr), l.Nodup → List.Sublist [a, b] l → List.Sublist [b, a] l → False
  | [], _, h, _ => by simp at h
  | x :: xs, hnd, h1, h2 => by
      have hx : x ∉ xs := (List.nodup_cons.mp hnd).1
      have hnd2 : xs.Nodup := (List.nodup_cons.mp hnd).2
      cases h1 with
      | cons _ h1 =>
          cases h2 with
          | cons _ h2 => exact not_both_orders xs hnd2 h1 h2
          | cons₂ _ h2 => exact hx (h1.subset (by simp))
      | cons₂ _ h1 =>
          cases h2 with
          | cons _ h2 => exact hx (h2.subset (by simp))
          | cons₂ _ h2 => exact hx (h1.subset (by simp))

/-- What a comparison sort does on the scenario catalog sorted by size, from the two orders of
the records of equal size: the second result is the first with the two records exchanged. -/
theorem sort_exchangeTied (sort : (α : Type) → (α → α → Bool) → List α → List α)
    (hsort : ComparisonSort sort) :
    (sort ImagePtr (SortImages.sortFn catalogHeap SortKeyEnum.FileSize true) [1, 2, 3]).Perm
        [1, 2, 3]
    ∧ sort ImagePtr (SortImages.sortFn catalogHeap SortKeyEnum.FileSize true) [2, 1, 3]
        = (sort ImagePtr (SortImages.sortFn catalogHeap SortKeyEnum.FileSize true)
            [1, 2, 3]).map exchangeTied := by
  refine ⟨hsort.1 _ _ _, ?_⟩
  have hsize : ∀ a, (catalogHeap (exchangeTied a)).FileSizeB = (catalogHeap a).FileSizeB := by
    intro a
    by_cases h1 : a = 1
    · subst h1; rfl
    · by_cases h2 : a = 2
      · subst h2; rfl
      · have he : exchangeTied a = a := by simp [exchangeTied, h1, h2]
        rw [he]
  have h := hsort.2 ImagePtr ImagePtr exchangeTied
    (SortImages.sortFn catalogHeap SortKeyEnum.FileSize true)
    (SortImages.sortFn catalogHeap SortKeyEnum.FileSize true) [1, 2, 3]
    (by
      intro a b
      simp only [SortImages.sortFn, if_true, Compare_ImageFileSizeAscending, hsize])
  exact h

/-- C12 (as stated, refuted): b.png (at 1) and a.png (at 2) have the same file size, and
a.png comes first in path order. Whatever comparison sort the library runs, the catalog
sorted by size from the order b.png, a.png, c.jpg and from the order a.png, b.png, c.jpg
gives two different results, and a.png does not come before b.png in both: the records of
equal size are not put in path order, and the result depends on the order before the
call. So it is for SortImages with the model of the library sort. -/
theorem C12_counterexample :
    keyEqual catalogHeap SortKeyEnum.FileSize 1 2
    ∧ tStricmp (catalogHeap 2).Filename (catalogHeap 1).Filename < 0
    ∧ (∀ (sort : (α : Type) → (α → α → Bool) → List α → List α), ComparisonSort sort →
        sort ImagePtr (SortImages.sortFn catalogHeap SortKeyEnum.FileSize true) [1, 2, 3]
            ≠ sort ImagePtr (SortImages.sortFn catalogHeap SortKeyEnum.FileSize true) [2, 1, 3]
        ∧ ¬ (List.Sublist [2, 1]
              (sort ImagePtr (SortImages.sortFn catalogHeap SortKeyEnum.FileSize true) [1, 2, 3])
            ∧ List.Sublist [2, 1]
              (sort ImagePtr (SortImages.sortFn catalogHeap SortKeyEnum.FileSize true)
                [2, 1, 3])))
    ∧ catalogState.heap = catalogSorted.heap
    ∧ catalogState.Images.Perm catalogSorted.Images
    ∧ (SortImages SortKeyEnum.FileSize true catalogState).Images
        ≠ (SortImages SortKeyEnum.FileSize true catalogSorted).Images := by
  have hall : ∀ (sort : (α : Type) → (α → α → Bool) → List α → List α), ComparisonSort sort →
      sort ImagePtr (SortImages.sortFn catalogHeap SortKeyEnum.FileSize true) [1, 2, 3]
          ≠ sort ImagePtr (SortImages.sortFn catalogHeap SortKeyEnum.FileSize true) [2, 1, 3]
      ∧ ¬ (List.Sublist [2, 1]
            (sort ImagePtr (SortImages.sortFn catalogHeap SortKeyEnum.FileSize true) [1, 2, 3])
          ∧ List.Sublist [2, 1]
            (sort ImagePtr (SortImages.sortFn catalogHeap SortKeyEnum.FileSize true)
              [2, 1, 3])) := by
    intro sort hsort
    obtain ⟨hperm, hmap⟩ := sort_exchangeTied sort hsort
    rw [hmap]
    constructor
    · intro heq
      have hfix := (List.map_eq_map_iff.mp ((List.map_id _).trans heq)) 1
        (hperm.symm.subset (by simp))
      revert hfix
      decide
    · rintro ⟨h1, h2⟩
      have h3 := h1.map exchangeTied
      have hnd : (List.map exchangeTied (sort ImagePtr
          (SortImages.sortFn catalogHeap SortKeyEnum.FileSize true) [1, 2, 3])).Nodup :=
        ((hperm.map exchangeTied).nodup_iff).mpr (by decide)
      exact not_both_orders _ hnd h3 h2
  refine ⟨rfl, by decide, hall, rfl, by decide, ?_⟩
  exact (hall (@tListSort) tListSort_comparisonSort).1

/-- C12 (amended): SortImages does not look at the paths to order records whose keys compare
equal. For the keys other than the name, giving the records other file names (the other
fields as they were) changes neither the compare function nor the order SortImages
produces; and for every key and direction,
when no two different records of the catalog have keys that compare equal, the resulting
order depends only on the set of records and not on the order they were in before the
call. -/
theorem C12_SortImages_order_ignores_paths (key : SortKeyEnum) (ascending : Bool) (s : State) :
    (key ≠ SortKeyEnum.Alphabetical → ∀ (rename : ImagePtr → tString) (s2 : State),
        s2.heap = renameFiles s.heap rename → s2.Images = s.Images →
          SortImages.sortFn s2.heap key ascending = SortImages.sortFn s.heap key ascending
          ∧ (SortImages key ascending s2).Images = (SortImages key ascending s).Images)
    ∧ ((∀ a ∈ s.Images, ∀ b ∈ s.Images, keyEqual s.heap key a b → a = b) →
        ∀ s2 : State, s2.heap = s.heap → s2.Images.Perm s.Images →
          (SortImages key ascending s2).Images = (SortImages key ascending s).Images) := by
  constructor
  · intro hkey rename s2 hheap himg
    have hfn : SortImages.sortFn s2.heap key ascending
        = SortImages.sortFn s.heap key ascending := by
      rw [hheap]
      cases key with
      | Alphabetical => exact absurd rfl hkey
      | FileModTime => cases ascending <;> rfl
      | FileSize => cases ascending <;> rfl
      | FileType => cases ascending <;> rfl
    refine ⟨hfn, ?_⟩
    show tListSort (SortImages.sortFn s2.heap key ascending) s2.Images
      = tListSort (SortImages.sortFn s.heap key ascending) s.Images
    rw [hfn, himg]
  · intro hinj s2 hheap hperm
    have h1 := SortImages_sorted key ascending s
    have h2 := SortImages_sorted key ascending s2
    rw [hheap] at h2
    have p1 := SortImages_perm key ascending s
    have p2 := SortImages_perm key ascending s2
    refine List.Perm.eq_of_sorted ?_ h2 h1 (p2.trans (hperm.trans p1.symm))
    intro a b ha hb hab hba
    exact hinj a (hperm.subset (p2.subset ha)) b (p1.subset hb)
      (keyEqual_of_keyOrdered s.heap key ascending a b hab hba)

/-- C12 (amended), on the scenario catalog: sorted by size, the result is the same when b.png
and a.png exchange their names; sorted by name, where no two records tie, the two orders of
the catalog give the same result. -/
theorem C12_SortImages_order_ignores_paths_witness :
    fileNames catalogRenamed.heap [1, 2] = ["/pics/a.png".toList, "/pics/b.png".toList]
    ∧ (SortImages SortKeyEnum.FileSize true catalogRenamed).Images
      = (SortImages SortKeyEnum.FileSize true catalogState).Images
    ∧ (SortImages SortKeyEnum.Alphabetical true catalogSorted).Images
        = (SortImages SortKeyEnum.Alphabetical true catalogState).Images :=
  ⟨by decide,
    ((C12_SortImages_order_ignores_paths SortKeyEnum.FileSize true catalogState).1
      (fun h => nomatch h) (fun i => (catalogHeap (exchangeTied i)).Filename) catalogRenamed
      rfl rfl).2,
    (C12_SortImages_order_ignores_paths SortKeyEnum.Alphabetical true catalogState).2
      (by simp only [keyEqual]; decide) catalogSorted rfl (by decide)⟩

/-! ## Navigation -/

theorem tListNext_append (c : ImagePtr) (post : List ImagePtr) :
    ∀ (pre : List ImagePtr), c ∉ pre → tListNext (pre ++ c :: post) c = post.head?
  | [], _ => by simp [tListNext]
  | a :: pre, hc => by
      have hac : a ≠ c := fun e => hc (e ▸ List.mem_cons_self _ _)
      have hpre : c ∉ pre := fun e => hc (List.mem_cons_of_mem _ e)
      simp only [List.cons_append, tListNext, if_neg hac]
      exact tListNext_append c post pre hpre

theorem tListPrev_append (c : ImagePtr) (post : List ImagePtr) :
    ∀ (pre : List ImagePtr), c ∉ pre → tListPrev (pre ++ c :: post) c = pre.getLast?
  | [], _ => by
      cases post <;> simp [tListPrev]
  | [a], hc => by
      have hac : a ≠ c := fun e => hc (e ▸ List.mem_cons_self _ _)
      simp [tListPrev, hac]
  | a :: b :: pre, hc => by
      have hac : a ≠ c := fun e => hc (e ▸ List.mem_cons_self _ _)
      have hbc : b ≠ c := fun e => hc (e ▸ List.mem_cons_of_mem _ (List.mem_cons_self _ _))
      have hpre : c ∉ b :: pre := fun e => hc (List.mem_cons_of_mem _ e)
      have ih := tListPrev_append c post (b :: pre) hpre
      show tListPrev (a :: b :: (pre ++ c :: post)) c = _
      rw [tListPrev, if_neg hac, if_neg hbc]
      rw [show b :: (pre ++ c :: post) = (b :: pre) ++ c :: post from rfl, ih]
      simp [List.getLast?_cons_cons]

/-- What `LoadCurrImage` leaves alone, for a non-null `CurrImage`: it returns, and only the
objects and the order of the load-time list may differ. -/
theorem LoadCurrImage_frame (Config : Settings) (decoded : Option (Int × ℚ)) (s : State)
    (c : ImagePtr) (hc : s.CurrImage = some c) :
    ∃ s1, LoadCurrImage Config decoded s = some s1
      ∧ s1.CurrImage = some c
      ∧ s1.Images = s.Images
      ∧ s1.ImagesLoadTimeSorted.Perm s.ImagesLoadTimeSorted
      ∧ s1.ImagesHash = s.ImagesHash
      ∧ s1.ImageFileParam = s.ImageFileParam
      ∧ s1.SlideshowPlaying = s.SlideshowPlaying
      ∧ s1.SlideshowCountdown = s.SlideshowCountdown := by
  have hperm := tListSort_perm
    (Compare_ImageLoadTimeAscending (heapAfterLoad decoded s.heap c)) s.ImagesLoadTimeSorted
  rcases LoadCurrImage_run_cases Config decoded s c hc _ rfl _ rfl _ rfl with
    ⟨_, hrun⟩ | ⟨_, _, hrun⟩ | ⟨_, _, hrun⟩
  · exact ⟨_, congrArg (Option.map Prod.fst) hrun, hc, rfl, List.Perm.refl _, rfl, rfl, rfl, rfl⟩
  · exact ⟨_, congrArg (Option.map Prod.fst) hrun, hc, rfl, hperm, rfl, rfl, rfl, rfl⟩
  · exact ⟨_, congrArg (Option.map Prod.fst) hrun, hc, rfl, hperm, rfl, rfl, rfl, rfl⟩

theorem LoadCurrImage_null (Config : Settings) (decoded : Option (Int × ℚ)) (s : State)
    (hc : s.CurrImage = none) : LoadCurrImage Config decoded s = none := by
  simp [LoadCurrImage, LoadCurrImage.run, hc]

/-- The call of `LoadCurrImage` that ends a navigation step, for a non-null selection. -/
theorem LoadCurrImage_map_frame (Config : Settings) (decoded : Option (Int × ℚ)) (s2 : State)
    (c : ImagePtr) (hc : s2.CurrImage = some c) :
    ∃ s1, (LoadCurrImage Config decoded s2).map (fun s3 => (s3, true)) = some (s1, true)
      ∧ s1.CurrImage = some c ∧ s1.Images = s2.Images
      ∧ s1.ImagesLoadTimeSorted.Perm s2.ImagesLoadTimeSorted := by
  obtain ⟨s1, hload, hcur, himg, hlts, _⟩ := LoadCurrImage_frame Config decoded s2 c hc
  exact ⟨s1, by rw [hload]; rfl, hcur, himg, hlts⟩

/-- A step of `OnNext` that moves: the selection becomes `next` and the image is loaded. -/
theorem OnNext_moves (Config : Settings) (decoded : Option (Int × ℚ)) (s : State)
    (c next : ImagePtr) (hc : s.CurrImage = some c)
    (hnext : (if (s.SlideshowPlaying && Config.SlideshowLooping) = true
        then tListNextCirc s.Images c else tListNext s.Images c) = some next)
    (hgo : ¬ ((!(s.SlideshowPlaying && Config.SlideshowLooping)
        && (tListNext s.Images c).isNone) = true)) :
    ∃ s1, OnNext Config decoded s = some (s1, true)
      ∧ s1.CurrImage = some next ∧ s1.Images = s.Images
      ∧ s1.ImagesLoadTimeSorted.Perm s.ImagesLoadTimeSorted := by
  unfold OnNext
  simp only [hc, if_neg hgo]
  cases hp : s.SlideshowPlaying
  · simp only [Bool.false_eq_true, if_false]
    rw [hp] at hnext
    exact LoadCurrImage_map_frame Config decoded _ next hnext
  · simp only [if_true]
    rw [hp] at hnext
    exact LoadCurrImage_map_frame Config decoded _ next hnext

/-- A step of `OnPrevious` that moves: the selection becomes `prev` and the image is loaded. -/
theorem OnPrevious_moves (Config : Settings) (decoded : Option (Int × ℚ)) (s : State)
    (c prev : ImagePtr) (hc : s.CurrImage = some c)
    (hprev : (if (s.SlideshowPlaying && Config.SlideshowLooping) = true
        then tListPrevCirc s.Images c else tListPrev s.Images c) = some prev)
    (hgo : ¬ ((!(s.SlideshowPlaying && Config.SlideshowLooping)
        && (tListPrev s.Images c).isNone) = true)) :
    ∃ s1, OnPrevious Config decoded s = some (s1, true)
      ∧ s1.CurrImage = some prev ∧ s1.Images = s.Images
      ∧ s1.ImagesLoadTimeSorted.Perm s.ImagesLoadTimeSorted := by
  unfold OnPrevious
  simp only [hc, if_neg hgo]
  cases hp : s.SlideshowPlaying
  · simp only [Bool.false_eq_true, if_false]
    rw [hp] at hprev
    exact LoadCurrImage_map_frame Config decoded _ prev hprev
  · simp only [if_true]
    rw [hp] at hprev
    exact LoadCurrImage_map_frame Config decoded _ prev hprev

theorem not_mem_of_nodup_append {c : ImagePtr} {pre post : List ImagePtr}
    (h : (pre ++ c :: post).Nodup) : c ∉ pre := by
  intro hc
  have := (List.nodup_append.mp h).2.2
  exact this hc (List.mem_cons_self _ _)

theorem tListNextCirc_isSome (l : List ImagePtr) (c : ImagePtr) (hne : l ≠ []) :
    ∃ next, tListNextCirc l c = some next := by
  unfold tListNextCirc
  cases h : tListNext l c with
  | some n => exact ⟨n, rfl⟩
  | none =>
      cases l with
      | nil => exact absurd rfl hne
      | cons a rest => exact ⟨a, rfl⟩

theorem tListPrevCirc_isSome (l : List ImagePtr) (c : ImagePtr) (hne : l ≠ []) :
    ∃ prev, tListPrevCirc l c = some prev := by
  unfold tListPrevCirc
  cases h : tListPrev l c with
  | some n => exact ⟨n, rfl⟩
  | none =>
      obtain ⟨x, hx⟩ := Option.isSome_iff_exists.mp
        (by rw [tListLast, List.getLast?_isSome]; exact hne : (tListLast l).isSome = true)
      exact ⟨x, hx⟩

/-- C13: outside looping-slideshow mode, on a catalog that holds every record once, OnNext
(resp. OnPrevious) moves CurrImage to its immediate successor (resp. predecessor) in Images
and returns true; when CurrImage is the last (resp. first) record, or is null, it returns
false and leaves the whole state, so CurrImage and every load state, unchanged. -/
theorem C13_linear_navigation (Config : Settings) (decoded : Option (Int × ℚ)) (s : State)
    (hlin : (s.SlideshowPlaying && Config.SlideshowLooping) = false)
    (hnodup : s.Images.Nodup) :
    (s.CurrImage = none →
        OnNext Config decoded s = some (s, false) ∧ OnPrevious Config decoded s = some (s, false))
    ∧ (∀ pre c next post, s.CurrImage = some c → s.Images = pre ++ c :: next :: post →
        ∃ s1, OnNext Config decoded s = some (s1, true)
          ∧ s1.CurrImage = some next ∧ s1.Images = s.Images)
    ∧ (∀ pre c, s.CurrImage = some c → s.Images = pre ++ [c] →
        OnNext Config decoded s = some (s, false))
    ∧ (∀ pre prev c post, s.CurrImage = some c → s.Images = pre ++ prev :: c :: post →
        ∃ s1, OnPrevious Config decoded s = some (s1, true)
          ∧ s1.CurrImage = some prev ∧ s1.Images = s.Images)
    ∧ (∀ c post, s.CurrImage = some c → s.Images = c :: post →
        OnPrevious Config decoded s = some (s, false)) := by
  refine ⟨?_, ?_, ?_, ?_, ?_⟩
  · intro hc
    simp [OnNext, OnPrevious, hc]
  · intro pre c next post hc himg
    have hpre : c ∉ pre := not_mem_of_nodup_append (himg ▸ hnodup)
    have hn : tListNext s.Images c = some next := by
      rw [himg, tListNext_append c _ pre hpre]; rfl
    obtain ⟨s1, h1, h2, h3, _⟩ := OnNext_moves Config decoded s c next hc
      (by rw [hlin]; simpa using hn) (by rw [hlin, hn]; simp)
    exact ⟨s1, h1, h2, h3⟩
  · intro pre c hc himg
    have hpre : c ∉ pre := not_mem_of_nodup_append (himg ▸ hnodup)
    have hn : tListNext s.Images c = none := by
      rw [himg, tListNext_append c _ pre hpre]; rfl
    simp [OnNext, hc, hlin, hn]
  · intro pre prev c post hc himg
    have himg2 : s.Images = (pre ++ [prev]) ++ c :: post := by simp [himg]
    have hpre : c ∉ pre ++ [prev] := not_mem_of_nodup_append (himg2 ▸ hnodup)
    have hp : tListPrev s.Images c = some prev := by
      rw [himg2, tListPrev_append c _ _ hpre]; simp
    obtain ⟨s1, h1, h2, h3, _⟩ := OnPrevious_moves Config decoded s c prev hc
      (by rw [hlin]; simpa using hp) (by rw [hlin, hp]; simp)
    exact ⟨s1, h1, h2, h3⟩
  · intro c post hc himg
    have hp : tListPrev s.Images c = none := by
      rw [himg]
      exact tListPrev_append c post [] (by simp)
    simp [OnPrevious, hc, hlin, hp]

/-- C13, on the scenario of the specification: in the catalog a.png, b.png, c.jpg with
a.png selected, OnNext selects b.png (at 1) and returns true. -/
theorem C13_linear_navigation_witness :
    ∃ s1, OnNext {} none catalogSorted = some (s1, true)
      ∧ s1.CurrImage = some 1 ∧ s1.Images = catalogSorted.Images :=
  (C13_linear_navigation {} none catalogSorted rfl (by decide)).2.1 [] 2 1 [3] rfl rfl

/-- C14: in circular mode (SlideshowPlaying and Config.SlideshowLooping), on a non-empty
catalog that holds every record once and with a non-null CurrImage, OnNext and OnPrevious
always return true, OnNext at the last record selects the first record, and OnPrevious at the
first record selects the last record. -/
theorem C14_circular_navigation (Config : Settings) (decoded : Option (Int × ℚ)) (s : State)
    (c : ImagePtr) (hplay : s.SlideshowPlaying = true) (hloop : Config.SlideshowLooping = true)
    (hcurr : s.CurrImage = some c) (hnodup : s.Images.Nodup) (hne : s.Images ≠ []) :
    (∃ s1, OnNext Config decoded s = some (s1, true))
    ∧ (∃ s1, OnPrevious Config decoded s = some (s1, true))
    ∧ (∀ pre, s.Images = pre ++ [c] →
        ∃ s1, OnNext Config decoded s = some (s1, true)
          ∧ s1.CurrImage = tListFirst s.Images ∧ s1.Images = s.Images)
    ∧ (∀ post, s.Images = c :: post →
        ∃ s1, OnPrevious Config decoded s = some (s1, true)
          ∧ s1.CurrImage = tListLast s.Images ∧ s1.Images = s.Images) := by
  have hcirc : (s.SlideshowPlaying && Config.SlideshowLooping) = true := by
    rw [hplay, hloop]; rfl
  refine ⟨?_, ?_, ?_, ?_⟩
  · obtain ⟨n, hn⟩ := tListNextCirc_isSome s.Images c hne
    obtain ⟨s1, h1, _⟩ := OnNext_moves Config decoded s c n hcurr
      (by rw [if_pos hcirc]; exact hn) (by rw [hcirc]; simp)
    exact ⟨s1, h1⟩
  · obtain ⟨p, hp⟩ := tListPrevCirc_isSome s.Images c hne
    obtain ⟨s1, h1, _⟩ := OnPrevious_moves Config decoded s c p hcurr
      (by rw [if_pos hcirc]; exact hp) (by rw [hcirc]; simp)
    exact ⟨s1, h1⟩
  · intro pre himg
    have hpre : c ∉ pre := not_mem_of_nodup_append (himg ▸ hnodup)
    have hn : tListNext s.Images c = none := by
      rw [himg, tListNext_append c _ pre hpre]; rfl
    obtain ⟨f, hf⟩ := tListNextCirc_isSome s.Images c hne
    have hfirst : tListNextCirc s.Images c = tListFirst s.Images := by
      simp [tListNextCirc, hn]
    obtain ⟨s1, h1, h2, h3, _⟩ := OnNext_moves Config decoded s c f hcurr
      (by rw [if_pos hcirc]; exact hf) (by rw [hcirc]; simp)
    exact ⟨s1, h1, by rw [h2, ← hf, hfirst], h3⟩
  · intro post himg
    have hp : tListPrev s.Images c = none := by
      rw [himg]
      exact tListPrev_append c post [] (by simp)
    obtain ⟨l, hl⟩ := tListPrevCirc_isSome s.Images c hne
    have hlast : tListPrevCirc s.Images c = tListLast s.Images := by
      simp [tListPrevCirc, hp]
    obtain ⟨s1, h1, h2, h3, _⟩ := OnPrevious_moves Config decoded s c l hcurr
      (by rw [if_pos hcirc]; exact hl) (by rw [hcirc]; simp)
    exact ⟨s1, h1, by rw [h2, ← hl, hlast], h3⟩

/-- C14, on the scenario of the specification: in the catalog a.png, b.png, c.jpg with a.png
selected and a looping slideshow playing, OnPrevious selects c.jpg (at 3) and returns true. -/
theorem C14_circular_navigation_witness :
    (∃ s1, OnPrevious {} none { catalogSorted with SlideshowPlaying := true } = some (s1, true)
        ∧ s1.CurrImage = tListLast catalogSorted.Images ∧ s1.Images = catalogSorted.Images)
    ∧ tListLast catalogSorted.Images = some 3 :=
  ⟨(C14_circular_navigation {} none { catalogSorted with SlideshowPlaying := true } 2 rfl rfl rfl
      (by decide) (by decide)).2.2.2 [1, 3] rfl, by decide⟩

/-! ## FindImage, SetCurrentImage and FocusCallback -/

theorem FindImage_loop_spec (heap : Heap) (filename : tString) :
    ∀ (l : List ImagePtr),
      (∀ si, FindImage.loop heap filename l = some si →
        ∃ pre post, l = pre ++ si :: post
          ∧ tStricmp (heap si).Filename filename = 0
          ∧ ∀ x ∈ pre, tStricmp (heap x).Filename filename ≠ 0)
      ∧ (FindImage.loop heap filename l = none ↔
          ∀ x ∈ l, tStricmp (heap x).Filename filename ≠ 0)
  | [] => by simp [FindImage.loop]
  | a :: rest => by
      obtain ⟨ih1, ih2⟩ := FindImage_loop_spec heap filename rest
      by_cases ha : tStricmp (heap a).Filename filename = 0
      · have hloop : FindImage.loop heap filename (a :: rest) = some a := by
          simp [FindImage.loop, IsEqualCI, ha]
        constructor
        · intro si hsi
          rw [hloop] at hsi
          cases hsi
          exact ⟨[], rest, rfl, ha, by simp⟩
        · rw [hloop]
          simp [ha]
      · have hloop : FindImage.loop heap filename (a :: rest)
            = FindImage.loop heap filename rest := by
          simp [FindImage.loop, IsEqualCI, ha]
        constructor
        · intro si hsi
          rw [hloop] at hsi
          obtain ⟨pre, post, hl, hm, hpre⟩ := ih1 si hsi
          refine ⟨a :: pre, post, by simp [hl], hm, ?_⟩
          intro x hx
          rcases List.mem_cons.mp hx with e | e
          · rw [e]; exact ha
          · exact hpre x e
        · rw [hloop, ih2]
          simp [ha]

/-- C15 (as stated, refuted): the record at 2 has the path /pics/a.png, whose final segment is
a.png. FindImage finds it for the absolute spelling and finds nothing for the relative
spelling a.png: it compares the whole Filename, not the final path segment. -/
theorem C15_counterexample :
    2 ∈ catalogSorted.Images
    ∧ tGetFileName (catalogSorted.heap 2).Filename = "a.png".toList
    ∧ tStricmp (tGetFileName (catalogSorted.heap 2).Filename) (tGetFileName "a.png".toList) = 0
    ∧ FindImage "a.png".toList catalogSorted = none
    ∧ FindImage "/pics/a.png".toList catalogSorted = some 2 := by
  refine ⟨by decide, by decide, by decide, by decide, by decide⟩

/-- C15 (amended): FindImage(filename) matches on the whole Filename of a record. It returns
the first record in primary order whose Filename equals `filename` ignoring case, and it
returns no record exactly when no record has a Filename equal to `filename` ignoring case. -/
theorem C15_FindImage_matches_whole_Filename (filename : tString) (s : State) :
    (∀ si, FindImage filename s = some si →
      ∃ pre post, s.Images = pre ++ si :: post
        ∧ tStricmp (s.heap si).Filename filename = 0
        ∧ ∀ x ∈ pre, tStricmp (s.heap x).Filename filename ≠ 0)
    ∧ (FindImage filename s = none ↔
        ∀ x ∈ s.Images, tStricmp (s.heap x).Filename filename ≠ 0) :=
  FindImage_loop_spec s.heap filename s.Images

/-- C15 (amended), on the scenario catalog: a.png is found under its path in another case. -/
theorem C15_FindImage_matches_whole_Filename_witness :
    ∃ pre post, catalogSorted.Images = pre ++ 2 :: post
      ∧ tStricmp (catalogSorted.heap 2).Filename "/PICS/A.PNG".toList = 0
      ∧ ∀ x ∈ pre, tStricmp (catalogSorted.heap x).Filename "/PICS/A.PNG".toList ≠ 0 :=
  (C15_FindImage_matches_whole_Filename "/PICS/A.PNG".toList catalogSorted).1 2 (by decide)

/-- What `SetCurrentImage` leaves alone: it returns, and only the selection, the objects and
the order of the load-time list may differ. -/
theorem SetCurrentImage_frame (Config : Settings) (decoded : Option (Int × ℚ))
    (currFilename : tString) (s : State) :
    ∃ s1, SetCurrentImage Config decoded currFilename s = some s1
      ∧ s1.Images = s.Images
      ∧ s1.ImagesLoadTimeSorted.Perm s.ImagesLoadTimeSorted
      ∧ s1.ImagesHash = s.ImagesHash
      ∧ s1.ImageFileParam = s.ImageFileParam := by
  unfold SetCurrentImage
  cases hfind : SetCurrentImage.loop s.heap currFilename s.Images with
  | some si =>
      obtain ⟨s1, h1, _, h3, h4, h5, h6, _⟩ := LoadCurrImage_frame Config decoded
        { s with CurrImage := some si } si rfl
      exact ⟨s1, by simpa using h1, h3, h4, h5, h6⟩
  | none =>
      cases hcur : s.CurrImage with
      | some c =>
          obtain ⟨s1, h1, _, h3, h4, h5, h6, _⟩ := LoadCurrImage_frame Config decoded s c hcur
          exact ⟨s1, by simpa [hcur] using h1, h3, h4, h5, h6⟩
      | none =>
          cases hfirst : tListFirst s.Images with
          | some f =>
              obtain ⟨s1, h1, _, h3, h4, h5, h6, _⟩ := LoadCurrImage_frame Config decoded
                { s with CurrImage := some f } f rfl
              exact ⟨s1, by simpa [hcur, hfirst] using h1, h3, h4, h5, h6⟩
          | none =>
              exact ⟨{ s with CurrImage := none }, by simp [hcur, hfirst], rfl,
                List.Perm.refl _, rfl, rfl⟩

theorem PopulateImages_loop_frame (attributes : tString → FileAttributes) :
    ∀ (files : List tString) (s0 : State),
      (PopulateImages.loop attributes files s0).ImagesHash = s0.ImagesHash
        ∧ (PopulateImages.loop attributes files s0).ImageFileParam = s0.ImageFileParam
  | [], _ => ⟨rfl, rfl⟩
  | _ :: rest, s0 => by
      simp only [PopulateImages.loop]
      exact PopulateImages_loop_frame attributes rest _

theorem PopulateImages_hash (Config : Settings) (tHashString256 : tString → Nat → Nat)
    (attributes : tString → FileAttributes) (foundFiles : List tString) (s : State) :
    (PopulateImages Config tHashString256 attributes foundFiles s).ImagesHash
        = PopulateImages_ImagesHash tHashString256 foundFiles
    ∧ (PopulateImages Config tHashString256 attributes foundFiles s).ImageFileParam
        = s.ImageFileParam := by
  unfold PopulateImages SortImages PopulateImages_ImagesHash
  simp only
  constructor
  · exact (PopulateImages_loop_frame attributes _ _).1
  · exact (PopulateImages_loop_frame attributes _ _).2

/-- The match branch of `FocusCallback`, and the call without focus: nothing is done. -/
theorem FocusCallback_run_match (Config : Settings) (tHashString256 : tString → Nat → Nat)
    (attributes : tString → FileAttributes) (decoded : Option (Int × ℚ))
    (foundFiles : List tString) (gotFocus : Int) (s : State)
    (hmatch : PopulateImages_ImagesHash tHashString256 foundFiles = s.ImagesHash) :
    FocusCallback.run Config tHashString256 attributes decoded foundFiles gotFocus s
      = some (s, false) := by
  unfold FocusCallback.run
  unfold PopulateImages_ImagesHash at hmatch
  by_cases hg : gotFocus = 0
  · simp [hg]
  · simp [hg, hmatch]

/-- The mismatch branch of `FocusCallback`: `PopulateImages`, then `SetCurrentImage` with
`ImageFileParam` (with the empty name when it is not present). -/
theorem FocusCallback_run_mismatch (Config : Settings) (tHashString256 : tString → Nat → Nat)
    (attributes : tString → FileAttributes) (decoded : Option (Int × ℚ))
    (foundFiles : List tString) (gotFocus : Int) (s : State) (hfocus : gotFocus ≠ 0)
    (hdiff : PopulateImages_ImagesHash tHashString256 foundFiles ≠ s.ImagesHash) :
    FocusCallback.run Config tHashString256 attributes decoded foundFiles gotFocus s
      = (SetCurrentImage Config decoded (s.ImageFileParam.getD [])
          (PopulateImages Config tHashString256 attributes foundFiles s)).map
            (fun s2 => (s2, true)) := by
  have hparam := (PopulateImages_hash Config tHashString256 attributes foundFiles s).2
  unfold FocusCallback.run
  unfold PopulateImages_ImagesHash at hdiff
  simp only [if_neg hfocus, ne_eq, hdiff, not_false_eq_true, if_true, hparam]
  cases s.ImageFileParam <;> rfl

/-- C16: when FocusCallback is called and the fingerprint of the freshly scanned, sorted
listing equals the stored ImagesHash, it does nothing: the state it leaves is the state it
was called in, so Images and its order, ImagesLoadTimeSorted, CurrImage, every record and
ImagesHash are unchanged, and it does not resynch. -/
theorem C16_FocusCallback_match_is_noop (Config : Settings)
    (tHashString256 : tString → Nat → Nat) (attributes : tString → FileAttributes)
    (decoded : Option (Int × ℚ)) (foundFiles : List tString) (gotFocus : Int) (s : State)
    (hmatch : PopulateImages_ImagesHash tHashString256 foundFiles = s.ImagesHash) :
    FocusCallback Config tHashString256 attributes decoded foundFiles gotFocus s = some s
    ∧ FocusCallback.run Config tHashString256 attributes decoded foundFiles gotFocus s
        = some (s, false) := by
  have h := FocusCallback_run_match Config tHashString256 attributes decoded foundFiles
    gotFocus s hmatch
  exact ⟨by rw [FocusCallback, h]; rfl, h⟩

/-- C16, on the refocus example: the folder still lists a.png, b.png and c.jpg. -/
theorem C16_FocusCallback_match_is_noop_witness :
    FocusCallback {} exampleHash (fun _ => {}) none refocusListing 1 refocusState
        = some refocusState
    ∧ FocusCallback.run {} exampleHash (fun _ => {}) none refocusListing 1 refocusState
        = some (refocusState, false) :=
  C16_FocusCallback_match_is_noop {} exampleHash (fun _ => {}) none refocusListing 1
    refocusState rfl

/-- C17: FocusCallback decides by fingerprint alone. Called with focus, it returns, and it
resynchs exactly when the fingerprint of the new sorted listing differs from ImagesHash,
whatever the numbers of files are: then the state it leaves is the one PopulateImages
followed by SetCurrentImage leaves, otherwise it is the state it was called in. -/
theorem C17_FocusCallback_decides_by_fingerprint (Config : Settings)
    (tHashString256 : tString → Nat → Nat) (attributes : tString → FileAttributes)
    (decoded : Option (Int × ℚ)) (foundFiles : List tString) (gotFocus : Int) (s : State)
    (hfocus : gotFocus ≠ 0) :
    ∃ s1 resynched,
      FocusCallback.run Config tHashString256 attributes decoded foundFiles gotFocus s
        = some (s1, resynched)
      ∧ (resynched = true ↔ PopulateImages_ImagesHash tHashString256 foundFiles ≠ s.ImagesHash)
      ∧ (resynched = true →
          SetCurrentImage Config decoded (s.ImageFileParam.getD [])
            (PopulateImages Config tHashString256 attributes foundFiles s) = some s1)
      ∧ (resynched = false → s1 = s) := by
  by_cases hmatch : PopulateImages_ImagesHash tHashString256 foundFiles = s.ImagesHash
  · refine ⟨s, false, FocusCallback_run_match Config tHashString256 attributes decoded
      foundFiles gotFocus s hmatch, ?_, ?_, ?_⟩
    · simp [hmatch]
    · intro h; cases h
    · intro _; rfl
  · obtain ⟨s1, hs1, _⟩ := SetCurrentImage_frame Config decoded (s.ImageFileParam.getD [])
      (PopulateImages Config tHashString256 attributes foundFiles s)
    refine ⟨s1, true, ?_, ?_, ?_, ?_⟩
    · rw [FocusCallback_run_mismatch Config tHashString256 attributes decoded foundFiles
        gotFocus s hfocus hmatch, hs1]
      rfl
    · simp [hmatch]
    · intro _; exact hs1
    · intro h; cases h

/-- C17, on the refocus example: a.png has been renamed to z.png, the folder still lists
three files, the fingerprints differ and FocusCallback resynchs. -/
theorem C17_FocusCallback_decides_by_fingerprint_witness :
    (∃ s1 resynched,
      FocusCallback.run {} exampleHash (fun _ => {}) none
          ["/pics/b.png".toList, "/pics/z.png".toList, "/pics/c.jpg".toList] 1 refocusState
        = some (s1, resynched)
      ∧ (resynched = true ↔ PopulateImages_ImagesHash exampleHash
            ["/pics/b.png".toList, "/pics/z.png".toList, "/pics/c.jpg".toList]
          ≠ refocusState.ImagesHash)
      ∧ (resynched = true →
          SetCurrentImage {} none (refocusState.ImageFileParam.getD [])
            (PopulateImages {} exampleHash (fun _ => {})
              ["/pics/b.png".toList, "/pics/z.png".toList, "/pics/c.jpg".toList] refocusState)
            = some s1)
      ∧ (resynched = false → s1 = refocusState))
    ∧ ["/pics/b.png".toList, "/pics/z.png".toList, "/pics/c.jpg".toList].length
        = refocusState.Images.length
    ∧ PopulateImages_ImagesHash exampleHash
          ["/pics/b.png".toList, "/pics/z.png".toList, "/pics/c.jpg".toList]
        ≠ refocusState.ImagesHash :=
  ⟨C17_FocusCallback_decides_by_fingerprint {} exampleHash (fun _ => {}) none
      ["/pics/b.png".toList, "/pics/z.png".toList, "/pics/c.jpg".toList] 1 refocusState
      (by decide),
    by decide, by decide⟩

/-- C18 (the code at the failing input): the viewer was opened on b.png, the user moved on
to c.jpg, then d.png appeared in the folder. c.jpg is still listed, but after FocusCallback
the selected record is the one of b.png, the file named by ImageFileParam; and when
ImageFileParam is not present it is the first record, a.png. -/
theorem C18_FocusCallback_reselects_ImageFileParam :
    currentFilename refocusState = some "/pics/c.jpg".toList
    ∧ "/pics/c.jpg".toList ∈ "/pics/d.png".toList :: refocusListing
    ∧ (FocusCallback.run {} exampleHash (fun _ => {}) none
          ("/pics/d.png".toList :: refocusListing) 1 refocusState).map
        (fun r => (currentFilename r.1, r.2)) = some (some "/pics/b.png".toList, true)
    ∧ (FocusCallback.run {} exampleHash (fun _ => {}) none
          ("/pics/d.png".toList :: refocusListing) 1
          { refocusState with ImageFileParam := none }).map
        (fun r => (currentFilename r.1, r.2)) = some (some "/pics/a.png".toList, true) := by
  refine ⟨by decide, by decide, by decide, by decide⟩

/-- C19: after FocusCallback has been called with focus (either branch), it has returned and
the stored ImagesHash equals the fingerprint of the sorted directory listing; hence, for the
same listing, a FocusCallback immediately after it takes the match branch: it does not
resynch and leaves the state as it is. -/
theorem C19_FocusCallback_stores_fingerprint (Config : Settings)
    (tHashString256 : tString → Nat → Nat) (attributes : tString → FileAttributes)
    (decoded : Option (Int × ℚ)) (foundFiles : List tString) (gotFocus : Int) (s : State)
    (hfocus : gotFocus ≠ 0) :
    ∃ s1, FocusCallback Config tHashString256 attributes decoded foundFiles gotFocus s = some s1
      ∧ s1.ImagesHash = PopulateImages_ImagesHash tHashString256 foundFiles
      ∧ ∀ (Config2 : Settings) (attributes2 : tString → FileAttributes)
          (decoded2 : Option (Int × ℚ)) (gotFocus2 : Int),
          FocusCallback.run Config2 tHashString256 attributes2 decoded2 foundFiles gotFocus2 s1
            = some (s1, false) := by
  have key : ∃ s1, FocusCallback Config tHashString256 attributes decoded foundFiles gotFocus s
      = some s1 ∧ s1.ImagesHash = PopulateImages_ImagesHash tHashString256 foundFiles := by
    by_cases hmatch : PopulateImages_ImagesHash tHashString256 foundFiles = s.ImagesHash
    · refine ⟨s, ?_, hmatch.symm⟩
      rw [FocusCallback, FocusCallback_run_match Config tHashString256 attributes decoded
        foundFiles gotFocus s hmatch]
      rfl
    · obtain ⟨s1, hs1, _, _, hhash, _⟩ := SetCurrentImage_frame Config decoded
        (s.ImageFileParam.getD [])
        (PopulateImages Config tHashString256 attributes foundFiles s)
      refine ⟨s1, ?_, ?_⟩
      · rw [FocusCallback, FocusCallback_run_mismatch Config tHashString256 attributes decoded
          foundFiles gotFocus s hfocus hmatch, hs1]
        rfl
      · rw [hhash]
        exact (PopulateImages_hash Config tHashString256 attributes foundFiles s).1
  obtain ⟨s1, h1, h2⟩ := key
  exact ⟨s1, h1, h2, fun Config2 attributes2 decoded2 gotFocus2 =>
    FocusCallback_run_match Config2 tHashString256 attributes2 decoded2 foundFiles gotFocus2
      s1 h2.symm⟩

/-- C19, on the refocus example after d.png has appeared in the folder. -/
theorem C19_FocusCallback_stores_fingerprint_witness :
    ∃ s1, FocusCallback {} exampleHash (fun _ => {}) none
          ("/pics/d.png".toList :: refocusListing) 1 refocusState = some s1
      ∧ s1.ImagesHash
          = PopulateImages_ImagesHash exampleHash ("/pics/d.png".toList :: refocusListing)
      ∧ ∀ (Config2 : Settings) (attributes2 : tString → FileAttributes)
          (decoded2 : Option (Int × ℚ)) (gotFocus2 : Int),
          FocusCallback.run Config2 exampleHash attributes2 decoded2
              ("/pics/d.png".toList :: refocusListing) gotFocus2 s1
            = some (s1, false) :=
  C19_FocusCallback_stores_fingerprint {} exampleHash (fun _ => {}) none
    ("/pics/d.png".toList :: refocusListing) 1 refocusState (by decide)

/-! ## The two lists of the catalog -/

/-- The loop of `PopulateImages`: the new objects get the next addresses, are appended to
both lists, hold the files in order and are not loaded; older objects are untouched. -/
theorem PopulateImages_loop_spec (attributes : tString → FileAttributes) :
    ∀ (files : List tString) (s : State),
      (PopulateImages.loop attributes files s).Images
          = s.Images ++ List.range' (s.Images.length + 1) files.length
      ∧ (PopulateImages.loop attributes files s).ImagesLoadTimeSorted
          = s.ImagesLoadTimeSorted ++ List.range' (s.Images.length + 1) files.length
      ∧ (∀ p, p ≤ s.Images.length → (PopulateImages.loop attributes files s).heap p = s.heap p)
      ∧ fileNames (PopulateImages.loop attributes files s).heap
          (List.range' (s.Images.length + 1) files.length) = files
      ∧ ((∀ p, (s.heap p).Loaded = false) →
          ∀ p, ((PopulateImages.loop attributes files s).heap p).Loaded = false)
  | [], s => by simp [PopulateImages.loop, fileNames]
  | filename :: rest, s => by
      obtain ⟨h1, h2, h3, h4, h5⟩ := PopulateImages_loop_spec attributes rest
        { s with
          heap := Function.update s.heap (s.Images.length + 1) (Image.create attributes filename)
          Images := s.Images ++ [s.Images.length + 1]
          ImagesLoadTimeSorted := s.ImagesLoadTimeSorted ++ [s.Images.length + 1] }
      simp only [List.length_append, List.length_singleton] at h1 h2 h3 h4
      refine ⟨?_, ?_, ?_, ?_, ?_⟩
      · rw [PopulateImages.loop, h1]
        simp [List.range'_succ]
      · rw [PopulateImages.loop, h2]
        simp [List.range'_succ]
      · intro p hp
        have hne : p ≠ s.Images.length + 1 := by omega
        rw [PopulateImages.loop, h3 p (by omega)]
        exact Function.update_noteq hne _ _
      · rw [PopulateImages.loop]
        simp only [List.length_cons, List.range'_succ, fileNames, List.map_cons] at h4 ⊢
        rw [h4, h3 (s.Images.length + 1) (le_refl _)]
        simp [Image.create]
      · intro hall p
        rw [PopulateImages.loop]
        apply h5
        intro q
        by_cases hq : q = s.Images.length + 1
        · subst hq; simp [Image.create]
        · simp only [Function.update_noteq hq]; exact hall q

/-- The catalog `PopulateImages` builds: the load-time list holds one new record per found
file, in the sorted order of the files, every record once and none loaded, and `Images` is a
reordering of it. -/
theorem PopulateImages_spec (Config : Settings) (tHashString256 : tString → Nat → Nat)
    (attributes : tString → FileAttributes) (foundFiles : List tString) (s : State) :
    (PopulateImages Config tHashString256 attributes foundFiles s).Images.Perm
        (PopulateImages Config tHashString256 attributes foundFiles s).ImagesLoadTimeSorted
    ∧ (PopulateImages Config tHashString256 attributes foundFiles s).ImagesLoadTimeSorted.Nodup
    ∧ fileNames (PopulateImages Config tHashString256 attributes foundFiles s).heap
          (PopulateImages Config tHashString256 attributes foundFiles s).ImagesLoadTimeSorted
        = tListSort Compare_AlphabeticalAscending foundFiles
    ∧ (∀ p, ((PopulateImages Config tHashString256 attributes foundFiles s).heap p).Loaded
        = false)
    ∧ (PopulateImages Config tHashString256 attributes foundFiles s).CurrImage = none := by
  obtain ⟨h1, h2, _, h4, h5⟩ := PopulateImages_loop_spec attributes
    (tListSort Compare_AlphabeticalAscending foundFiles)
    { s with heap := fun _ => {}, Images := [], ImagesLoadTimeSorted := []
             ImagesHash := ComputeImagesHash tHashString256
               (tListSort Compare_AlphabeticalAscending foundFiles) }
  simp only [List.length_nil, List.nil_append, Nat.zero_add] at h1 h2 h4
  unfold PopulateImages SortImages
  simp only
  refine ⟨?_, ?_, ?_, ?_, ?_⟩
  · rw [h2]
    exact (tListSort_perm _ _).trans (by rw [h1])
  · rw [h2]
    exact List.nodup_range' _ _
  · rw [h2]
    exact h4
  · exact h5 (fun _ => rfl)
  · trivial

theorem LoadCurrImage_lists (Config : Settings) (decoded : Option (Int × ℚ)) (s s1 : State)
    (h : LoadCurrImage Config decoded s = some s1) :
    s1.Images = s.Images ∧ s1.ImagesLoadTimeSorted.Perm s.ImagesLoadTimeSorted := by
  cases hc : s.CurrImage with
  | none => rw [LoadCurrImage_null Config decoded s hc] at h; cases h
  | some c =>
      obtain ⟨s2, h2, _, h3, h4, _⟩ := LoadCurrImage_frame Config decoded s c hc
      rw [h2] at h
      have he := Option.some.inj h
      rw [← he]
      exact ⟨h3, h4⟩

theorem map_LoadCurrImage_lists (Config : Settings) (decoded : Option (Int × ℚ))
    (s s1 : State) (b : Bool)
    (h : (LoadCurrImage Config decoded s).map (fun s3 => (s3, true)) = some (s1, b)) :
    s1.Images = s.Images ∧ s1.ImagesLoadTimeSorted.Perm s.ImagesLoadTimeSorted := by
  cases hl : LoadCurrImage Config decoded s with
  | none => rw [hl] at h; cases h
  | some s2 =>
      rw [hl] at h
      have he := congrArg Prod.fst (Option.some.inj h)
      simp only at he
      rw [← he]
      exact LoadCurrImage_lists Config decoded s s2 hl

theorem OnNext_lists (Config : Settings) (decoded : Option (Int × ℚ)) (s s1 : State) (b : Bool)
    (h : OnNext Config decoded s = some (s1, b)) :
    s1.Images = s.Images ∧ s1.ImagesLoadTimeSorted.Perm s.ImagesLoadTimeSorted := by
  unfold OnNext at h
  cases hc : s.CurrImage with
  | none =>
      simp only [hc] at h
      cases h
      exact ⟨rfl, List.Perm.refl _⟩
  | some c =>
      simp only [hc] at h
      split_ifs at h <;>
        first
        | (cases h; exact ⟨rfl, List.Perm.refl _⟩)
        | (have hl := map_LoadCurrImage_lists Config decoded _ s1 b h; exact hl)

theorem OnPrevious_lists (Config : Settings) (decoded : Option (Int × ℚ)) (s s1 : State)
    (b : Bool) (h : OnPrevious Config decoded s = some (s1, b)) :
    s1.Images = s.Images ∧ s1.ImagesLoadTimeSorted.Perm s.ImagesLoadTimeSorted := by
  unfold OnPrevious at h
  cases hc : s.CurrImage with
  | none =>
      simp only [hc] at h
      cases h
      exact ⟨rfl, List.Perm.refl _⟩
  | some c =>
      simp only [hc] at h
      split_ifs at h <;>
        first
        | (cases h; exact ⟨rfl, List.Perm.refl _⟩)
        | (have hl := map_LoadCurrImage_lists Config decoded _ s1 b h; exact hl)

theorem OnSkipBegin_lists (Config : Settings) (decoded : Option (Int × ℚ)) (s s1 : State)
    (b : Bool) (h : OnSkipBegin Config decoded s = some (s1, b)) :
    s1.Images = s.Images ∧ s1.ImagesLoadTimeSorted.Perm s.ImagesLoadTimeSorted := by
  unfold OnSkipBegin at h
  split_ifs at h
  · cases h; exact ⟨rfl, List.Perm.refl _⟩
  · have hl := map_LoadCurrImage_lists Config decoded _ s1 b h
    exact hl

theorem OnSkipEnd_lists (Config : Settings) (decoded : Option (Int × ℚ)) (s s1 : State)
    (b : Bool) (h : OnSkipEnd Config decoded s = some (s1, b)) :
    s1.Images = s.Images ∧ s1.ImagesLoadTimeSorted.Perm s.ImagesLoadTimeSorted := by
  unfold OnSkipEnd at h
  split_ifs at h
  · cases h; exact ⟨rfl, List.Perm.refl _⟩
  · have hl := map_LoadCurrImage_lists Config decoded _ s1 b h
    exact hl

theorem CatalogConsistent_of_lists (s s1 : State) (hs : CatalogConsistent s)
    (h : s1.Images.Perm s.Images ∧ s1.ImagesLoadTimeSorted.Perm s.ImagesLoadTimeSorted) :
    CatalogConsistent s1 :=
  h.1.trans (hs.trans h.2.symm)

/-- C20: Images and ImagesLoadTimeSorted always hold the same records. PopulateImages builds a
catalog in which the two lists are reorderings of one another, with exactly one new record
per found file, each once; SortImages, LoadCurrImage, OnNext, OnPrevious, OnSkipBegin,
OnSkipEnd and SetCurrentImage leave in each list a reordering of what it held; so all of
them, and FocusCallback, keep the two lists reorderings of one another. -/
theorem C20_catalog_lists_hold_same_records (Config : Settings)
    (tHashString256 : tString → Nat → Nat) (attributes : tString → FileAttributes)
    (decoded : Option (Int × ℚ)) (foundFiles : List tString) (currFilename : tString)
    (gotFocus : Int) (key : SortKeyEnum) (ascending : Bool) (s : State) :
    (CatalogConsistent (PopulateImages Config tHashString256 attributes foundFiles s)
      ∧ (PopulateImages Config tHashString256 attributes foundFiles s).ImagesLoadTimeSorted.Nodup
      ∧ (fileNames (PopulateImages Config tHashString256 attributes foundFiles s).heap
          (PopulateImages Config tHashString256 attributes foundFiles s).ImagesLoadTimeSorted).Perm
            foundFiles)
    ∧ SameRecords s (SortImages key ascending s)
    ∧ (∀ s1, LoadCurrImage Config decoded s = some s1 → SameRecords s s1)
    ∧ (∀ s1 b, OnNext Config decoded s = some (s1, b) → SameRecords s s1)
    ∧ (∀ s1 b, OnPrevious Config decoded s = some (s1, b) → SameRecords s s1)
    ∧ (∀ s1 b, OnSkipBegin Config decoded s = some (s1, b) → SameRecords s s1)
    ∧ (∀ s1 b, OnSkipEnd Config decoded s = some (s1, b) → SameRecords s s1)
    ∧ (∀ s1, SetCurrentImage Config decoded currFilename s = some s1 → SameRecords s s1)
    ∧ (∀ s1, FocusCallback Config tHashString256 attributes decoded foundFiles gotFocus s
          = some s1 → CatalogConsistent s → CatalogConsistent s1)
    ∧ (∀ s1, SameRecords s s1 → CatalogConsistent s → CatalogConsistent s1) := by
  have hlists : ∀ s1 : State,
      s1.Images = s.Images ∧ s1.ImagesLoadTimeSorted.Perm s.ImagesLoadTimeSorted →
        SameRecords s s1 := fun s1 h => ⟨h.1 ▸ List.Perm.refl _, h.2⟩
  have hkeep : ∀ s0 s1 : State, SameRecords s0 s1 → CatalogConsistent s0 →
      CatalogConsistent s1 := fun s0 s1 h hs => CatalogConsistent_of_lists s0 s1 hs h
  obtain ⟨hp1, hp2, hp3, _, _⟩ := PopulateImages_spec Config tHashString256 attributes
    foundFiles s
  refine ⟨⟨hp1, hp2, ?_⟩, ⟨SortImages_perm key ascending s, List.Perm.refl _⟩, ?_, ?_, ?_, ?_,
    ?_, ?_, ?_, hkeep s⟩
  · rw [hp3]
    exact tListSort_perm _ _
  · exact fun s1 h => hlists s1 (LoadCurrImage_lists Config decoded s s1 h)
  · exact fun s1 b h => hlists s1 (OnNext_lists Config decoded s s1 b h)
  · exact fun s1 b h => hlists s1 (OnPrevious_lists Config decoded s s1 b h)
  · exact fun s1 b h => hlists s1 (OnSkipBegin_lists Config decoded s s1 b h)
  · exact fun s1 b h => hlists s1 (OnSkipEnd_lists Config decoded s s1 b h)
  · intro s1 h
    obtain ⟨s2, h2, h3, h4, _⟩ := SetCurrentImage_frame Config decoded currFilename s
    rw [h2] at h
    rw [← Option.some.inj h]
    exact hlists s2 ⟨h3, h4⟩
  · intro s1 h hs
    by_cases hfocus : gotFocus = 0
    · have hrun : FocusCallback.run Config tHashString256 attributes decoded foundFiles
          gotFocus s = some (s, false) := by simp [FocusCallback.run, hfocus]
      rw [FocusCallback, hrun] at h
      rw [← Option.some.inj h]
      exact hs
    · by_cases hmatch : PopulateImages_ImagesHash tHashString256 foundFiles = s.ImagesHash
      · rw [FocusCallback, FocusCallback_run_match Config tHashString256 attributes decoded
          foundFiles gotFocus s hmatch] at h
        rw [← Option.some.inj h]
        exact hs
      · obtain ⟨s2, h2, h3, h4, _⟩ := SetCurrentImage_frame Config decoded
          (s.ImageFileParam.getD [])
          (PopulateImages Config tHashString256 attributes foundFiles s)
        rw [FocusCallback, FocusCallback_run_mismatch Config tHashString256 attributes decoded
          foundFiles gotFocus s hfocus hmatch, h2] at h
        rw [← Option.some.inj h]
        exact hkeep _ s2 ⟨h3 ▸ List.Perm.refl _, h4⟩ hp1

/-- C20, on the scenario catalog: OnNext from a.png returns, and the state it leaves holds the
same records in both lists, which are still reorderings of one another. -/
theorem C20_catalog_lists_hold_same_records_witness :
    ∃ s1, OnNext {} none catalogSorted = some (s1, true)
      ∧ SameRecords catalogSorted s1 ∧ CatalogConsistent s1 := by
  obtain ⟨s1, h1, _⟩ := OnNext_moves {} none catalogSorted 2 1 rfl (by decide) (by decide)
  have h := C20_catalog_lists_hold_same_records {} exampleHash (fun _ => {}) none [] [] 1
    SortKeyEnum.Alphabetical true catalogSorted
  have hsame := h.2.2.2.1 s1 true h1
  exact ⟨s1, h1, hsame, h.2.2.2.2.2.2.2.2.2 s1 hsame (by unfold CatalogConsistent; decide)⟩

/-! ## Selection, decode failures and the eviction check -/

/-- C21: SortImages does not move the selection. For every catalog, key and direction,
CurrImage designates the same record before and after the call, that record is in Images
after the call exactly if it was before, and no record changes: only the order of Images,
and so the neighbours of the selected record, may differ. -/
theorem C21_SortImages_keeps_selection (key : SortKeyEnum) (ascending : Bool) (s : State) :
    (SortImages key ascending s).CurrImage = s.CurrImage
    ∧ (SortImages key ascending s).heap = s.heap
    ∧ (∀ i, ((SortImages key ascending s).heap i).Loaded = (s.heap i).Loaded)
    ∧ (∀ c, c ∈ (SortImages key ascending s).Images ↔ c ∈ s.Images)
    ∧ (SortImages key ascending s).ImagesLoadTimeSorted = s.ImagesLoadTimeSorted :=
  ⟨rfl, rfl, fun _ => rfl, fun _ => (SortImages_perm key ascending s).mem_iff, rfl⟩

/-- When the Decoder fails, `LoadCurrImage` changes nothing. -/
theorem LoadCurrImage_decode_failure (Config : Settings) (s : State) (c : ImagePtr)
    (hc : s.CurrImage = some c) : LoadCurrImage Config none s = some s := by
  have hheap : Function.update s.heap c (s.heap c) = s.heap := Function.update_eq_self c s.heap
  cases s with
  | mk heap lts cur playing images hash param countdown =>
      simp only at hc hheap
      subst hc
      unfold LoadCurrImage LoadCurrImage.run
      simp only [Image.Load]
      by_cases hl : (heap c).Loaded = true
      · simp [hl, hheap]
      · simp [hl, hheap]

theorem map_LoadCurrImage_inv (Config : Settings) (decoded : Option (Int × ℚ)) (s2 s1 : State)
    (b : Bool) (h : (LoadCurrImage Config decoded s2).map (fun s3 => (s3, true)) = some (s1, b)) :
    LoadCurrImage Config decoded s2 = some s1 ∧ b = true := by
  cases hl : LoadCurrImage Config decoded s2 with
  | none => rw [hl] at h; simp at h
  | some s3 =>
      rw [hl] at h
      simp only [Option.map_some', Option.some.injEq, Prod.mk.injEq] at h
      exact ⟨by rw [h.1], h.2.symm⟩

/-- A call of `OnNext` that returns true ends with `LoadCurrImage` on the state with the new
selection. -/
theorem OnNext_via_LoadCurrImage (Config : Settings) (decoded : Option (Int × ℚ))
    (s s1 : State) (h : OnNext Config decoded s = some (s1, true)) :
    ∃ c s2, s.CurrImage = some c
      ∧ s2.CurrImage = (if (s.SlideshowPlaying && Config.SlideshowLooping) = true
          then tListNextCirc s.Images c else tListNext s.Images c)
      ∧ s2.heap = s.heap ∧ s2.Images = s.Images
      ∧ s2.ImagesLoadTimeSorted = s.ImagesLoadTimeSorted
      ∧ s2.SlideshowPlaying = s.SlideshowPlaying
      ∧ LoadCurrImage Config decoded s2 = some s1 := by
  unfold OnNext at h
  cases hc : s.CurrImage with
  | none => simp [hc] at h
  | some c =>
      simp only [hc] at h
      by_cases hstop : (!(s.SlideshowPlaying && Config.SlideshowLooping)
          && (tListNext s.Images c).isNone) = true
      · rw [if_pos hstop] at h; cases h
      · rw [if_neg hstop] at h
        have hl := (map_LoadCurrImage_inv Config decoded _ s1 true h).1
        refine ⟨c, _, rfl, ?_, ?_, ?_, ?_, ?_, hl⟩
        · rfl
        · show (ite _ _ _ : State).heap = _; split_ifs <;> rfl
        · show (ite _ _ _ : State).Images = _; split_ifs <;> rfl
        · show (ite _ _ _ : State).ImagesLoadTimeSorted = _; split_ifs <;> rfl
        · show (ite _ _ _ : State).SlideshowPlaying = _; split_ifs <;> rfl

/-- A call of `OnPrevious` that returns true ends with `LoadCurrImage` on the state with the
new selection. -/
theorem OnPrevious_via_LoadCurrImage (Config : Settings) (decoded : Option (Int × ℚ))
    (s s1 : State) (h : OnPrevious Config decoded s = some (s1, true)) :
    ∃ c s2, s.CurrImage = some c
      ∧ s2.CurrImage = (if (s.SlideshowPlaying && Config.SlideshowLooping) = true
          then tListPrevCirc s.Images c else tListPrev s.Images c)
      ∧ s2.heap = s.heap ∧ s2.Images = s.Images
      ∧ s2.ImagesLoadTimeSorted = s.ImagesLoadTimeSorted
      ∧ s2.SlideshowPlaying = s.SlideshowPlaying
      ∧ LoadCurrImage Config decoded s2 = some s1 := by
  unfold OnPrevious at h
  cases hc : s.CurrImage with
  | none => simp [hc] at h
  | some c =>
      simp only [hc] at h
      by_cases hstop : (!(s.SlideshowPlaying && Config.SlideshowLooping)
          && (tListPrev s.Images c).isNone) = true
      · rw [if_pos hstop] at h; cases h
      · rw [if_neg hstop] at h
        have hl := (map_LoadCurrImage_inv Config decoded _ s1 true h).1
        refine ⟨c, _, rfl, ?_, ?_, ?_, ?_, ?_, hl⟩
        · rfl
        · show (ite _ _ _ : State).heap = _; split_ifs <;> rfl
        · show (ite _ _ _ : State).Images = _; split_ifs <;> rfl
        · show (ite _ _ _ : State).ImagesLoadTimeSorted = _; split_ifs <;> rfl
        · show (ite _ _ _ : State).SlideshowPlaying = _; split_ifs <;> rfl

/-- C22: a decode failure is non-fatal to navigation. When OnNext (resp. OnPrevious) has a
record to move to and the Decoder fails, the call returns true with CurrImage set to that
record, and no record changes: the record stays Unloaded if it was, and every other record
keeps its load state. -/
theorem C22_decode_failure_keeps_navigating (Config : Settings) (s : State) (c : ImagePtr)
    (hcurr : s.CurrImage = some c) :
    (∀ next, (if (s.SlideshowPlaying && Config.SlideshowLooping) = true
          then tListNextCirc s.Images c else tListNext s.Images c) = some next →
        ∃ s1, OnNext Config none s = some (s1, true)
          ∧ s1.CurrImage = some next ∧ s1.heap = s.heap
          ∧ ((s.heap next).Loaded = false → (s1.heap next).Loaded = false))
    ∧ (∀ prev, (if (s.SlideshowPlaying && Config.SlideshowLooping) = true
          then tListPrevCirc s.Images c else tListPrev s.Images c) = some prev →
        ∃ s1, OnPrevious Config none s = some (s1, true)
          ∧ s1.CurrImage = some prev ∧ s1.heap = s.heap
          ∧ ((s.heap prev).Loaded = false → (s1.heap prev).Loaded = false)) := by
  constructor
  · intro next hnext
    have hgo : ¬ ((!(s.SlideshowPlaying && Config.SlideshowLooping)
        && (tListNext s.Images c).isNone) = true) := by
      by_cases hcirc : (s.SlideshowPlaying && Config.SlideshowLooping) = true
      · simp [hcirc]
      · rw [if_neg hcirc] at hnext
        simp [hnext]
    obtain ⟨s1, h1, h2, _⟩ := OnNext_moves Config none s c next hcurr hnext hgo
    obtain ⟨c2, s2, hc2, hs2c, hs2h, _, _, _, hload⟩ := OnNext_via_LoadCurrImage Config none s s1 h1
    have hcc : c2 = c := Option.some.inj (hc2.symm.trans hcurr)
    rw [hcc, hnext] at hs2c
    rw [LoadCurrImage_decode_failure Config s2 next hs2c] at hload
    have hs : s2 = s1 := Option.some.inj hload
    have hheap : s1.heap = s.heap := by rw [← hs]; exact hs2h
    exact ⟨s1, h1, h2, hheap, fun hu => by rw [hheap]; exact hu⟩
  · intro prev hprev
    have hgo : ¬ ((!(s.SlideshowPlaying && Config.SlideshowLooping)
        && (tListPrev s.Images c).isNone) = true) := by
      by_cases hcirc : (s.SlideshowPlaying && Config.SlideshowLooping) = true
      · simp [hcirc]
      · rw [if_neg hcirc] at hprev
        simp [hprev]
    obtain ⟨s1, h1, h2, _⟩ := OnPrevious_moves Config none s c prev hcurr hprev hgo
    obtain ⟨c2, s2, hc2, hs2c, hs2h, _, _, _, hload⟩ :=
      OnPrevious_via_LoadCurrImage Config none s s1 h1
    have hcc : c2 = c := Option.some.inj (hc2.symm.trans hcurr)
    rw [hcc, hprev] at hs2c
    rw [LoadCurrImage_decode_failure Config s2 prev hs2c] at hload
    have hs : s2 = s1 := Option.some.inj hload
    have hheap : s1.heap = s.heap := by rw [← hs]; exact hs2h
    exact ⟨s1, h1, h2, hheap, fun hu => by rw [hheap]; exact hu⟩

/-- C22, on the catalog X, Y, Z with X selected: OnNext moves to Y (at 2), whose decode
fails; it returns true, Y stays Unloaded and nothing else changes. -/
theorem C22_decode_failure_keeps_navigating_witness :
    ∃ s1, OnNext {} none navState = some (s1, true)
      ∧ s1.CurrImage = some 2 ∧ s1.heap = navState.heap
      ∧ ((navState.heap 2).Loaded = false → (s1.heap 2).Loaded = false) :=
  (C22_decode_failure_keeps_navigating {} navState 1 rfl).1 2 (by decide)

/-- The eviction pass of `LoadCurrImage`, when it runs: on return the budget is met or the
current image is the only Loaded record. -/
theorem LoadCurrImage_meets_budget (Config : Settings) (decoded : Option (Int × ℚ))
    (s : State) (c : ImagePtr) (hcurr : s.CurrImage = some c)
    (hunloaded : (s.heap c).Loaded = false) (hdecoded : decoded.isSome = true)
    (hslide : ¬ (s.SlideshowPlaying = true ∧ Config.SlidehowFrameDuration < 1 / 2))
    (hnodup : s.ImagesLoadTimeSorted.Nodup)
    (hzero : ∀ i ∈ s.ImagesLoadTimeSorted,
      (s.heap i).Loaded = false → (s.heap i).MemSizeBytes = 0) :
    ∃ s1, LoadCurrImage Config decoded s = some s1 ∧ BudgetMet Config s1 c := by
  obtain ⟨h1, hh1⟩ : ∃ h1, h1 = heapAfterLoad decoded s.heap c := ⟨_, rfl⟩
  obtain ⟨sorted, hs⟩ : ∃ sorted, sorted
      = tListSort (Compare_ImageLoadTimeAscending h1) s.ImagesLoadTimeSorted := ⟨_, rfl⟩
  obtain ⟨allowed, ha⟩ : ∃ allowed, allowed = Config.MaxImageMemMB * 1024 * 1024 := ⟨_, rfl⟩
  have hperm : sorted.Perm s.ImagesLoadTimeSorted := hs ▸ tListSort_perm _ _
  have hz1 : ∀ i ∈ sorted, (h1 i).Loaded = false → (h1 i).MemSizeBytes = 0 := by
    intro i hi
    rw [hh1]
    exact heapAfterLoad_unloaded_zero decoded s.heap c i (hzero i (hperm.subset hi))
  unfold BudgetMet
  rw [← ha]
  rcases LoadCurrImage_run_cases Config decoded s c hcurr h1 hh1 sorted hs allowed ha with
    ⟨hno, _⟩ | ⟨_, hle, hrun⟩ | ⟨_, _, hrun⟩
  · exact absurd ⟨hunloaded, hdecoded, hslide⟩ hno
  · refine ⟨_, congrArg (Option.map Prod.fst) hrun, Or.inl ?_⟩
    show LoadedFootprint h1 sorted ≤ allowed
    rw [LoadedFootprint_eq_sum _ _ hz1, ← usedMem_eq_sum]
    exact hle
  · refine ⟨_, congrArg (Option.map Prod.fst) hrun, ?_⟩
    rcases evict_exhaust c allowed sorted h1 (LoadCurrImage.usedMem h1 sorted) with hlt | hall
    · left
      have htrack := evict_usedMem c allowed sorted (hperm.nodup_iff.mpr hnodup) sorted h1
        (LoadCurrImage.usedMem h1 sorted) (fun x hx => hx)
      have hu0 := usedMem_eq_sum h1 sorted
      show LoadedFootprint (LoadCurrImage.evict c allowed sorted h1
        (LoadCurrImage.usedMem h1 sorted)).heap sorted ≤ allowed
      rw [LoadedFootprint_eq_sum _ _
        (fun i hi => evict_unloaded_zero c _ _ _ _ i (hz1 i hi))]
      omega
    · right
      exact hall

/-- While a slideshow plays with a frame duration below half a second, `LoadCurrImage` only
loads. -/
theorem LoadCurrImage_fast_slideshow (Config : Settings) (decoded : Option (Int × ℚ))
    (s : State) (c : ImagePtr) (hcurr : s.CurrImage = some c)
    (hplaying : s.SlideshowPlaying = true) (hsmall : Config.SlidehowFrameDuration < 1 / 2) :
    LoadCurrImage Config decoded s = some { s with heap := heapAfterLoad decoded s.heap c } := by
  rcases LoadCurrImage_run_cases Config decoded s c hcurr _ rfl _ rfl _ rfl with
    ⟨_, hrun⟩ | ⟨hpass, _, _⟩ | ⟨hpass, _, _⟩
  · exact congrArg (Option.map Prod.fst) hrun
  · exact absurd ⟨hplaying, hsmall⟩ hpass.2.2
  · exact absurd ⟨hplaying, hsmall⟩ hpass.2.2

/-- A load made by `LoadCurrImage` on a state that has the objects, the load-time list and the
slideshow flag of `s` is followed by the eviction check. -/
theorem LoadCurrImage_checked (Config : Settings) (decoded : Option (Int × ℚ))
    (s s2 s1 : State) (c : ImagePtr)
    (hload : LoadCurrImage Config decoded s2 = some s1)
    (hheap : s2.heap = s.heap) (hlts : s2.ImagesLoadTimeSorted = s.ImagesLoadTimeSorted)
    (hplay : s2.SlideshowPlaying = s.SlideshowPlaying)
    (hnew : NewlyLoaded s s1 c)
    (hslide : ¬ (s.SlideshowPlaying = true ∧ Config.SlidehowFrameDuration < 1 / 2))
    (hnodup : s.ImagesLoadTimeSorted.Nodup)
    (hzero : ∀ i ∈ s.ImagesLoadTimeSorted,
      (s.heap i).Loaded = false → (s.heap i).MemSizeBytes = 0) :
    BudgetMet Config s1 c := by
  obtain ⟨hc1, hu, hl⟩ := hnew
  cases hc2 : s2.CurrImage with
  | none => rw [LoadCurrImage_null Config decoded s2 hc2] at hload; cases hload
  | some c2 =>
      obtain ⟨s3, h3, hc3, _⟩ := LoadCurrImage_frame Config decoded s2 c2 hc2
      have hs3 : s3 = s1 := Option.some.inj (h3.symm.trans hload)
      have hcc : c2 = c := by
        rw [hs3, hc1] at hc3
        exact (Option.some.inj hc3).symm
      subst hcc
      have hdec : decoded.isSome = true := by
        cases decoded with
        | some d => rfl
        | none =>
            rw [LoadCurrImage_decode_failure Config s2 c2 hc2] at hload
            have hs : s2 = s1 := Option.some.inj hload
            rw [← hs, hheap, hu] at hl
            cases hl
      obtain ⟨s4, h4, hb⟩ := LoadCurrImage_meets_budget Config decoded s2 c2 hc2
        (by rw [hheap]; exact hu) hdec (by rw [hplay]; exact hslide)
        (by rw [hlts]; exact hnodup) (by rw [hheap, hlts]; exact hzero)
      have hs4 : s4 = s1 := Option.some.inj (h4.symm.trans hload)
      rw [← hs4]
      exact hb

theorem OnSkipBegin_via_LoadCurrImage (Config : Settings) (decoded : Option (Int × ℚ))
    (s s1 : State) (h : OnSkipBegin Config decoded s = some (s1, true)) :
    LoadCurrImage Config decoded { s with CurrImage := tListFirst s.Images } = some s1 := by
  unfold OnSkipBegin at h
  split_ifs at h
  · cases h
  · exact (map_LoadCurrImage_inv Config decoded _ s1 true h).1

theorem OnSkipEnd_via_LoadCurrImage (Config : Settings) (decoded : Option (Int × ℚ))
    (s s1 : State) (h : OnSkipEnd Config decoded s = some (s1, true)) :
    LoadCurrImage Config decoded { s with CurrImage := tListLast s.Images } = some s1 := by
  unfold OnSkipEnd at h
  split_ifs at h
  · cases h
  · exact (map_LoadCurrImage_inv Config decoded _ s1 true h).1

/-- A call of `SetCurrentImage` either ends with `LoadCurrImage` on the state with the new
selection, or leaves the objects as they are. -/
theorem SetCurrentImage_via_LoadCurrImage (Config : Settings) (decoded : Option (Int × ℚ))
    (currFilename : tString) (s s1 : State)
    (h : SetCurrentImage Config decoded currFilename s = some s1) :
    (∃ s2, s2.heap = s.heap ∧ s2.ImagesLoadTimeSorted = s.ImagesLoadTimeSorted
        ∧ s2.SlideshowPlaying = s.SlideshowPlaying
        ∧ LoadCurrImage Config decoded s2 = some s1)
    ∨ s1.heap = s.heap := by
  unfold SetCurrentImage at h
  cases hfind : SetCurrentImage.loop s.heap currFilename s.Images with
  | some si =>
      simp only [hfind, Option.isNone_some, Bool.false_eq_true, if_false, Option.isSome_some,
        if_true] at h
      exact Or.inl ⟨{ s with CurrImage := some si }, rfl, rfl, rfl, h⟩
  | none =>
      simp only [hfind] at h
      cases hcur : s.CurrImage with
      | some c =>
          simp only [hcur, Option.isNone_some, Bool.false_eq_true, if_false, Option.isSome_some,
            if_true] at h
          exact Or.inl ⟨s, rfl, rfl, rfl, h⟩
      | none =>
          simp only [hcur, Option.isNone_none, if_true] at h
          cases hfirst : tListFirst s.Images with
          | some f =>
              simp only [hfirst, Option.isSome_some, if_true] at h
              exact Or.inl ⟨{ s with CurrImage := some f }, rfl, rfl, rfl, h⟩
          | none =>
              simp only [hfirst, Option.isSome_none, Bool.false_eq_true, if_false,
                Option.some.injEq] at h
              right
              rw [← h]

/-- C23 (as stated, refuted): the refresh of the current file takes Y from Unloaded to Loaded
and runs no eviction check: with a budget of 100MB the loaded total is 120MB and X and Z
are still loaded. And OnNext during a slideshow with a frame duration of a quarter of a
second loads Y and runs no eviction check either. -/
theorem C23_counterexample :
    (NewlyLoaded scenarioState (KeyCallback.Refresh scenarioDecoded scenarioState) 2
      ∧ ¬ BudgetMet { MaxImageMemMB := 100 }
          (KeyCallback.Refresh scenarioDecoded scenarioState) 2)
    ∧ (navSlideshow.SlideshowPlaying = true ∧ fastSlideshowConfig.SlidehowFrameDuration < 1 / 2
        ∧ ∃ s1, OnNext fastSlideshowConfig scenarioDecoded navSlideshow = some (s1, true)
          ∧ NewlyLoaded navSlideshow s1 2
          ∧ ¬ BudgetMet fastSlideshowConfig s1 2) := by
  constructor
  · constructor
    · unfold NewlyLoaded; decide
    · unfold BudgetMet; decide
  · have hsmall : fastSlideshowConfig.SlidehowFrameDuration < 1 / 2 := by
      show (1 / 4 : ℚ) < 1 / 2
      norm_num
    refine ⟨rfl, hsmall, ?_⟩
    obtain ⟨s1, h1, h2, _⟩ := OnNext_moves fastSlideshowConfig
      scenarioDecoded navSlideshow 1 2 rfl (by decide) (by decide)
    obtain ⟨c2, s2, hc2, hs2c, hs2h, _, hs2l, hs2p, hload⟩ := OnNext_via_LoadCurrImage _ _ _ s1 h1
    have hcc : c2 = 1 := Option.some.inj (hc2.symm.trans rfl)
    subst hcc
    have hcur : s2.CurrImage = some 2 := by rw [hs2c]; decide
    rw [LoadCurrImage_fast_slideshow _ scenarioDecoded s2 2 hcur (by rw [hs2p]; rfl)
      hsmall] at hload
    have hs : s1 = { s2 with heap := heapAfterLoad scenarioDecoded s2.heap 2 } :=
      (Option.some.inj hload).symm
    have hheap : s1.heap = heapAfterLoad scenarioDecoded scenarioHeap 2 := by
      rw [hs]; show heapAfterLoad scenarioDecoded s2.heap 2 = _; rw [hs2h]; rfl
    have hlts : s1.ImagesLoadTimeSorted = [3, 2, 1] := by
      rw [hs]; show s2.ImagesLoadTimeSorted = _; rw [hs2l]; rfl
    refine ⟨s1, h1, ⟨h2, by decide, by rw [hheap]; decide⟩, ?_⟩
    unfold BudgetMet
    rw [hheap, hlts]
    decide

/-- C23 (amended): the eviction check follows every successful new load made through
LoadCurrImage, unless a slideshow with a frame duration below half a second is playing.
Whenever SetCurrentImage, OnNext, OnPrevious, OnSkipBegin or OnSkipEnd takes the record it
selects from Unloaded to Loaded, then (the load-time list holding every record once and
Unloaded records having footprint 0) on return the Loaded footprints sum to at most
MaxImageMemMB*1024*1024 or the selected record is the only Loaded one. -/
theorem C23_eviction_check_after_LoadCurrImage_loads (Config : Settings)
    (decoded : Option (Int × ℚ)) (currFilename : tString) (s : State)
    (hslide : ¬ (s.SlideshowPlaying = true ∧ Config.SlidehowFrameDuration < 1 / 2))
    (hnodup : s.ImagesLoadTimeSorted.Nodup)
    (hzero : ∀ i ∈ s.ImagesLoadTimeSorted,
      (s.heap i).Loaded = false → (s.heap i).MemSizeBytes = 0) :
    (∀ s1 c, SetCurrentImage Config decoded currFilename s = some s1 →
        NewlyLoaded s s1 c → BudgetMet Config s1 c)
    ∧ (∀ s1 c, OnNext Config decoded s = some (s1, true) →
        NewlyLoaded s s1 c → BudgetMet Config s1 c)
    ∧ (∀ s1 c, OnPrevious Config decoded s = some (s1, true) →
        NewlyLoaded s s1 c → BudgetMet Config s1 c)
    ∧ (∀ s1 c, OnSkipBegin Config decoded s = some (s1, true) →
        NewlyLoaded s s1 c → BudgetMet Config s1 c)
    ∧ (∀ s1 c, OnSkipEnd Config decoded s = some (s1, true) →
        NewlyLoaded s s1 c → BudgetMet Config s1 c) := by
  refine ⟨?_, ?_, ?_, ?_, ?_⟩
  · intro s1 c h hnew
    rcases SetCurrentImage_via_LoadCurrImage Config decoded currFilename s s1 h with
      ⟨s2, h1, h2, h3, h4⟩ | hsame
    · exact LoadCurrImage_checked Config decoded s s2 s1 c h4 h1 h2 h3 hnew hslide hnodup hzero
    · obtain ⟨_, hu, hl⟩ := hnew
      rw [hsame, hu] at hl
      cases hl
  · intro s1 c h hnew
    obtain ⟨_, s2, _, _, h1, _, h2, h3, h4⟩ := OnNext_via_LoadCurrImage Config decoded s s1 h
    exact LoadCurrImage_checked Config decoded s s2 s1 c h4 h1 h2 h3 hnew hslide hnodup hzero
  · intro s1 c h hnew
    obtain ⟨_, s2, _, _, h1, _, h2, h3, h4⟩ := OnPrevious_via_LoadCurrImage Config decoded s s1 h
    exact LoadCurrImage_checked Config decoded s s2 s1 c h4 h1 h2 h3 hnew hslide hnodup hzero
  · intro s1 c h hnew
    exact LoadCurrImage_checked Config decoded s _ s1 c
      (OnSkipBegin_via_LoadCurrImage Config decoded s s1 h) rfl rfl rfl hnew hslide hnodup hzero
  · intro s1 c h hnew
    exact LoadCurrImage_checked Config decoded s _ s1 c
      (OnSkipEnd_via_LoadCurrImage Config decoded s s1 h) rfl rfl rfl hnew hslide hnodup hzero

/-- C23 (amended), on the catalog X, Y, Z with a budget of 100MB: OnNext from X loads Y and
evicts X, leaving 80MB loaded. -/
theorem C23_eviction_check_after_LoadCurrImage_loads_witness :
    ∃ s1, OnNext { MaxImageMemMB := 100 } scenarioDecoded navState = some (s1, true)
      ∧ NewlyLoaded navState s1 2 ∧ BudgetMet { MaxImageMemMB := 100 } s1 2 := by
  obtain ⟨s1, h1, h2, _⟩ := OnNext_moves { MaxImageMemMB := 100 } scenarioDecoded navState 1 2
    rfl (by decide) (by decide)
  have hloaded : (s1.heap 2).Loaded = true := by
    have h := congrArg (Option.map (fun r : State × Bool => (r.1.heap 2).Loaded)) h1
    have hv : Option.map (fun r : State × Bool => (r.1.heap 2).Loaded)
        (OnNext { MaxImageMemMB := 100 } scenarioDecoded navState) = some true := by decide
    rw [hv] at h
    exact (Option.some.inj h).symm
  have hnew : NewlyLoaded navState s1 2 := ⟨h2, by decide, hloaded⟩
  exact ⟨s1, h1, hnew,
    (C23_eviction_check_after_LoadCurrImage_loads { MaxImageMemMB := 100 } scenarioDecoded []
      navState (fun h => absurd h.1 (by decide)) (by decide) (by decide)).2.1 s1 2 h1 hnew⟩

/-- C24: a failed file deletion aborts only that request. With a current image, if the
deletion fails (and, when the recycle bin was tried, the retry without it fails too),
DeleteImageFile returns false and leaves the whole state, so Images, ImagesLoadTimeSorted,
CurrImage, ImagesHash and ImageFileParam, unchanged. -/
theorem C24_failed_deletion_changes_nothing (Config : Settings)
    (tHashString256 : tString → Nat → Nat) (attributes : tString → FileAttributes)
    (decoded : Option (Int × ℚ)) (tDeleteFile : tString → Bool → Bool)
    (foundFiles : List tString) (imgFile : tString) (tryUseRecycleBin : Bool) (s : State)
    (c : ImagePtr) (hcurr : s.CurrImage = some c)
    (hfail : tDeleteFile imgFile tryUseRecycleBin = false)
    (hretry : tryUseRecycleBin = true → tDeleteFile imgFile false = false) :
    DeleteImageFile Config tHashString256 attributes decoded tDeleteFile foundFiles imgFile
      tryUseRecycleBin s = some (s, false) := by
  unfold DeleteImageFile
  simp only [hcurr, hfail]
  cases tryUseRecycleBin with
  | true => simp [hretry rfl]
  | false => simp [hfail]

/-- C24, on the catalog X, Y, Z with X selected and a file that cannot be deleted. -/
theorem C24_failed_deletion_changes_nothing_witness :
    DeleteImageFile {} exampleHash (fun _ => {}) none (fun _ _ => false)
      ["Y.png".toList, "Z.png".toList] "X.png".toList true navState = some (navState, false) :=
  C24_failed_deletion_changes_nothing {} exampleHash (fun _ => {}) none (fun _ _ => false)
    ["Y.png".toList, "Z.png".toList] "X.png".toList true navState 1 rfl rfl (fun _ => rfl)

/-- C26: LoadCurrImage unloads a record only if the current image was Unloaded on entry, its
Load succeeded and the loaded total then exceeded MaxImageMemMB*1024*1024 (Unloaded records
having footprint 0); when the image was already loaded, when Load fails, or when the total
is within the budget, it unloads nothing and every record other than the current one is
unchanged. -/
theorem C26_unloads_only_after_new_load_over_budget (Config : Settings)
    (decoded : Option (Int × ℚ)) (s : State) (c : ImagePtr) (hcurr : s.CurrImage = some c)
    (hzero : ∀ i ∈ s.ImagesLoadTimeSorted,
      (s.heap i).Loaded = false → (s.heap i).MemSizeBytes = 0) :
    ∃ s1 unloads, LoadCurrImage.run Config decoded s = some (s1, unloads)
      ∧ ((unloads ≠ [] ∨ ∃ i, (s.heap i).Loaded = true ∧ (s1.heap i).Loaded = false) →
          (s.heap c).Loaded = false ∧ decoded.isSome = true
            ∧ Config.MaxImageMemMB * 1024 * 1024
                < LoadedFootprint (heapAfterLoad decoded s.heap c) s.ImagesLoadTimeSorted)
      ∧ (((s.heap c).Loaded = true ∨ decoded = none
            ∨ LoadedFootprint (heapAfterLoad decoded s.heap c) s.ImagesLoadTimeSorted
                ≤ Config.MaxImageMemMB * 1024 * 1024) →
          unloads = [] ∧ ∀ i, i ≠ c → s1.heap i = s.heap i) := by
  obtain ⟨h1, hh1⟩ : ∃ h1, h1 = heapAfterLoad decoded s.heap c := ⟨_, rfl⟩
  obtain ⟨sorted, hs⟩ : ∃ sorted, sorted
      = tListSort (Compare_ImageLoadTimeAscending h1) s.ImagesLoadTimeSorted := ⟨_, rfl⟩
  obtain ⟨allowed, ha⟩ : ∃ allowed, allowed = Config.MaxImageMemMB * 1024 * 1024 := ⟨_, rfl⟩
  have hperm : sorted.Perm s.ImagesLoadTimeSorted := hs ▸ tListSort_perm _ _
  have hz1 : ∀ i ∈ sorted, (h1 i).Loaded = false → (h1 i).MemSizeBytes = 0 := by
    intro i hi
    rw [hh1]
    exact heapAfterLoad_unloaded_zero decoded s.heap c i (hzero i (hperm.subset hi))
  have hfoot : LoadedFootprint h1 s.ImagesLoadTimeSorted = LoadCurrImage.usedMem h1 sorted := by
    rw [← LoadedFootprint_perm h1 hperm, LoadedFootprint_eq_sum h1 sorted hz1,
      usedMem_eq_sum h1 sorted]
  have hkeep : ∀ i, (s.heap i).Loaded = true → (h1 i).Loaded = true := by
    intro i hi
    rw [hh1]
    exact heapAfterLoad_loaded_mono decoded s.heap c i hi
  have hother : ∀ i, i ≠ c → h1 i = s.heap i := by
    intro i hi
    rw [hh1]
    exact heapAfterLoad_other decoded s.heap c i hi
  rw [← hh1, ← ha]
  rcases LoadCurrImage_run_cases Config decoded s c hcurr h1 hh1 sorted hs allowed ha with
    ⟨_, hrun⟩ | ⟨_, _, hrun⟩ | ⟨hpass, hgt, hrun⟩
  · refine ⟨_, _, hrun, ?_, fun _ => ⟨rfl, hother⟩⟩
    rintro (hne | ⟨i, hi, hu⟩)
    · exact absurd rfl hne
    · have := hkeep i hi
      rw [show ({ s with heap := h1 } : State).heap i = h1 i from rfl, this] at hu
      cases hu
  · refine ⟨_, _, hrun, ?_, fun _ => ⟨rfl, hother⟩⟩
    rintro (hne | ⟨i, hi, hu⟩)
    · exact absurd rfl hne
    · have := hkeep i hi
      rw [show ({ s with heap := h1, ImagesLoadTimeSorted := sorted } : State).heap i = h1 i
        from rfl, this] at hu
      cases hu
  · refine ⟨_, _, hrun, fun _ => ⟨hpass.1, hpass.2.1, by rw [hfoot]; exact hgt⟩, ?_⟩
    rintro (hl | hd | hle)
    · rw [hpass.1] at hl; cases hl
    · rw [hd] at hpass; exact absurd hpass.2.1 (by simp)
    · rw [hfoot] at hle; omega

/-- C26, on the scenario with a budget of 200MB: Y is loaded, the total of 120MB is within
the budget, nothing is unloaded and X and Z are unchanged. -/
theorem C26_unloads_only_after_new_load_over_budget_witness :
    (∃ s1 unloads,
      LoadCurrImage.run { MaxImageMemMB := 200 } scenarioDecoded scenarioState = some (s1, unloads)
      ∧ ((unloads ≠ [] ∨ ∃ i, (scenarioState.heap i).Loaded = true ∧ (s1.heap i).Loaded = false) →
          (scenarioState.heap 2).Loaded = false ∧ scenarioDecoded.isSome = true
            ∧ ({ MaxImageMemMB := 200 } : Settings).MaxImageMemMB * 1024 * 1024
                < LoadedFootprint (heapAfterLoad scenarioDecoded scenarioState.heap 2)
                    scenarioState.ImagesLoadTimeSorted)
      ∧ (((scenarioState.heap 2).Loaded = true ∨ scenarioDecoded = none
            ∨ LoadedFootprint (heapAfterLoad scenarioDecoded scenarioState.heap 2)
                  scenarioState.ImagesLoadTimeSorted
                ≤ ({ MaxImageMemMB := 200 } : Settings).MaxImageMemMB * 1024 * 1024) →
          unloads = [] ∧ ∀ i, i ≠ 2 → s1.heap i = scenarioState.heap i))
    ∧ LoadedFootprint (heapAfterLoad scenarioDecoded scenarioState.heap 2)
          scenarioState.ImagesLoadTimeSorted
        ≤ ({ MaxImageMemMB := 200 } : Settings).MaxImageMemMB * 1024 * 1024 :=
  ⟨C26_unloads_only_after_new_load_over_budget { MaxImageMemMB := 200 } scenarioDecoded
    scenarioState 2 rfl (by decide), by decide⟩

theorem SetCurrentImage_loop_spec (heap : Heap) (currFilename : tString) :
    ∀ (l : List ImagePtr),
      (∀ si, SetCurrentImage.loop heap currFilename l = some si →
        ∃ pre post, l = pre ++ si :: post
          ∧ tStricmp (tGetFileName (heap si).Filename) (tGetFileName currFilename) = 0
          ∧ ∀ x ∈ pre,
              tStricmp (tGetFileName (heap x).Filename) (tGetFileName currFilename) ≠ 0)
      ∧ (SetCurrentImage.loop heap currFilename l = none ↔
          ∀ x ∈ l, tStricmp (tGetFileName (heap x).Filename) (tGetFileName currFilename) ≠ 0)
  | [] => by simp [SetCurrentImage.loop]
  | a :: rest => by
      obtain ⟨ih1, ih2⟩ := SetCurrentImage_loop_spec heap currFilename rest
      by_cases ha : tStricmp (tGetFileName (heap a).Filename) (tGetFileName currFilename) = 0
      · have hloop : SetCurrentImage.loop heap currFilename (a :: rest) = some a := by
          simp [SetCurrentImage.loop, ha]
        constructor
        · intro si hsi
          rw [hloop] at hsi
          cases hsi
          exact ⟨[], rest, rfl, ha, by simp⟩
        · rw [hloop]
          simp [ha]
      · have hloop : SetCurrentImage.loop heap currFilename (a :: rest)
            = SetCurrentImage.loop heap currFilename rest := by
          simp [SetCurrentImage.loop, ha]
        constructor
        · intro si hsi
          rw [hloop] at hsi
          obtain ⟨pre, post, hl, hm, hpre⟩ := ih1 si hsi
          refine ⟨a :: pre, post, by simp [hl], hm, ?_⟩
          intro x hx
          rcases List.mem_cons.mp hx with e | e
          · rw [e]; exact ha
          · exact hpre x e
        · rw [hloop, ih2]
          simp [ha]

/-- The selection `SetCurrentImage` makes when `CurrImage` is null: the record its loop
finds, else the first record. -/
theorem SetCurrentImage_selects (Config : Settings) (decoded : Option (Int × ℚ))
    (currFilename : tString) (s : State) (hnull : s.CurrImage = none) :
    ∃ s1, SetCurrentImage Config decoded currFilename s = some s1
      ∧ s1.Images = s.Images
      ∧ s1.CurrImage = (match SetCurrentImage.loop s.heap currFilename s.Images with
          | some si => some si
          | none => tListFirst s.Images) := by
  unfold SetCurrentImage
  cases hfind : SetCurrentImage.loop s.heap currFilename s.Images with
  | some si =>
      obtain ⟨s1, h1, h2, h3, _⟩ := LoadCurrImage_frame Config decoded
        { s with CurrImage := some si } si rfl
      exact ⟨s1, by simpa using h1, h3, h2⟩
  | none =>
      cases hfirst : tListFirst s.Images with
      | some f =>
          obtain ⟨s1, h1, h2, h3, _⟩ := LoadCurrImage_frame Config decoded
            { s with CurrImage := some f } f rfl
          exact ⟨s1, by simpa [hnull, hfirst] using h1, h3, h2⟩
      | none =>
          exact ⟨{ s with CurrImage := none }, by simp [hnull, hfirst], rfl, rfl⟩

/-- C27: called with CurrImage null, SetCurrentImage(name) returns and selects the first
record in primary order whose final path segment equals the final path segment of `name`
ignoring case; if no record matches it selects the first record of the catalog; and
CurrImage stays null exactly when the catalog is empty. -/
theorem C27_SetCurrentImage_selects_by_file_name (Config : Settings)
    (decoded : Option (Int × ℚ)) (currFilename : tString) (s : State)
    (hnull : s.CurrImage = none) :
    ∃ s1, SetCurrentImage Config decoded currFilename s = some s1
      ∧ (∀ pre si post, s.Images = pre ++ si :: post →
          tStricmp (tGetFileName (s.heap si).Filename) (tGetFileName currFilename) = 0 →
          (∀ x ∈ pre,
            tStricmp (tGetFileName (s.heap x).Filename) (tGetFileName currFilename) ≠ 0) →
          s1.CurrImage = some si)
      ∧ ((∀ x ∈ s.Images,
            tStricmp (tGetFileName (s.heap x).Filename) (tGetFileName currFilename) ≠ 0) →
          s1.CurrImage = tListFirst s.Images)
      ∧ (s1.CurrImage = none ↔ s.Images = []) := by
  obtain ⟨s1, h1, _, hsel⟩ := SetCurrentImage_selects Config decoded currFilename s hnull
  obtain ⟨hsome, hnone⟩ := SetCurrentImage_loop_spec s.heap currFilename s.Images
  refine ⟨s1, h1, ?_, ?_, ?_⟩
  · intro pre si post himg hmatch hpre
    cases hfind : SetCurrentImage.loop s.heap currFilename s.Images with
    | none =>
        have := hnone.mp hfind si (by rw [himg]; simp)
        exact absurd hmatch this
    | some sj =>
        rw [hfind] at hsel
        obtain ⟨pre2, post2, himg2, hmatch2, hpre2⟩ := hsome sj hfind
        have hsj : sj = si := by
          rw [himg] at himg2
          rcases List.append_eq_append_iff.mp himg2 with ⟨a, ha1, ha2⟩ | ⟨a, ha1, ha2⟩
          · cases a with
            | nil => simp at ha2; exact ha2.1.symm
            | cons x a =>
                simp at ha2
                exact absurd hmatch (hpre2 si (by rw [ha1, ha2.1]; simp))
          · cases a with
            | nil => simp at ha2; exact ha2.1
            | cons x a =>
                simp at ha2
                exact absurd hmatch2 (hpre sj (by rw [ha1, ha2.1]; simp))
        rw [hsel, hsj]
  · intro hall
    rw [hnone.mpr hall] at hsel
    exact hsel
  · rw [hsel]
    cases hfind : SetCurrentImage.loop s.heap currFilename s.Images with
    | some sj =>
        obtain ⟨pre2, post2, himg2, _⟩ := hsome sj hfind
        simp [himg2]
    | none =>
        simp only [tListFirst]
        cases s.Images <;> simp

/-- C27, on the scenario catalog b.png, a.png, c.jpg with nothing selected: the relative
spelling A.PNG selects a.png (at 2). -/
theorem C27_SetCurrentImage_selects_by_file_name_witness :
    ∃ s1, SetCurrentImage {} none "A.PNG".toList catalogState = some s1
      ∧ s1.CurrImage = some 2 := by
  obtain ⟨s1, h1, h2, _⟩ := C27_SetCurrentImage_selects_by_file_name {} none "A.PNG".toList
    catalogState rfl
  exact ⟨s1, h1, h2 [1] 2 [3] rfl (by decide) (by decide)⟩

/-! ## RemoveOldCacheFiles: the assertion and a second call -/

/-- C28: for every MaxCacheFiles that is an int from INT_MIN + 100 on and every cache listing
with numFiles > MaxCacheFiles, the target count the code computes is
max(MaxCacheFiles - 100, 0), numToRemove = numFiles - max(MaxCacheFiles - 100, 0) satisfies
0 <= numToRemove <= numFiles, and RemoveOldCacheFiles returns: the assertion holds, the head
is never removed from an empty list, and tDeleteFile is called exactly numToRemove times. -/
theorem C28_numToRemove_within_bounds (Config : Settings) (CreationTime : tString → Nat)
    (tDeleteFile : tString → Bool) (cacheDir : List tString)
    (hlo : -2 ^ 31 + 100 ≤ Config.MaxCacheFiles) (hhi : Config.MaxCacheFiles < 2 ^ 31)
    (hmore : Config.MaxCacheFiles < (cacheDir.length : Int)) :
    tClampMin (wrapInt32 (Config.MaxCacheFiles - 100)) 0 = max (Config.MaxCacheFiles - 100) 0
    ∧ 0 ≤ (cacheDir.length : Int) - max (Config.MaxCacheFiles - 100) 0
    ∧ (cacheDir.length : Int) - max (Config.MaxCacheFiles - 100) 0 ≤ (cacheDir.length : Int)
    ∧ ∃ r, RemoveOldCacheFiles Config CreationTime tDeleteFile cacheDir = some r
        ∧ (r.attempted.length : Int)
            = (cacheDir.length : Int) - max (Config.MaxCacheFiles - 100) 0
        ∧ r.attempted.length + r.cacheFiles.length = cacheDir.length := by
  have hwrap : wrapInt32 (Config.MaxCacheFiles - 100) = Config.MaxCacheFiles - 100 :=
    wrapInt32_of_range _ (by omega) (by omega)
  have hperm := tListSort_perm (Compare_FileCreationTimeAscending CreationTime) cacheDir
  have hlen := hperm.length_eq
  have hb1 : 0 ≤ (cacheDir.length : Int) - max (Config.MaxCacheFiles - 100) 0 := by
    rcases max_cases (Config.MaxCacheFiles - 100) 0 with ⟨h, _⟩ | ⟨h, _⟩ <;> omega
  have hb2 : (cacheDir.length : Int) - max (Config.MaxCacheFiles - 100) 0
      ≤ (cacheDir.length : Int) := by
    rcases max_cases (Config.MaxCacheFiles - 100) 0 with ⟨h, _⟩ | ⟨h, _⟩ <;> omega
  obtain ⟨r, hr, hatt, hkeep, _⟩ := RemoveOldCacheFiles_prunes Config CreationTime tDeleteFile
    cacheDir hlo hhi hmore
  refine ⟨by rw [hwrap, tClampMin_eq_max], hb1, hb2, r, hr, ?_, ?_⟩
  · rw [hatt, List.length_take, hlen]
    omega
  · rw [hatt, hkeep, List.length_take, List.length_drop, hlen]
    omega

/-- C28, on a cache of 650 files with MaxCacheFiles = 500: 250 deletions are attempted. -/
theorem C28_numToRemove_within_bounds_witness :
    ∃ r, RemoveOldCacheFiles { MaxCacheFiles := 500 } (fun f => f.length) (fun _ => false)
          ((List.range 650).map (fun n => List.replicate (n + 1) 'c')) = some r
      ∧ (r.attempted.length : Int) = 250
      ∧ r.attempted.length + r.cacheFiles.length = 650 := by
  simpa using (C28_numToRemove_within_bounds { MaxCacheFiles := 500 } (fun f => f.length)
    (fun _ => false) ((List.range 650).map (fun n => List.replicate (n + 1) 'c'))
    (by norm_num) (by norm_num) (by simp)).2.2.2

/-- C29: RemoveOldCacheFiles is idempotent when deletions succeed. After a call in which
every deletion succeeds (MaxCacheFiles being an int from which 100 can be subtracted), a
second call on the resulting cache directory with the same MaxCacheFiles, whatever the
creation times and the deletion outcomes then are, returns 0, calls tDeleteFile on no file
and leaves the directory as it is. -/
theorem C29_second_call_deletes_nothing (Config : Settings) (CreationTime : tString → Nat)
    (tDeleteFile : tString → Bool) (cacheDir : List tString)
    (hlo : -2 ^ 31 + 100 ≤ Config.MaxCacheFiles) (hhi : Config.MaxCacheFiles < 2 ^ 31)
    (hdel : ∀ f ∈ cacheDir, tDeleteFile f = true) :
    ∃ r1, RemoveOldCacheFiles Config CreationTime tDeleteFile cacheDir = some r1
      ∧ ∀ (CreationTime2 : tString → Nat) (tDeleteFile2 : tString → Bool),
          ∃ r2, RemoveOldCacheFiles Config CreationTime2 tDeleteFile2 r1.cacheDir = some r2
            ∧ r2.deletedCount = 0 ∧ r2.attempted = [] ∧ r2.cacheDir = r1.cacheDir := by
  by_cases hfew : (cacheDir.length : Int) ≤ Config.MaxCacheFiles
  · refine ⟨_, RemoveOldCacheFiles_within_limit Config CreationTime tDeleteFile cacheDir hfew,
      ?_⟩
    intro ct2 del2
    exact ⟨_, RemoveOldCacheFiles_within_limit Config ct2 del2 cacheDir hfew, rfl, rfl, rfl⟩
  · obtain ⟨r1, hr1, _, hkeep, hall⟩ := RemoveOldCacheFiles_prunes Config CreationTime
      tDeleteFile cacheDir hlo hhi (not_le.mp hfew)
    have hperm := tListSort_perm (Compare_FileCreationTimeAscending CreationTime) cacheDir
    obtain ⟨_, hdir⟩ := hall hdel
    have hlen : (r1.cacheDir.length : Int) = max (Config.MaxCacheFiles - 100) 0 := by
      rw [hdir.length_eq, hkeep, List.length_drop, hperm.length_eq]
      rcases max_cases (Config.MaxCacheFiles - 100) 0 with ⟨h, _⟩ | ⟨h, _⟩ <;> omega
    refine ⟨r1, hr1, ?_⟩
    intro ct2 del2
    by_cases hfew2 : (r1.cacheDir.length : Int) ≤ Config.MaxCacheFiles
    · exact ⟨_, RemoveOldCacheFiles_within_limit Config ct2 del2 r1.cacheDir hfew2,
        rfl, rfl, rfl⟩
    · have hempty : r1.cacheDir = [] := by
        apply List.eq_nil_of_length_eq_zero
        rcases max_cases (Config.MaxCacheFiles - 100) 0 with ⟨h, _⟩ | ⟨h, _⟩ <;> omega
      obtain ⟨r2, hr2, hatt2, hkeep2, hall2⟩ := RemoveOldCacheFiles_prunes Config ct2 del2
        r1.cacheDir hlo hhi (not_le.mp hfew2)
      have hsorted : tListSort (Compare_FileCreationTimeAscending ct2) r1.cacheDir = [] := by
        rw [hempty]; rfl
      rw [hsorted] at hatt2 hkeep2
      obtain ⟨hcount, hdir2⟩ := hall2 (by rw [hempty]; simp)
      refine ⟨r2, hr2, ?_, by simpa using hatt2, ?_⟩
      · rw [hcount]
        rcases max_cases (Config.MaxCacheFiles - 100) 0 with ⟨h, _⟩ | ⟨h, _⟩ <;> omega
      · rw [hkeep2] at hdir2
        rw [hempty]
        simpa using hdir2

/-- C29, on a cache of 104 files with MaxCacheFiles = 102. -/
theorem C29_second_call_deletes_nothing_witness :
    ∃ r1, RemoveOldCacheFiles { MaxCacheFiles := 102 } (fun f => f.length) (fun _ => true)
          ((List.range 104).map (fun n => List.replicate (n + 1) 'c')) = some r1
      ∧ ∀ (CreationTime2 : tString → Nat) (tDeleteFile2 : tString → Bool),
          ∃ r2, RemoveOldCacheFiles { MaxCacheFiles := 102 } CreationTime2 tDeleteFile2
                r1.cacheDir = some r2
            ∧ r2.deletedCount = 0 ∧ r2.attempted = [] ∧ r2.cacheDir = r1.cacheDir :=
  C29_second_call_deletes_nothing { MaxCacheFiles := 102 } (fun f => f.length) (fun _ => true)
    ((List.range 104).map (fun n => List.replicate (n + 1) 'c')) (by norm_num) (by norm_num)
    (fun _ _ => rfl)

/-! ## The navigation round trip -/

theorem tListPrev_of_tListNext (l : List ImagePtr) (c n : ImagePtr) (hnodup : l.Nodup)
    (hmem : c ∈ l) (h : tListNext l c = some n) : tListPrev l n = some c := by
  obtain ⟨pre, post, rfl⟩ := List.append_of_mem hmem
  rw [tListNext_append c post pre (not_mem_of_nodup_append hnodup)] at h
  obtain ⟨post1, rfl⟩ := List.head?_eq_some_iff.mp h
  have e : pre ++ c :: n :: post1 = (pre ++ [c]) ++ n :: post1 := by simp
  rw [e] at hnodup ⊢
  rw [tListPrev_append n post1 (pre ++ [c]) (not_mem_of_nodup_append hnodup)]
  exact List.getLast?_concat pre

theorem tListNext_of_tListPrev (l : List ImagePtr) (c p : ImagePtr) (hnodup : l.Nodup)
    (hmem : c ∈ l) (h : tListPrev l c = some p) : tListNext l p = some c := by
  obtain ⟨pre, post, rfl⟩ := List.append_of_mem hmem
  rw [tListPrev_append c post pre (not_mem_of_nodup_append hnodup)] at h
  obtain ⟨pre1, rfl⟩ := List.getLast?_eq_some_iff.mp h
  have e : (pre1 ++ [p]) ++ c :: post = pre1 ++ p :: c :: post := by simp
  rw [e] at hnodup ⊢
  rw [tListNext_append p (c :: post) pre1 (not_mem_of_nodup_append hnodup)]
  rfl

theorem tListPrevCirc_of_tListNextCirc (l : List ImagePtr) (c n : ImagePtr) (hnodup : l.Nodup)
    (hmem : c ∈ l) (h : tListNextCirc l c = some n) : tListPrevCirc l n = some c := by
  unfold tListNextCirc at h
  cases hn : tListNext l c with
  | some m =>
      rw [hn] at h
      simp only [Option.some.injEq] at h
      subst h
      unfold tListPrevCirc
      rw [tListPrev_of_tListNext l c m hnodup hmem hn]
  | none =>
      rw [hn] at h
      simp only [tListFirst] at h
      obtain ⟨pre, post, rfl⟩ := List.append_of_mem hmem
      rw [tListNext_append c post pre (not_mem_of_nodup_append hnodup)] at hn
      have hpost : post = [] := List.head?_eq_none_iff.mp hn
      subst hpost
      obtain ⟨tl, htl⟩ := List.head?_eq_some_iff.mp h
      have hprev : tListPrev (pre ++ [c]) n = none := by
        rw [htl]
        have := tListPrev_append n tl [] (List.not_mem_nil n)
        simpa using this
      unfold tListPrevCirc
      rw [hprev]
      exact List.getLast?_concat pre

theorem tListNextCirc_of_tListPrevCirc (l : List ImagePtr) (c p : ImagePtr) (hnodup : l.Nodup)
    (hmem : c ∈ l) (h : tListPrevCirc l c = some p) : tListNextCirc l p = some c := by
  unfold tListPrevCirc at h
  cases hn : tListPrev l c with
  | some m =>
      rw [hn] at h
      simp only [Option.some.injEq] at h
      subst h
      unfold tListNextCirc
      rw [tListNext_of_tListPrev l c m hnodup hmem hn]
  | none =>
      rw [hn] at h
      simp only [tListLast] at h
      obtain ⟨pre, post, rfl⟩ := List.append_of_mem hmem
      rw [tListPrev_append c post pre (not_mem_of_nodup_append hnodup)] at hn
      have hpre : pre = [] := List.getLast?_eq_none_iff.mp hn
      subst hpre
      obtain ⟨ini, hini⟩ := List.getLast?_eq_some_iff.mp h
      have hnext : tListNext ([] ++ c :: post) p = none := by
        rw [hini]
        rw [hini] at hnodup
        rw [tListNext_append p [] ini (not_mem_of_nodup_append hnodup)]
        rfl
      unfold tListNextCirc
      rw [hnext]
      rfl

/-- What a call of `OnNext` that returns true leaves: the target record is selected, in the
same catalog and the same slideshow mode. -/
theorem OnNext_result (Config : Settings) (decoded : Option (Int × ℚ)) (s s1 : State)
    (h : OnNext Config decoded s = some (s1, true)) :
    ∃ c n, s.CurrImage = some c
      ∧ (if (s.SlideshowPlaying && Config.SlideshowLooping) = true
          then tListNextCirc s.Images c else tListNext s.Images c) = some n
      ∧ s1.CurrImage = some n ∧ s1.Images = s.Images
      ∧ s1.SlideshowPlaying = s.SlideshowPlaying := by
  obtain ⟨c, s2, hc, htarget, -, himg, -, hplay, hload⟩ :=
    OnNext_via_LoadCurrImage Config decoded s s1 h
  cases ht : s2.CurrImage with
  | none => rw [LoadCurrImage_null Config decoded s2 ht] at hload; cases hload
  | some n =>
      obtain ⟨s3, hload3, hcur, himg3, -, -, -, hplay3, -⟩ :=
        LoadCurrImage_frame Config decoded s2 n ht
      rw [hload] at hload3
      cases hload3
      exact ⟨c, n, hc, by rw [← htarget, ht], hcur, himg3.trans himg, hplay3.trans hplay⟩

/-- What a call of `OnPrevious` that returns true leaves: the target record is selected, in
the same catalog and the same slideshow mode. -/
theorem OnPrevious_result (Config : Settings) (decoded : Option (Int × ℚ)) (s s1 : State)
    (h : OnPrevious Config decoded s = some (s1, true)) :
    ∃ c p, s.CurrImage = some c
      ∧ (if (s.SlideshowPlaying && Config.SlideshowLooping) = true
          then tListPrevCirc s.Images c else tListPrev s.Images c) = some p
      ∧ s1.CurrImage = some p ∧ s1.Images = s.Images
      ∧ s1.SlideshowPlaying = s.SlideshowPlaying := by
  obtain ⟨c, s2, hc, htarget, -, himg, -, hplay, hload⟩ :=
    OnPrevious_via_LoadCurrImage Config decoded s s1 h
  cases ht : s2.CurrImage with
  | none => rw [LoadCurrImage_null Config decoded s2 ht] at hload; cases hload
  | some n =>
      obtain ⟨s3, hload3, hcur, himg3, -, -, -, hplay3, -⟩ :=
        LoadCurrImage_frame Config decoded s2 n ht
      rw [hload] at hload3
      cases hload3
      exact ⟨c, n, hc, by rw [← htarget, ht], hcur, himg3.trans himg, hplay3.trans hplay⟩

/-- After a successful `OnNext`, `OnPrevious` succeeds and selects the original record. -/
theorem OnPrevious_after_OnNext (Config : Settings) (decoded1 decoded2 : Option (Int × ℚ))
    (s s1 : State) (c : ImagePtr) (hcurr : s.CurrImage = some c) (hmem : c ∈ s.Images)
    (hnodup : s.Images.Nodup) (h : OnNext Config decoded1 s = some (s1, true)) :
    ∃ s2, OnPrevious Config decoded2 s1 = some (s2, true) ∧ s2.CurrImage = some c := by
  obtain ⟨c1, n, hc1, htarget, hcur1, himg1, hplay1⟩ := OnNext_result Config decoded1 s s1 h
  rw [hcurr] at hc1
  cases hc1
  have hback : (if (s1.SlideshowPlaying && Config.SlideshowLooping) = true
      then tListPrevCirc s1.Images n else tListPrev s1.Images n) = some c := by
    rw [hplay1, himg1]
    by_cases hcirc : (s.SlideshowPlaying && Config.SlideshowLooping) = true
    · rw [if_pos hcirc] at htarget ⊢
      exact tListPrevCirc_of_tListNextCirc s.Images c n hnodup hmem htarget
    · rw [if_neg hcirc] at htarget ⊢
      exact tListPrev_of_tListNext s.Images c n hnodup hmem htarget
  have hgo : ¬ ((!(s1.SlideshowPlaying && Config.SlideshowLooping)
      && (tListPrev s1.Images n).isNone) = true) := by
    by_cases hcirc : (s1.SlideshowPlaying && Config.SlideshowLooping) = true
    · simp [hcirc]
    · rw [if_neg hcirc] at hback
      simp [hback]
  obtain ⟨s2, hs2, hcur2, -⟩ := OnPrevious_moves Config decoded2 s1 n c hcur1 hback hgo
  exact ⟨s2, hs2, hcur2⟩

/-- After a successful `OnPrevious`, `OnNext` succeeds and selects the original record. -/
theorem OnNext_after_OnPrevious (Config : Settings) (decoded1 decoded2 : Option (Int × ℚ))
    (s s1 : State) (c : ImagePtr) (hcurr : s.CurrImage = some c) (hmem : c ∈ s.Images)
    (hnodup : s.Images.Nodup) (h : OnPrevious Config decoded1 s = some (s1, true)) :
    ∃ s2, OnNext Config decoded2 s1 = some (s2, true) ∧ s2.CurrImage = some c := by
  obtain ⟨c1, n, hc1, htarget, hcur1, himg1, hplay1⟩ :=
    OnPrevious_result Config decoded1 s s1 h
  rw [hcurr] at hc1
  cases hc1
  have hback : (if (s1.SlideshowPlaying && Config.SlideshowLooping) = true
      then tListNextCirc s1.Images n else tListNext s1.Images n) = some c := by
    rw [hplay1, himg1]
    by_cases hcirc : (s.SlideshowPlaying && Config.SlideshowLooping) = true
    · rw [if_pos hcirc] at htarget ⊢
      exact tListNextCirc_of_tListPrevCirc s.Images c n hnodup hmem htarget
    · rw [if_neg hcirc] at htarget ⊢
      exact tListNext_of_tListPrev s.Images c n hnodup hmem htarget
  have hgo : ¬ ((!(s1.SlideshowPlaying && Config.SlideshowLooping)
      && (tListNext s1.Images n).isNone) = true) := by
    by_cases hcirc : (s1.SlideshowPlaying && Config.SlideshowLooping) = true
    · simp [hcirc]
    · rw [if_neg hcirc] at hback
      simp [hback]
  obtain ⟨s2, hs2, hcur2, -⟩ := OnNext_moves Config decoded2 s1 n c hcur1 hback hgo
  exact ⟨s2, hs2, hcur2⟩

/-- C30: navigation round trip. On a catalog that holds every record once and holds the
selected record, whenever OnNext returns true, an immediately following OnPrevious (in the
same settings) returns true and selects the original record again, and symmetrically for
OnPrevious followed by OnNext. In circular mode (a slideshow playing with looping on) both
round trips do take place from every selected record, the ends of the catalog and a
one-record catalog included. -/
theorem C30_navigation_round_trip (Config : Settings) (decoded1 decoded2 : Option (Int × ℚ))
    (s : State) (c : ImagePtr) (hcurr : s.CurrImage = some c) (hmem : c ∈ s.Images)
    (hnodup : s.Images.Nodup) :
    (∀ s1, OnNext Config decoded1 s = some (s1, true) →
        ∃ s2, OnPrevious Config decoded2 s1 = some (s2, true) ∧ s2.CurrImage = some c)
    ∧ (∀ s1, OnPrevious Config decoded1 s = some (s1, true) →
        ∃ s2, OnNext Config decoded2 s1 = some (s2, true) ∧ s2.CurrImage = some c)
    ∧ ((s.SlideshowPlaying && Config.SlideshowLooping) = true →
        (∃ s1 s2, OnNext Config decoded1 s = some (s1, true)
            ∧ OnPrevious Config decoded2 s1 = some (s2, true) ∧ s2.CurrImage = some c)
        ∧ (∃ s1 s2, OnPrevious Config decoded1 s = some (s1, true)
            ∧ OnNext Config decoded2 s1 = some (s2, true) ∧ s2.CurrImage = some c)) := by
  have hne : s.Images ≠ [] := List.ne_nil_of_mem hmem
  refine ⟨fun s1 h => OnPrevious_after_OnNext Config decoded1 decoded2 s s1 c hcurr hmem hnodup h,
    fun s1 h => OnNext_after_OnPrevious Config decoded1 decoded2 s s1 c hcurr hmem hnodup h,
    fun hcirc => ⟨?_, ?_⟩⟩
  · obtain ⟨n, hn⟩ := tListNextCirc_isSome s.Images c hne
    obtain ⟨s1, hs1, -⟩ := OnNext_moves Config decoded1 s c n hcurr
      (by rw [if_pos hcirc]; exact hn) (by simp [hcirc])
    obtain ⟨s2, hs2, hcur2⟩ :=
      OnPrevious_after_OnNext Config decoded1 decoded2 s s1 c hcurr hmem hnodup hs1
    exact ⟨s1, s2, hs1, hs2, hcur2⟩
  · obtain ⟨p, hp⟩ := tListPrevCirc_isSome s.Images c hne
    obtain ⟨s1, hs1, -⟩ := OnPrevious_moves Config decoded1 s c p hcurr
      (by rw [if_pos hcirc]; exact hp) (by simp [hcirc])
    obtain ⟨s2, hs2, hcur2⟩ :=
      OnNext_after_OnPrevious Config decoded1 decoded2 s s1 c hcurr hmem hnodup hs1
    exact ⟨s1, s2, hs1, hs2, hcur2⟩

/-- The round trips of C30 in circular mode, from the first record of a three-record catalog
and in a one-record catalog. -/
theorem C30_navigation_round_trip_witness :
    (navSlideshow.CurrImage = some 1 ∧ 1 ∈ navSlideshow.Images ∧ navSlideshow.Images.Nodup
      ∧ ∃ s1 s2, OnPrevious loopingConfig (some (1048576, 9)) navSlideshow = some (s1, true)
          ∧ OnNext loopingConfig none s1 = some (s2, true) ∧ s2.CurrImage = some 1)
    ∧ (loneSlideshow.CurrImage = some 2 ∧ 2 ∈ loneSlideshow.Images ∧ loneSlideshow.Images.Nodup
      ∧ ∃ s1 s2, OnNext loopingConfig (some (1048576, 9)) loneSlideshow = some (s1, true)
          ∧ OnPrevious loopingConfig none s1 = some (s2, true) ∧ s2.CurrImage = some 2) :=
  ⟨⟨rfl, by decide, by decide,
      ((C30_navigation_round_trip loopingConfig (some (1048576, 9)) none navSlideshow 1 rfl
        (by decide) (by decide)).2.2 rfl).2⟩,
    ⟨rfl, by decide, by decide,
      ((C30_navigation_round_trip loopingConfig (some (1048576, 9)) none loneSlideshow 2 rfl
        (by decide) (by decide)).2.2 rfl).1⟩⟩

end Viewer
